import Mathlib

/-!
Verification of the roguelike-tutorial simulation core.

Part 1: a shallow embedding of `src/terrain.rs` (dungeon generation).
Rust panics are modelled as `none`; the mutable RNG (`&mut R: Rng`) is
modelled as an explicit deterministic stream of draws threaded through
every function.  `u32` becomes `Nat`, `i32` becomes `Int` (the game's
coordinates are tiny, so overflow never matters and is not modelled).
-/

namespace Terrain

/-- `world::NpcType` (enum). -/
inductive NpcType
  | Orc
  | Troll
deriving DecidableEq, Repr

/-- `world::ItemType` (enum). -/
inductive ItemType
  | HealthPotion
  | FireballScroll
  | ConfusionScroll
  | Sword
  | Staff
  | Armor
  | Robe
deriving DecidableEq, Repr

/-- `terrain::TerrainTile` (enum). -/
inductive TerrainTile
  | Player
  | Floor
  | Wall
  | Npc (n : NpcType)
  | Item (i : ItemType)
  | Stairs
deriving DecidableEq, Repr

/-- `grid_2d::Size`: a pair of `u32` dimensions. -/
structure GSize where
  width : Nat
  height : Nat
deriving DecidableEq, Repr

/-- `grid_2d::Coord`: a pair of `i32` coordinates. -/
structure Coord where
  x : Int
  y : Int
deriving DecidableEq, Repr

/-- Model of `rand::Rng` state: a deterministic stream of raw draws.
`seq` gives the raw value of each successive draw, `idx` is the number of
draws consumed so far.  This models any fixed deterministic RNG state
(e.g. `Isaac64Rng`) precisely enough for the generator: what matters is
that draws are consumed in a fixed order from a fixed state. -/
structure MRng where
  seq : Nat → Nat
  idx : Nat

/-- One raw draw from the stream. -/
def MRng.next (r : MRng) : Nat × MRng :=
  (r.seq r.idx, { r with idx := r.idx + 1 })

/-- Model of `Rng::gen_range(lo..hi)`: uniform in `[lo, hi)`, consuming one
draw; rand panics (`none`) when the range `lo..hi` is empty. -/
def genRange (lo hi : Nat) (r : MRng) : Option (Nat × MRng) :=
  if lo < hi then
    let p := r.next
    some (lo + p.1 % (hi - lo), p.2)
  else
    none

/-- `grid_2d::Grid`: a sized grid of cells.  The row-major `Vec` backing
store is modelled as a total function; cells outside the bounds are never
read or written (`get_checked` guards every access). -/
structure TGrid (α : Type) where
  size : GSize
  cells : Coord → α

/-- Membership of a coordinate in a grid of the given size. -/
def inBounds (s : GSize) (c : Coord) : Prop :=
  0 ≤ c.x ∧ c.x < (s.width : Int) ∧ 0 ≤ c.y ∧ c.y < (s.height : Int)

instance (s : GSize) (c : Coord) : Decidable (inBounds s c) := by
  unfold inBounds
  infer_instance

/-- `Grid::get_checked`: panics (`none`) when out of bounds. -/
def TGrid.getChecked (g : TGrid α) (c : Coord) : Option α :=
  if inBounds g.size c then some (g.cells c) else none

/-- `*grid.get_checked_mut(c) = v`: panics (`none`) when out of bounds. -/
def TGrid.setChecked (g : TGrid α) (c : Coord) (v : α) : Option (TGrid α) :=
  if inBounds g.size c then
    some { g with cells := fun c2 => if c2 = c then v else g.cells c2 }
  else
    none

/-- `Grid::new_copy(size, None)`. -/
def TGrid.newCopy (s : GSize) (v : α) : TGrid α := ⟨s, fun _ => v⟩

/-- `Grid::map`. -/
def TGrid.map (g : TGrid α) (f : α → β) : TGrid β := ⟨g.size, fun c => f (g.cells c)⟩

/-- `u32::checked_sub`. -/
def checkedSub (a b : Nat) : Option Nat :=
  if b ≤ a then some (a - b) else none

/-- The loop body of `choose_from_probability_distribution`: walk the list
subtracting weights from `choice` until `checked_sub` fails; falling off the
end is the `unreachable!()` panic (`none`). -/
def cfpdLoop : List (α × Nat) → Nat → Option α
  | [], _ => none
  | (value, probability) :: rest, choice =>
    match checkedSub choice probability with
    | some remaining => cfpdLoop rest remaining
    | none => some value

/-- `terrain::choose_from_probability_distribution`: cumulative-sum weighted
selection.  `gen_range(0..sum)` panics (`none`) when the weight sum is zero. -/
def choose_from_probability_distribution (dist : List (α × Nat)) (r : MRng) :
    Option (α × MRng) := do
  let sum := (dist.map Prod.snd).sum
  let (choice, r1) ← genRange 0 sum r
  let v ← cfpdLoop dist choice
  some (v, r1)

/-- Model of `rand::seq::SliceRandom::choose`: `None` on an empty slice,
otherwise one uniform index draw.  (The call sites immediately `.unwrap()`,
so an empty slice there is a panic.) -/
def sliceChoose (xs : List α) (r : MRng) : Option (α × MRng) := do
  let (i, r1) ← genRange 0 xs.length r
  let v ← xs.get? i
  some (v, r1)

/-- The reservoir update loop of `choose_multiple`: for the `i`-th element
after the initial `take amount`, draw `k = gen_range(0..(i + 1 + amount))`
and overwrite slot `k` when it exists (`Vec::get_mut` returns `None`,
hence no write, when `k` is past the end). -/
def chooseMultipleLoop (amount : Nat) :
    List α → List α → Nat → MRng → Option (List α × MRng)
  | reservoir, [], _, r => some (reservoir, r)
  | reservoir, e :: rest, i, r =>
    match genRange 0 (i + 1 + amount) r with
    | none => none
    | some (k, r1) =>
      chooseMultipleLoop amount (reservoir.set k e) rest (i + 1) r1

/-- Model of `rand::seq::IteratorRandom::choose_multiple(rng, amount)`
(rand 0.8): fill a reservoir with the first `amount` elements; if the
iterator had at least `amount` elements, run the reservoir-sampling loop
over the rest. -/
def chooseMultiple (xs : List α) (amount : Nat) (r : MRng) :
    Option (List α × MRng) :=
  let reservoir := xs.take amount
  if reservoir.length = amount then
    chooseMultipleLoop amount reservoir (xs.drop amount) 0 r
  else
    some (reservoir, r)

/-- `terrain::Room`. -/
structure Room where
  top_left : Coord
  size : GSize
deriving DecidableEq, Repr

/-- `Room::choose`: sample width in `5..11`, height in `5..9`, then a
top-left position inside `bounds - size`.  The `u32` subtraction
`bounds - size` panics on underflow (debug semantics), and
`gen_range(0..0)` panics when a dimension fits exactly. -/
def Room.choose (bounds : GSize) (r : MRng) : Option (Room × MRng) := do
  let (width, r1) ← genRange 5 11 r
  let (height, r2) ← genRange 5 9 r1
  let tlw ← checkedSub bounds.width width
  let tlh ← checkedSub bounds.height height
  let (left, r3) ← genRange 0 tlw r2
  let (top, r4) ← genRange 0 tlh r3
  some (⟨⟨(left : Int), (top : Int)⟩, ⟨width, height⟩⟩, r4)

/-- `Room::center`: `top_left + size.to_coord() / 2` (truncating `i32`
division; the components are nonnegative). -/
def Room.center (room : Room) : Coord :=
  ⟨room.top_left.x + (room.size.width / 2 : Nat),
   room.top_left.y + (room.size.height / 2 : Nat)⟩

/-- `Room::coords`: row-major iteration over the room's cells. -/
def Room.coords (room : Room) : List Coord :=
  (List.range room.size.height).flatMap fun (y : Nat) =>
    (List.range room.size.width).map fun (x : Nat) =>
      ⟨room.top_left.x + (x : Int), room.top_left.y + (y : Int)⟩

/-- The short-circuiting `Iterator::all` of `only_intersects_empty`:
`get_checked` panics (`none`) out of bounds, and iteration stops at the
first occupied cell. -/
def onlyIntersectsEmptyLoop (g : TGrid (Option TerrainTile)) :
    List Coord → Option Bool
  | [] => some true
  | c :: rest =>
    match g.getChecked c with
    | none => none
    | some cell =>
      if cell.isSome then some false else onlyIntersectsEmptyLoop g rest

/-- `Room::only_intersects_empty`. -/
def Room.only_intersects_empty (room : Room) (g : TGrid (Option TerrainTile)) :
    Option Bool :=
  onlyIntersectsEmptyLoop g room.coords

/-- The write loop of `Room::carve_out`: a cell on the room's top or left
edge becomes `Wall`, every other room cell becomes `Floor`. -/
def carveOutLoop (room : Room) (g : TGrid (Option TerrainTile)) :
    List Coord → Option (TGrid (Option TerrainTile))
  | [] => some g
  | c :: rest => do
    let v := if c.x = room.top_left.x ∨ c.y = room.top_left.y
      then TerrainTile.Wall else TerrainTile.Floor
    let g1 ← g.setChecked c (some v)
    carveOutLoop room g1 rest

/-- `Room::carve_out`. -/
def Room.carve_out (room : Room) (g : TGrid (Option TerrainTile)) :
    Option (TGrid (Option TerrainTile)) :=
  carveOutLoop room g room.coords

/-- The lazy `filter` feeding `choose_multiple` in `place_npcs` /
`place_items`: keep room cells whose tile is `Floor`; the `unwrap`
panics (`none`) if a room cell is still unassigned. -/
def floorCoordsLoop (g : TGrid (Option TerrainTile)) :
    List Coord → Option (List Coord)
  | [] => some []
  | c :: rest => do
    let cell ← g.getChecked c
    let t ← cell
    let tail ← floorCoordsLoop g rest
    if t = TerrainTile.Floor then some (c :: tail) else some tail

/-- The write loop shared by `place_npcs` / `place_items`: for each chosen
coordinate draw a kind from the weighted distribution and write it. -/
def placeLoop (mk : α → TerrainTile) (dist : List (α × Nat))
    (g : TGrid (Option TerrainTile)) :
    List Coord → MRng → Option (TGrid (Option TerrainTile) × MRng)
  | [], r => some (g, r)
  | c :: rest, r => do
    let (kind, r1) ← choose_from_probability_distribution dist r
    let g1 ← g.setChecked c (some (mk kind))
    placeLoop mk dist g1 rest r1

/-- `Room::place_npcs`. -/
def Room.place_npcs (room : Room) (n : Nat) (dist : List (NpcType × Nat))
    (g : TGrid (Option TerrainTile)) (r : MRng) :
    Option (TGrid (Option TerrainTile) × MRng) := do
  let floors ← floorCoordsLoop g room.coords
  let (chosen, r1) ← chooseMultiple floors n r
  placeLoop TerrainTile.Npc dist g chosen r1

/-- `Room::place_items`. -/
def Room.place_items (room : Room) (n : Nat) (dist : List (ItemType × Nat))
    (g : TGrid (Option TerrainTile)) (r : MRng) :
    Option (TGrid (Option TerrainTile) × MRng) := do
  let floors ← floorCoordsLoop g room.coords
  let (chosen, r1) ← chooseMultiple floors n r
  placeLoop TerrainTile.Item dist g chosen r1

/-- `terrain::NPCS_PER_ROOM_DISTRIBUTION`. -/
def NPCS_PER_ROOM_DISTRIBUTION : List Nat :=
  [0, 0, 0, 0, 0, 0, 1, 1, 1, 1, 2, 2, 2, 3, 3, 4]

/-- `terrain::ITEMS_PER_ROOM_DISTRIBUTION`. -/
def ITEMS_PER_ROOM_DISTRIBUTION : List Nat :=
  [0, 0, 1, 1, 1, 1, 1, 2, 2]

/-- `terrain::make_npc_probability_distribution`. -/
def make_npc_probability_distribution (level : Nat) : List (NpcType × Nat) :=
  [(NpcType.Orc, 20), (NpcType.Troll, level)]

/-- `terrain::make_item_probability_distribution`. -/
def make_item_probability_distribution (level : Nat) : List (ItemType × Nat) :=
  let item_chance := if level ≤ 1 then 5 else if level ≤ 3 then 10 else 20
  [(ItemType.HealthPotion, 200),
   (ItemType.FireballScroll, if level ≤ 1 then 10 else if level ≤ 4 then 50 else 100),
   (ItemType.ConfusionScroll, if level ≤ 1 then 10 else if level ≤ 4 then 30 else 50),
   (ItemType.Sword, item_chance),
   (ItemType.Staff, item_chance),
   (ItemType.Armor, item_chance),
   (ItemType.Robe, item_chance)]

/-- The in-flight state of `generate_dungeon`'s placement loop. -/
structure GenState where
  grid : TGrid (Option TerrainTile)
  room_centers : List Coord
  rng : MRng

/-- One iteration of the `NUM_ATTEMPTS` loop of `generate_dungeon`:
sample a room; if all its cells are unassigned, carve it, mark the player
spawn if it is the first room, record its center, and populate it. -/
def attemptStep (size : GSize) (npcDist : List (NpcType × Nat))
    (itemDist : List (ItemType × Nat)) (st : GenState) : Option GenState := do
  let (room, r1) ← Room.choose size st.rng
  let ok ← room.only_intersects_empty st.grid
  if ok then
    let g1 ← room.carve_out st.grid
    let room_center := room.center
    let g2 ← if st.room_centers.isEmpty
      then g1.setChecked room_center (some TerrainTile.Player)
      else some g1
    let centers := st.room_centers ++ [room_center]
    let (num_npcs, r2) ← sliceChoose NPCS_PER_ROOM_DISTRIBUTION r1
    let (g3, r3) ← room.place_npcs num_npcs npcDist g2 r2
    let (num_items, r4) ← sliceChoose ITEMS_PER_ROOM_DISTRIBUTION r3
    let (g4, r5) ← room.place_items num_items itemDist g3 r4
    some ⟨g4, centers, r5⟩
  else
    some ⟨st.grid, st.room_centers, r1⟩

/-- The `NUM_ATTEMPTS`-times iteration of `attemptStep`. -/
def attemptsLoop (size : GSize) (npcDist : List (NpcType × Nat))
    (itemDist : List (ItemType × Nat)) : Nat → GenState → Option GenState
  | 0, st => some st
  | n + 1, st => do
    let st1 ← attemptStep size npcDist itemDist st
    attemptsLoop size npcDist itemDist n st1

/-- The inclusive horizontal run of `carve_corridor`: row `start.y`,
columns `min x ..= max x`; only `None` / `Wall` cells become `Floor`. -/
def carveH (startC endC : Coord) (g : TGrid (Option TerrainTile)) :
    Nat → Int → Option (TGrid (Option TerrainTile))
  | 0, _ => some g
  | n + 1, i => do
    let cell ← g.getChecked ⟨i, startC.y⟩
    let g1 ←
      if cell = none ∨ cell = some TerrainTile.Wall
      then g.setChecked ⟨i, startC.y⟩ (some TerrainTile.Floor)
      else some g
    carveH startC endC g1 n (i + 1)

/-- The exclusive vertical run of `carve_corridor`: column `end.x`,
rows `min y .. max y`; only `None` / `Wall` cells become `Floor`. -/
def carveV (startC endC : Coord) (g : TGrid (Option TerrainTile)) :
    Nat → Int → Option (TGrid (Option TerrainTile))
  | 0, _ => some g
  | n + 1, i => do
    let cell ← g.getChecked ⟨endC.x, i⟩
    let g1 ←
      if cell = none ∨ cell = some TerrainTile.Wall
      then g.setChecked ⟨endC.x, i⟩ (some TerrainTile.Floor)
      else some g
    carveV startC endC g1 n (i + 1)

/-- `terrain::carve_corridor`: the horizontal run `min x ..= max x` at
`start.y`, then the vertical run `min y .. max y` (exclusive upper bound)
at `end.x`. -/
def carve_corridor (startC endC : Coord) (g : TGrid (Option TerrainTile)) :
    Option (TGrid (Option TerrainTile)) := do
  let lox := min startC.x endC.x
  let hix := max startC.x endC.x
  let g1 ← carveH startC endC g ((hix - lox).toNat + 1) lox
  let loy := min startC.y endC.y
  let hiy := max startC.y endC.y
  carveV startC endC g1 (hiy - loy).toNat loy

/-- The `room_centers.windows(2)` loop: carve a corridor between each pair
of consecutive room centers. -/
def corridorsLoop (g : TGrid (Option TerrainTile)) :
    List Coord → Option (TGrid (Option TerrainTile))
  | [] => some g
  | [_] => some g
  | c0 :: c1 :: rest => do
    let g1 ← carve_corridor c0 c1 g
    corridorsLoop g1 (c1 :: rest)

/-- `terrain::generate_dungeon`, instrumented to also return the
`room_centers` list and the final RNG state (both are live values of the
source function; the Rust function returns only the grid).  A `none`
result models a panic. -/
def generateDungeonAux (size : GSize) (level : Nat) (r : MRng) :
    Option (TGrid TerrainTile × List Coord × MRng) := do
  let grid := TGrid.newCopy size (none : Option TerrainTile)
  let npcDist := make_npc_probability_distribution level
  let itemDist := make_item_probability_distribution level
  let st ← attemptsLoop size npcDist itemDist 100 ⟨grid, [], r⟩
  let g1 ← corridorsLoop st.grid st.room_centers
  let lastCenter ← st.room_centers.getLast?
  let g2 ← g1.setChecked lastCenter (some TerrainTile.Stairs)
  some (g2.map (fun t => t.getD TerrainTile.Wall), st.room_centers, st.rng)

/-- `terrain::generate_dungeon` proper: just the grid. -/
def generate_dungeon (size : GSize) (level : Nat) (r : MRng) :
    Option (TGrid TerrainTile) :=
  (generateDungeonAux size level r).map (fun t => t.1)

/-- A constant raw-draw stream (a particular RNG state). -/
def constSeq (v : Nat) : Nat → Nat := fun _ => v

/-- A raw-draw stream taken from a finite table (0 past the end). -/
def tableSeq (l : List Nat) : Nat → Nat := fun i => l.getD i 0

/-- An RNG state whose draws make `generate_dungeon ⟨12, 9⟩` accept exactly
two rooms: a 5×5 room at (0,0) and a 5×5 room at (6,0). -/
def twoRoomSeq : Nat → Nat := tableSeq (List.replicate 36 0 ++ [0, 0, 6, 0])

end Terrain

/-!
Part 2: a shallow embedding of `src/game.rs` and the input dispatch of
`src/app.rs`.  The `world`, `visibility` and `behavior` modules of this
repository are not under `src/`; their operations are modelled from the
spec (each such definition says so in its doc comment).  The types and the
control flow of `GameState` and `AppData::handle_input` are translated
from the source.
-/

namespace Game

open Terrain (GSize Coord MRng NpcType ItemType inBounds)

/-- `entity_table::Entity`: an opaque identifier. -/
abbrev Entity := Nat

/-- `direction::CardinalDirection`. -/
inductive CardinalDirection
  | North
  | East
  | South
  | West
deriving DecidableEq, Repr

/-- The unit coordinate offset of a cardinal direction (screen
coordinates: north is negative `y`). -/
def CardinalDirection.offset : CardinalDirection → Coord
  | North => ⟨0, -1⟩
  | East => ⟨1, 0⟩
  | South => ⟨0, 1⟩
  | West => ⟨-1, 0⟩

/-- Coordinate addition. -/
def coordAdd (a b : Coord) : Coord := ⟨a.x + b.x, a.y + b.y⟩

/-- `game::LogMessage` (enum, from `src/game.rs`). -/
inductive LogMessage
  | PlayerAttacksNpc (n : NpcType)
  | NpcAttacksPlayer (n : NpcType)
  | PlayerKillsNpc (n : NpcType)
  | NpcKillsPlayer (n : NpcType)
  | PlayerGets (i : ItemType)
  | PlayerInventoryIsFull
  | NoItemUnderPlayer
  | NoItemInInventorySlot
  | PlayerHeals
  | PlayerDrops (i : ItemType)
  | NoSpaceToDropItem
  | PlayerLaunchesProjectile
  | NpcDies (n : NpcType)
  | NpcBecomesConfused (n : NpcType)
  | NpcIsNoLongerConfused (n : NpcType)
  | PlayerDodges (n : NpcType)
  | NpcDodges (n : NpcType)
  | PlayerEquips (i : ItemType)
deriving DecidableEq, Repr

/-- `game::ExamineCell` (enum, from `src/game.rs`). -/
inductive ExamineCell
  | Npc (n : NpcType)
  | NpcCorpse (n : NpcType)
  | Item (i : ItemType)
  | Player
deriving DecidableEq, Repr

/-- `game::LevelUp` (enum, from `src/game.rs`). -/
inductive LevelUp
  | Strength
  | Dexterity
  | Intelligence
  | Health
deriving DecidableEq, Repr

/-- `world::ItemUsage`: an item use either consumes the turn immediately
or starts an aim step. -/
inductive ItemUsage
  | Immediate
  | Aim
deriving DecidableEq, Repr

/-- `visibility::CellVisibility`. -/
inductive CellVisibility
  | Never
  | Previously
  | Currently
deriving DecidableEq, Repr

/-- `visibility::VisibilityAlgorithm`. -/
inductive VisibilityAlgorithm
  | Shadowcast
  | Omniscient
deriving DecidableEq, Repr

/-- `behavior::NpcAction`. -/
inductive NpcAction
  | Wait
  | Move (d : CardinalDirection)
deriving DecidableEq, Repr

/-- Modelled from the spec: `behavior.rs` is not under `src/`.  The AI
state of one non-player character: a behavior kind with an optional
confusion status and remaining duration. -/
structure Agent where
  confusedTurns : Option Nat
deriving DecidableEq, Repr

/-- Modelled from the spec: `behavior.rs` is not under `src/`.  The
shared per-AI-phase context (cached pathing data recomputed once per
phase from the player's position). -/
structure BehaviorContext where
  cachedPlayerCoord : Option Coord
deriving DecidableEq, Repr

/-- Modelled from the spec: `BehaviorContext::update` recomputes the
shared behavior context from the player's current position. -/
def BehaviorContext.update (playerCoord : Option Coord) : BehaviorContext :=
  ⟨playerCoord⟩

/-- Modelled from the spec: `world.rs` is not under `src/`.  The
persistent data of one character: combat stats, hit points and the
fixed-capacity inventory of optional item-entity slots. -/
structure CharData where
  hp : Int
  maxHp : Int
  strength : Int
  dexterity : Int
  intelligence : Int
  inventory : List (Option Entity)
deriving DecidableEq, Repr

/-- Modelled from the spec: one character in the world: its position on
the Character layer, its persistent data, and its NPC kind (`none` for
the player). -/
structure MChar where
  pos : Coord
  data : CharData
  npc : Option NpcType
deriving DecidableEq, Repr

/-- Modelled from the spec: `world.rs` is not under `src/`.  The entity /
component store: wall and stairs feature cells, characters keyed by
entity, on-ground items, the item-kind component, and in-flight
projectiles (animation state). -/
structure MWorld where
  size : GSize
  walls : List Coord
  stairs : List Coord
  chars : List (Entity × MChar)
  groundItems : List (Entity × ItemType × Coord)
  itemKinds : List (Entity × ItemType)
  projectiles : List Coord
deriving DecidableEq, Repr

/-- Association-list lookup keyed by entity. -/
def assocFind (l : List (Entity × α)) (e : Entity) : Option α :=
  match l with
  | [] => none
  | (k, v) :: rest => if k = e then some v else assocFind rest e

/-- Association-list removal keyed by entity. -/
def assocRemove (l : List (Entity × α)) (e : Entity) : List (Entity × α) :=
  l.filter (fun p => p.1 ≠ e)

/-- Association-list update keyed by entity. -/
def assocSet (l : List (Entity × α)) (e : Entity) (v : α) : List (Entity × α) :=
  l.map (fun p => if p.1 = e then (e, v) else p)

/-- `World::has_projectiles`. -/
def MWorld.has_projectiles (w : MWorld) : Bool := !w.projectiles.isEmpty

/-- `World::is_living_character` (modelled from the spec: a character is
living while it occupies the Character layer with positive hit points). -/
def MWorld.is_living_character (w : MWorld) (e : Entity) : Bool :=
  match assocFind w.chars e with
  | some ch => 0 < ch.data.hp
  | none => false

/-- `World::entity_coord`. -/
def MWorld.entity_coord (w : MWorld) (e : Entity) : Option Coord :=
  (assocFind w.chars e).map (fun ch => ch.pos)

/-- The living character standing at a coordinate, if any. -/
def MWorld.characterAt (w : MWorld) (c : Coord) : Option (Entity × MChar) :=
  w.chars.find? (fun p => p.2.pos = c ∧ 0 < p.2.data.hp)

/-- The on-ground item at a coordinate, if any. -/
def MWorld.itemAt (w : MWorld) (c : Coord) : Option (Entity × ItemType) :=
  (w.groundItems.find? (fun p => p.2.2 = c)).map (fun p => (p.1, p.2.1))

/-- Whether a coordinate can be walked into: inside the grid and not a
Wall feature. -/
def MWorld.walkable (w : MWorld) (c : Coord) : Bool :=
  decide (inBounds w.size c) && !(w.walls.contains c)

/-- Modelled from the spec: `World::maybe_move_character`.  Moving into a
cell occupied by a living character resolves combat (a dodge roll from
the RNG stream, damage, death demoting the defender off the Character
layer with a kill/death message); moving into a Wall or out of bounds is
a silent no-op failure; otherwise the character relocates.  Returns the
world, the message log and the RNG. -/
def MWorld.maybe_move_character (w : MWorld) (e : Entity) (d : CardinalDirection)
    (log : List LogMessage) (rng : MRng) : MWorld × List LogMessage × MRng :=
  match assocFind w.chars e with
  | none => (w, log, rng)
  | some ch =>
    let target := coordAdd ch.pos d.offset
    match w.characterAt target with
    | some (de, dch) =>
      -- combat: one dodge roll, then one point of damage
      let p := rng.next
      let attackerNpc := ch.npc
      let defenderNpc := dch.npc
      if p.1 % 4 = 0 then
        let msg := match defenderNpc with
          | some n => LogMessage.NpcDodges n
          | none =>
            match attackerNpc with
            | some n => LogMessage.PlayerDodges n
            | none => LogMessage.PlayerDodges NpcType.Orc
        (w, log ++ [msg], p.2)
      else
        let hp1 := dch.data.hp - 1
        let attackMsg := match attackerNpc, defenderNpc with
          | none, some n => LogMessage.PlayerAttacksNpc n
          | some n, _ => LogMessage.NpcAttacksPlayer n
          | none, none => LogMessage.PlayerAttacksNpc NpcType.Orc
        if hp1 ≤ 0 then
          let killMsg := match attackerNpc, defenderNpc with
            | none, some n => LogMessage.PlayerKillsNpc n
            | some n, none => LogMessage.NpcKillsPlayer n
            | _, some n => LogMessage.NpcDies n
            | _, none => LogMessage.NpcKillsPlayer NpcType.Orc
          ({ w with chars := assocRemove w.chars de }, log ++ [attackMsg, killMsg], rng)
        else
          ({ w with chars := assocSet w.chars de { dch with data := { dch.data with hp := hp1 } } },
           log ++ [attackMsg], rng)
    | none =>
      if w.walkable target then
        ({ w with chars := assocSet w.chars e { ch with pos := target } }, log, rng)
      else
        (w, log, rng)

/-- Replace the first `none` slot of an inventory with `some e`; `none`
when the inventory is full. -/
def fillFirstSlot (slots : List (Option Entity)) (e : Entity) :
    Option (List (Option Entity)) :=
  match slots with
  | [] => none
  | none :: rest => some (some e :: rest)
  | some x :: rest => (fillFirstSlot rest e).map (fun r => some x :: r)

/-- Modelled from the spec: `World::maybe_get_item`.  Nothing to pick up
appends `NoItemUnderPlayer` and fails; a full inventory appends
`PlayerInventoryIsFull` and fails; otherwise the item entity leaves the
ground and is stored in the first free slot. -/
def MWorld.maybe_get_item (w : MWorld) (e : Entity) (log : List LogMessage) :
    Option Unit × MWorld × List LogMessage :=
  match assocFind w.chars e with
  | none => (none, w, log)
  | some ch =>
    match w.itemAt ch.pos with
    | none => (none, w, log ++ [LogMessage.NoItemUnderPlayer])
    | some (ie, ty) =>
      match fillFirstSlot ch.data.inventory ie with
      | none => (none, w, log ++ [LogMessage.PlayerInventoryIsFull])
      | some slots =>
        (some (),
         { w with
            chars := assocSet w.chars e { ch with data := { ch.data with inventory := slots } },
            groundItems := w.groundItems.filter (fun p => p.1 ≠ ie) },
         log ++ [LogMessage.PlayerGets ty])

/-- Modelled from the spec: the usage kind of an item type: potions heal
immediately, scrolls start an aim step, equipment equips immediately. -/
def itemUsageKind : ItemType → ItemUsage
  | ItemType.FireballScroll => ItemUsage.Aim
  | ItemType.ConfusionScroll => ItemUsage.Aim
  | _ => ItemUsage.Immediate

/-- Modelled from the spec: `World::maybe_use_item`.  An empty or
out-of-range slot appends `NoItemInInventorySlot` and fails; a potion
heals and is consumed (`Immediate`); a scroll reports `Aim` without
consuming the turn; equipment equips (`Immediate`). -/
def MWorld.maybe_use_item (w : MWorld) (e : Entity) (idx : Nat)
    (log : List LogMessage) : Option ItemUsage × MWorld × List LogMessage :=
  match assocFind w.chars e with
  | none => (none, w, log)
  | some ch =>
    match ch.data.inventory.getD idx none with
    | none => (none, w, log ++ [LogMessage.NoItemInInventorySlot])
    | some ie =>
      match assocFind w.itemKinds ie with
      | none => (none, w, log ++ [LogMessage.NoItemInInventorySlot])
      | some ty =>
        match itemUsageKind ty with
        | ItemUsage.Aim => (some ItemUsage.Aim, w, log)
        | ItemUsage.Immediate =>
          let data1 :=
            if ty = ItemType.HealthPotion then
              { ch.data with
                  hp := min ch.data.maxHp (ch.data.hp + 5),
                  inventory := ch.data.inventory.set idx none }
            else
              { ch.data with inventory := ch.data.inventory.set idx none }
          let msg :=
            if ty = ItemType.HealthPotion then LogMessage.PlayerHeals
            else LogMessage.PlayerEquips ty
          (some ItemUsage.Immediate,
           { w with chars := assocSet w.chars e { ch with data := data1 } },
           log ++ [msg])

/-- Modelled from the spec: `World::maybe_use_item_aim`.  An empty slot
or a non-aimable item fails; otherwise a projectile is launched toward
the target, the item is consumed and the launch is logged. -/
def MWorld.maybe_use_item_aim (w : MWorld) (e : Entity) (idx : Nat)
    (target : Coord) (log : List LogMessage) :
    Option Unit × MWorld × List LogMessage :=
  match assocFind w.chars e with
  | none => (none, w, log)
  | some ch =>
    match ch.data.inventory.getD idx none with
    | none => (none, w, log ++ [LogMessage.NoItemInInventorySlot])
    | some ie =>
      match assocFind w.itemKinds ie with
      | none => (none, w, log ++ [LogMessage.NoItemInInventorySlot])
      | some ty =>
        match itemUsageKind ty with
        | ItemUsage.Immediate => (none, w, log)
        | ItemUsage.Aim =>
          (some (),
           { w with
              chars := assocSet w.chars e
                { ch with data := { ch.data with inventory := ch.data.inventory.set idx none } },
              projectiles := w.projectiles ++ [target] },
           log ++ [LogMessage.PlayerLaunchesProjectile])

/-- Modelled from the spec: `World::maybe_drop_item`.  An empty slot
appends `NoItemInInventorySlot` and fails; an occupied ground cell
appends `NoSpaceToDropItem` and fails; otherwise the item entity returns
to the ground at the character's position. -/
def MWorld.maybe_drop_item (w : MWorld) (e : Entity) (idx : Nat)
    (log : List LogMessage) : Option Unit × MWorld × List LogMessage :=
  match assocFind w.chars e with
  | none => (none, w, log)
  | some ch =>
    match ch.data.inventory.getD idx none with
    | none => (none, w, log ++ [LogMessage.NoItemInInventorySlot])
    | some ie =>
      match w.itemAt ch.pos with
      | some _ => (none, w, log ++ [LogMessage.NoSpaceToDropItem])
      | none =>
        match assocFind w.itemKinds ie with
        | none => (none, w, log ++ [LogMessage.NoItemInInventorySlot])
        | some ty =>
          (some (),
           { w with
              chars := assocSet w.chars e
                { ch with data := { ch.data with inventory := ch.data.inventory.set idx none } },
              groundItems := w.groundItems ++ [(ie, ty, ch.pos)] },
           log ++ [LogMessage.PlayerDrops ty])

/-- Modelled from the spec: `World::move_projectiles` (the per-frame
animation tick): every in-flight projectile advances and resolves. -/
def MWorld.move_projectiles (w : MWorld) (log : List LogMessage) :
    MWorld × List LogMessage :=
  ({ w with projectiles := [] }, log)

/-- Modelled from the spec: `World::level_up_character`. -/
def MWorld.level_up_character (w : MWorld) (e : Entity) (lu : LevelUp) : MWorld :=
  match assocFind w.chars e with
  | none => w
  | some ch =>
    let d := ch.data
    let d1 := match lu with
      | LevelUp.Strength => { d with strength := d.strength + 1 }
      | LevelUp.Dexterity => { d with dexterity := d.dexterity + 1 }
      | LevelUp.Intelligence => { d with intelligence := d.intelligence + 1 }
      | LevelUp.Health => { d with maxHp := d.maxHp + 2, hp := d.hp + 2 }
    { w with chars := assocSet w.chars e { ch with data := d1 } }

/-- Modelled from the spec: `World::remove_character`: detach and return
the character's persistent data (`none` models the panic when the entity
has no such data). -/
def MWorld.remove_character (w : MWorld) (e : Entity) :
    Option (CharData × MWorld) :=
  (assocFind w.chars e).map
    (fun ch => (ch.data, { w with chars := assocRemove w.chars e }))

/-- Modelled from the spec: `World::clear`: discard every entity, keeping
the grid size. -/
def MWorld.clear (w : MWorld) : MWorld :=
  { size := w.size, walls := [], stairs := [], chars := [],
    groundItems := [], itemKinds := [], projectiles := [] }

/-- Modelled from the spec: `World::coord_contains_stairs`. -/
def MWorld.coord_contains_stairs (w : MWorld) (c : Coord) : Bool :=
  w.stairs.contains c

/-- Modelled from the spec: `World::examine_cell`: the semantic
description of what occupies a cell. -/
def MWorld.examine_cell (w : MWorld) (c : Coord) : Option ExamineCell :=
  match w.characterAt c with
  | some (_, ch) =>
    match ch.npc with
    | none => some ExamineCell.Player
    | some n => some (ExamineCell.Npc n)
  | none =>
    match w.itemAt c with
    | some (_, ty) => some (ExamineCell.Item ty)
    | none => none

/-- Modelled from the spec: `World::replace_character`: overwrite the
persistent data of an existing character (used to reattach the captured
player data to the freshly populated player entity). -/
def MWorld.replace_character (w : MWorld) (e : Entity) (data : CharData) : MWorld :=
  match assocFind w.chars e with
  | none => w
  | some ch => { w with chars := assocSet w.chars e { ch with data := data } }

/-- Fresh default data of a populated character. -/
def defaultCharData (hp : Int) : CharData :=
  { hp := hp, maxHp := hp, strength := 1, dexterity := 1, intelligence := 1,
    inventory := [none, none, none, none, none, none, none, none] }

/-- The state accumulated while converting a generated terrain grid into
world entities. -/
structure PopulateAcc where
  world : MWorld
  player : Option Entity
  agents : List (Entity × Agent)
  nextEntity : Entity
deriving Repr

/-- Modelled from the spec: instantiate one terrain tile as entities. -/
def populateCell (acc : PopulateAcc) (c : Coord) (t : Terrain.TerrainTile) :
    PopulateAcc :=
  match t with
  | Terrain.TerrainTile.Wall =>
    { acc with world := { acc.world with walls := acc.world.walls ++ [c] } }
  | Terrain.TerrainTile.Floor => acc
  | Terrain.TerrainTile.Player =>
    let e := acc.nextEntity
    { acc with
        world := { acc.world with
          chars := acc.world.chars ++ [(e, { pos := c, data := defaultCharData 20, npc := none })] },
        player := some e,
        nextEntity := e + 1 }
  | Terrain.TerrainTile.Npc n =>
    let e := acc.nextEntity
    { acc with
        world := { acc.world with
          chars := acc.world.chars ++ [(e, { pos := c, data := defaultCharData 3, npc := some n })] },
        agents := acc.agents ++ [(e, { confusedTurns := none })],
        nextEntity := e + 1 }
  | Terrain.TerrainTile.Item i =>
    let e := acc.nextEntity
    { acc with
        world := { acc.world with
          groundItems := acc.world.groundItems ++ [(e, i, c)],
          itemKinds := acc.world.itemKinds ++ [(e, i)] },
        nextEntity := e + 1 }
  | Terrain.TerrainTile.Stairs =>
    { acc with world := { acc.world with stairs := acc.world.stairs ++ [c] } }

/-- Row-major list of the coordinates of a grid of the given size. -/
def allCoords (s : GSize) : List Coord :=
  (List.range s.height).flatMap fun (y : Nat) =>
    (List.range s.width).map fun (x : Nat) => ⟨(x : Int), (y : Int)⟩

/-- Modelled from the spec: `World::populate`: run the dungeon generator
for the level and instantiate every generated tile as entities; returns
the populated world, the player entity and the AI component table of the
new level's agents (`none` models a generator panic or a missing player
spawn). -/
def populate (size : GSize) (level : Nat) (rng : MRng) :
    Option (MWorld × Entity × List (Entity × Agent) × MRng) := do
  let (grid, _, rng1) ← Terrain.generateDungeonAux size level rng
  let w0 : MWorld := { size := size, walls := [], stairs := [], chars := [],
                       groundItems := [], itemKinds := [], projectiles := [] }
  let acc := (allCoords size).foldl
    (fun acc c => populateCell acc c (grid.cells c))
    ⟨w0, none, [], 0⟩
  let pe ← acc.player
  some (acc.world, pe, acc.agents, rng1)

/-- Modelled from the spec: `visibility.rs` is not under `src/`.  The
per-cell visibility memory grid. -/
structure VisGrid where
  size : GSize
  vis : List (Coord × CellVisibility)
deriving DecidableEq, Repr

/-- `VisibilityGrid::cell_visibility`: cells never recorded are `Never`. -/
def VisGrid.cell_visibility (vg : VisGrid) (c : Coord) : CellVisibility :=
  match vg.vis.find? (fun p => p.1 = c) with
  | some p => p.2
  | none => CellVisibility.Never

/-- Modelled from the spec: `VisibilityGrid::clear`. -/
def VisGrid.clear (vg : VisGrid) : VisGrid := { vg with vis := [] }

/-- Modelled from the spec: the set of cells the visibility sweep reaches
this turn.  `Omniscient` reaches every cell; the recursive shadowcast
sweep itself is in `visibility.rs` (not under `src/`) and is modelled
here as reaching the player's own cell and its orthogonal neighbours. -/
def sweepReaches (alg : VisibilityAlgorithm) (w : MWorld) (origin c : Coord) :
    Bool :=
  match alg with
  | VisibilityAlgorithm.Omniscient => decide (inBounds w.size c)
  | VisibilityAlgorithm.Shadowcast =>
    decide (inBounds w.size c) &&
      decide ((c.x - origin.x) * (c.x - origin.x) + (c.y - origin.y) * (c.y - origin.y) ≤ 1)

/-- Modelled from the spec: `VisibilityGrid::update`: every reached cell
becomes `Currently`; a cell previously `Currently` or `Previously` that
is not reached downgrades to `Previously`; unreached unseen cells stay
`Never`. -/
def VisGrid.update (vg : VisGrid) (origin : Coord) (w : MWorld)
    (alg : VisibilityAlgorithm) : VisGrid :=
  { vg with
      vis := (allCoords vg.size).filterMap (fun c =>
        if sweepReaches alg w origin c then some (c, CellVisibility.Currently)
        else match vg.cell_visibility c with
          | CellVisibility.Never => none
          | _ => some (c, CellVisibility.Previously)) }

/-- Modelled from the spec: `Agent::act`: a simple chase behavior — step
toward the player when orthogonally adjacent, otherwise wait. -/
def Agent.act (_a : Agent) (selfPos playerPos : Coord) : NpcAction :=
  if coordAdd selfPos CardinalDirection.North.offset = playerPos then
    NpcAction.Move CardinalDirection.North
  else if coordAdd selfPos CardinalDirection.East.offset = playerPos then
    NpcAction.Move CardinalDirection.East
  else if coordAdd selfPos CardinalDirection.South.offset = playerPos then
    NpcAction.Move CardinalDirection.South
  else if coordAdd selfPos CardinalDirection.West.offset = playerPos then
    NpcAction.Move CardinalDirection.West
  else
    NpcAction.Wait

/-- `game::GameState` (from `src/game.rs`).  The `shadowcast_context`
field (scratch buffers of the external shadowcast crate, with no
observable state) is not modelled. -/
structure GameState where
  world : MWorld
  player_entity : Entity
  visibility_grid : VisGrid
  ai_state : List (Entity × Agent)
  behavior_context : BehaviorContext
  message_log : List LogMessage
  rng : MRng
  dungeon_level : Nat

/-- `GameState::has_animations`. -/
def GameState.has_animations (gs : GameState) : Bool :=
  gs.world.has_projectiles

/-- `GameState::tick_animations`. -/
def GameState.tick_animations (gs : GameState) : GameState :=
  let p := gs.world.move_projectiles gs.message_log
  { gs with world := p.1, message_log := p.2 }

/-- `GameState::ai_turn` (from `src/game.rs`): recompute the shared
behavior context, prune agents of entities that are no longer living
characters, then let every remaining agent act, applying moves through
`maybe_move_character`. -/
def GameState.ai_turn (gs : GameState) : GameState :=
  let bc := BehaviorContext.update (gs.world.entity_coord gs.player_entity)
  let ai1 := gs.ai_state.filter (fun p => gs.world.is_living_character p.1)
  let step := fun (acc : MWorld × List LogMessage × MRng) (p : Entity × Agent) =>
    let (w, log, rng) := acc
    match w.entity_coord p.1, w.entity_coord gs.player_entity with
    | some selfPos, some playerPos =>
      match p.2.act selfPos playerPos with
      | NpcAction.Wait => (w, log, rng)
      | NpcAction.Move d => w.maybe_move_character p.1 d log rng
    | _, _ => (w, log, rng)
  let r := ai1.foldl step (gs.world, gs.message_log, gs.rng)
  { gs with
      behavior_context := bc,
      ai_state := ai1,
      world := r.1,
      message_log := r.2.1,
      rng := r.2.2 }

/-- `GameState::maybe_move_player` (from `src/game.rs`): blocked entirely
while an animation is in flight; otherwise attempt the move and then run
the AI phase unconditionally. -/
def GameState.maybe_move_player (gs : GameState) (d : CardinalDirection) :
    GameState :=
  if gs.has_animations then gs
  else
    let r := gs.world.maybe_move_character gs.player_entity d gs.message_log gs.rng
    GameState.ai_turn { gs with world := r.1, message_log := r.2.1, rng := r.2.2 }

/-- `GameState::wait_player` (from `src/game.rs`). -/
def GameState.wait_player (gs : GameState) : GameState :=
  if gs.has_animations then gs
  else GameState.ai_turn gs

/-- `GameState::maybe_player_get_item` (from `src/game.rs`): the AI phase
runs only when the pickup succeeded. -/
def GameState.maybe_player_get_item (gs : GameState) : GameState :=
  if gs.has_animations then gs
  else
    let r := gs.world.maybe_get_item gs.player_entity gs.message_log
    let gs1 := { gs with world := r.2.1, message_log := r.2.2 }
    match r.1 with
    | some _ => GameState.ai_turn gs1
    | none => gs1

/-- `GameState::maybe_player_use_item` (from `src/game.rs`): `Err` while
an animation is in flight; on success the AI phase runs only for an
`Immediate` usage.  (`Result<ItemUsage, ()>` is modelled as
`Option ItemUsage`: `some` is `Ok`.) -/
def GameState.maybe_player_use_item (gs : GameState) (idx : Nat) :
    GameState × Option ItemUsage :=
  if gs.has_animations then (gs, none)
  else
    let r := gs.world.maybe_use_item gs.player_entity idx gs.message_log
    let gs1 := { gs with world := r.2.1, message_log := r.2.2 }
    match r.1 with
    | some ItemUsage.Immediate => (GameState.ai_turn gs1, some ItemUsage.Immediate)
    | some ItemUsage.Aim => (gs1, some ItemUsage.Aim)
    | none => (gs1, none)

/-- `GameState::maybe_player_use_item_aim` (from `src/game.rs`): note —
no animation guard in the source. -/
def GameState.maybe_player_use_item_aim (gs : GameState) (idx : Nat)
    (target : Coord) : GameState × Option Unit :=
  let r := gs.world.maybe_use_item_aim gs.player_entity idx target gs.message_log
  ({ gs with world := r.2.1, message_log := r.2.2 }, r.1)

/-- `GameState::maybe_player_drop_item` (from `src/game.rs`): note — no
animation guard in the source; the AI phase runs on success. -/
def GameState.maybe_player_drop_item (gs : GameState) (idx : Nat) :
    GameState × Option Unit :=
  let r := gs.world.maybe_drop_item gs.player_entity idx gs.message_log
  let gs1 := { gs with world := r.2.1, message_log := r.2.2 }
  match r.1 with
  | some _ => (GameState.ai_turn gs1, some ())
  | none => (gs1, none)

/-- `GameState::player_coord` (panics when the player has no coordinate). -/
def GameState.player_coord (gs : GameState) : Option Coord :=
  gs.world.entity_coord gs.player_entity

/-- `GameState::is_player_on_stairs`. -/
def GameState.is_player_on_stairs (gs : GameState) : Bool :=
  match gs.player_coord with
  | some c => gs.world.coord_contains_stairs c
  | none => false

/-- `GameState::player_level_up_and_descend` (from `src/game.rs`):
asserts the player is on stairs; levels up and captures the player's
data; clears the world and the visibility grid; increments the dungeon
level; repopulates; reattaches the captured data to the new player
entity and replaces the AI table.  `none` models the assertion failure
or a panic inside capture / populate. -/
def GameState.player_level_up_and_descend (gs : GameState) (lu : LevelUp) :
    Option GameState := do
  if gs.is_player_on_stairs then
    let w1 := gs.world.level_up_character gs.player_entity lu
    let (player_data, w2) ← w1.remove_character gs.player_entity
    let w3 := w2.clear
    let vg1 := gs.visibility_grid.clear
    let level1 := gs.dungeon_level + 1
    let (w4, pe, ai, rng1) ← populate w3.size level1 gs.rng
    some { gs with
            world := w4.replace_character pe player_data,
            player_entity := pe,
            visibility_grid := vg1,
            ai_state := ai,
            rng := rng1,
            dungeon_level := level1 }
  else
    none

/-- `GameState::is_player_alive`. -/
def GameState.is_player_alive (gs : GameState) : Bool :=
  gs.world.is_living_character gs.player_entity

/-- `GameState::examine_cell` (from `src/game.rs`): only a `Currently`
visible cell is examined. -/
def GameState.examine_cell (gs : GameState) (c : Coord) : Option ExamineCell :=
  match gs.visibility_grid.cell_visibility c with
  | CellVisibility.Currently => gs.world.examine_cell c
  | _ => none

/-- `GameState::update_visibility` (from `src/game.rs`): `none` models
the panic when the player has no coordinate. -/
def GameState.update_visibility (gs : GameState) (alg : VisibilityAlgorithm) :
    Option GameState :=
  (gs.player_coord).map (fun pc =>
    { gs with visibility_grid := gs.visibility_grid.update pc gs.world alg })

end Game

/-!
The input-dispatch layer of `src/app.rs`: `AppData` and
`AppData::handle_input`.  The chargrid menu widget is external; its
`choose` operation is modelled.
-/

namespace App

open Terrain (Coord GSize)
open Game

/-- `app::InventorySlotMenuEntry`. -/
structure InventorySlotMenuEntry where
  index : Nat
  key : Char
deriving DecidableEq, Repr

/-- `app::AppStateMenu`. -/
inductive AppStateMenu
  | UseItem
  | DropItem
deriving DecidableEq, Repr

/-- `app::AppState`. -/
inductive AppState
  | Game
  | Menu (m : AppStateMenu)
deriving DecidableEq, Repr

/-- `chargrid::input::KeyboardInput`, restricted to the keys the app
matches on. -/
inductive KeyboardInput
  | Left
  | Right
  | Up
  | Down
  | Char (c : Char)
  | Escape
  | Other
deriving DecidableEq, Repr

/-- `chargrid::input::Input`. -/
inductive Input
  | Keyboard (k : KeyboardInput)
  | Mouse
deriving DecidableEq, Repr

/-- The menu escape marker (`chargrid::menu::Escape`). -/
inductive MenuEscape
  | Escape
deriving DecidableEq, Repr

/-- Model of `MenuInstanceChooseOrEscape` over inventory-slot entries. -/
structure MenuModel where
  items : List InventorySlotMenuEntry
  selected : Nat
deriving DecidableEq, Repr

/-- `Exit` (from `src/app.rs`): the unit exit signal. -/
structure Exit where
deriving DecidableEq, Repr

/-- Modelled from the chargrid menu semantics: escape yields
`Err(Escape)`, a hotkey yields `Ok(entry)`, anything else is not a
choice. -/
def MenuModel.choose (m : MenuModel) (input : Input) :
    Option (MenuEscape ⊕ InventorySlotMenuEntry) :=
  match input with
  | Input.Keyboard KeyboardInput.Escape => some (Sum.inl MenuEscape.Escape)
  | Input.Keyboard (KeyboardInput.Char c) =>
    (m.items.find? (fun e => e.key = c)).map Sum.inr
  | _ => none

/-- `app::AppData` (the fields `handle_input` reads). -/
structure AppData where
  app_state : AppState
  game_state : GameState
  inventory_slot_menu : MenuModel
  visibility_algorithm : VisibilityAlgorithm

/-- `AppData::handle_input` (from `src/app.rs`): ignores every input once
the player is dead; in game state dispatches movement / wait / get /
menu-opening keys, Escape exits; in menu state feeds the input to the
menu and applies the chosen use/drop; finally refreshes visibility.
`none` models a panic inside the visibility refresh. -/
def AppData.handle_input (d : AppData) (input : Input) :
    Option (AppData × Option Exit) :=
  if !d.game_state.is_player_alive then
    some (d, none)
  else
    let afterDispatch : Option (AppData × Option Exit) :=
      match d.app_state with
      | AppState.Game =>
        match input with
        | Input.Keyboard KeyboardInput.Left =>
          some ({ d with game_state := d.game_state.maybe_move_player CardinalDirection.West }, none)
        | Input.Keyboard KeyboardInput.Right =>
          some ({ d with game_state := d.game_state.maybe_move_player CardinalDirection.East }, none)
        | Input.Keyboard KeyboardInput.Up =>
          some ({ d with game_state := d.game_state.maybe_move_player CardinalDirection.North }, none)
        | Input.Keyboard KeyboardInput.Down =>
          some ({ d with game_state := d.game_state.maybe_move_player CardinalDirection.South }, none)
        | Input.Keyboard (KeyboardInput.Char ' ') =>
          some ({ d with game_state := d.game_state.wait_player }, none)
        | Input.Keyboard (KeyboardInput.Char 'g') =>
          some ({ d with game_state := d.game_state.maybe_player_get_item }, none)
        | Input.Keyboard (KeyboardInput.Char 'i') =>
          some ({ d with app_state := AppState.Menu AppStateMenu.UseItem }, none)
        | Input.Keyboard (KeyboardInput.Char 'd') =>
          some ({ d with app_state := AppState.Menu AppStateMenu.DropItem }, none)
        | Input.Keyboard KeyboardInput.Escape => some (d, some Exit.mk)
        | _ => some (d, none)
      | AppState.Menu menu =>
        match d.inventory_slot_menu.choose input with
        | none => some (d, none)
        | some (Sum.inl _) => some ({ d with app_state := AppState.Game }, none)
        | some (Sum.inr entry) =>
          match menu with
          | AppStateMenu.UseItem =>
            let r := d.game_state.maybe_player_use_item entry.index
            match r.2 with
            | some _ => some ({ d with game_state := r.1, app_state := AppState.Game }, none)
            | none => some ({ d with game_state := r.1 }, none)
          | AppStateMenu.DropItem =>
            let r := d.game_state.maybe_player_drop_item entry.index
            match r.2 with
            | some _ => some ({ d with game_state := r.1, app_state := AppState.Game }, none)
            | none => some ({ d with game_state := r.1 }, none)
    match afterDispatch with
    | none => none
    | some (d1, some e) => some (d1, some e)
    | some (d1, none) =>
      match d1.game_state.update_visibility d1.visibility_algorithm with
      | none => none
      | some gs1 => some ({ d1 with game_state := gs1 }, none)

end App

/-!
Concrete states used by the closed checks below.
-/

open Terrain Game App

/-- Whether a move request fails validation: the target cell holds no
living character and is not walkable (a Wall or out of bounds). -/
def Game.MWorld.moveBlocked (w : MWorld) (e : Entity) (d : CardinalDirection) : Bool :=
  match assocFind w.chars e with
  | none => false
  | some ch =>
    (w.characterAt (coordAdd ch.pos d.offset)).isNone &&
      !(w.walkable (coordAdd ch.pos d.offset))

/-- A small concrete world: a 5×5 arena, the player (entity 1) at (1,1),
a wall directly north of the player, stairs at (3,3). -/
def w0 : MWorld :=
  { size := ⟨5, 5⟩, walls := [⟨1, 0⟩], stairs := [⟨3, 3⟩],
    chars := [(1, { pos := ⟨1, 1⟩, data := defaultCharData 10, npc := none })],
    groundItems := [], itemKinds := [], projectiles := [] }

/-- A base game state over `w0`. -/
def gsBase : GameState :=
  { world := w0, player_entity := 1, visibility_grid := ⟨⟨5, 5⟩, []⟩,
    ai_state := [], behavior_context := ⟨none⟩, message_log := [],
    rng := ⟨Terrain.constSeq 0, 0⟩, dungeon_level := 1 }

/-- `gsBase` with one agent registered for an entity (7) that is not a
living character. -/
def gsDeadAgent : GameState := { gsBase with ai_state := [(7, ⟨none⟩)] }

/-- `gsBase` with a projectile in flight (an unresolved animation). -/
def gsAnim : GameState :=
  { gsBase with world := { w0 with projectiles := [⟨2, 2⟩] } }

/-- A game state with the player standing on stairs in a 12×9 world, with
an RNG state under which repopulation succeeds. -/
def gsStairs : GameState :=
  { world := { size := ⟨12, 9⟩, walls := [], stairs := [⟨1, 1⟩],
               chars := [(1, { pos := ⟨1, 1⟩, data := defaultCharData 10, npc := none })],
               groundItems := [], itemKinds := [], projectiles := [] },
    player_entity := 1, visibility_grid := ⟨⟨12, 9⟩, [(⟨1, 1⟩, CellVisibility.Currently)]⟩,
    ai_state := [], behavior_context := ⟨none⟩,
    message_log := [LogMessage.PlayerHeals],
    rng := ⟨Terrain.twoRoomSeq, 0⟩, dungeon_level := 1 }

/-- `gsBase` with the cell (1,1) recorded as `Previously` visible. -/
def gsVis : GameState :=
  { gsBase with visibility_grid := ⟨⟨5, 5⟩, [(⟨1, 1⟩, CellVisibility.Previously)]⟩ }

/-- `gsBase` with the player removed (no longer a living character). -/
def gsDead : GameState := { gsBase with world := { w0 with chars := [] } }

/-- An app-layer state over the dead-player game state. -/
def appDead : AppData :=
  { app_state := AppState.Game, game_state := gsDead,
    inventory_slot_menu := ⟨[⟨0, 'a'⟩], 0⟩,
    visibility_algorithm := VisibilityAlgorithm.Shadowcast }

/-!
Predicates used to state and prove the generation properties.
-/

namespace Terrain

/-- The geometric consequence of a successful `Room::choose`: the room
lies inside the grid and its dimensions are within the sampled ranges. -/
def Room.fits (room : Room) (s : GSize) : Prop :=
  0 ≤ room.top_left.x ∧ 0 ≤ room.top_left.y ∧
  room.top_left.x + room.size.width ≤ (s.width : Int) ∧
  room.top_left.y + room.size.height ≤ (s.height : Int) ∧
  5 ≤ room.size.width ∧ room.size.width ≤ 10 ∧
  5 ≤ room.size.height ∧ room.size.height ≤ 8

/-- An interior cell of a room: a room cell not on the top/left edge
(the edge is carved as Wall, the interior as Floor). -/
def Room.interior (room : Room) (c : Coord) : Prop :=
  room.top_left.x < c.x ∧ c.x < room.top_left.x + room.size.width ∧
  room.top_left.y < c.y ∧ c.y < room.top_left.y + room.size.height

/-- The tile a `carve_out` write puts at a room cell. -/
def carveVal (room : Room) (c : Coord) : TerrainTile :=
  if c.x = room.top_left.x ∨ c.y = room.top_left.y
  then TerrainTile.Wall else TerrainTile.Floor

/-- The cell is assigned and not a Wall. -/
def SomeNW (g : TGrid (Option TerrainTile)) (c : Coord) : Prop :=
  ∃ t, g.cells c = some t ∧ t ≠ TerrainTile.Wall

/-- The invariant of `generate_dungeon`'s placement loop, relating the
in-flight state to the list of accepted rooms. -/
structure Inv (size : GSize) (st : GenState) (rooms : List Room) : Prop where
  sizeEq : st.grid.size = size
  oob : ∀ c, ¬ inBounds size c → st.grid.cells c = none
  centersEq : st.room_centers = rooms.map Room.center
  roomsFit : ∀ room ∈ rooms, room.fits size
  coveredSome : ∀ room ∈ rooms, ∀ c ∈ room.coords, (st.grid.cells c).isSome
  interiorNW : ∀ room ∈ rooms, ∀ c, room.interior c → SomeNW st.grid c
  headPlayer : ∀ c0, st.room_centers.head? = some c0 →
    st.grid.cells c0 = some TerrainTile.Player
  nodup : st.room_centers.Nodup
  floorProv : ∀ c, st.grid.cells c = some TerrainTile.Floor →
    ∃ room ∈ rooms, room.interior c
  noStairs : ∀ c, st.grid.cells c ≠ some TerrainTile.Stairs

/-- The cells visited by `carve_corridor(s, e)`: the inclusive horizontal
run at row `s.y`, then the exclusive vertical run at column `e.x`. -/
def corridorCells (s e : Coord) : List Coord :=
  ((List.range ((max s.x e.x - min s.x e.x).toNat + 1)).map
    fun (j : Nat) => (⟨min s.x e.x + j, s.y⟩ : Coord)) ++
  ((List.range ((max s.y e.y - min s.y e.y).toNat)).map
    fun (j : Nat) => (⟨e.x, min s.y e.y + j⟩ : Coord))

/-- `a` and `b` are consecutive elements of `l` (a `windows(2)` pair). -/
def ConsecPair (l : List Coord) (a b : Coord) : Prop :=
  ∃ l1 l2, l = l1 ++ a :: b :: l2

/-- A non-Wall in-bounds cell of the final grid. -/
def nonWallAt (g : TGrid TerrainTile) (c : Coord) : Prop :=
  inBounds g.size c ∧ g.cells c ≠ TerrainTile.Wall

/-- One orthogonal (4-neighbour) step. -/
def Adj (a b : Coord) : Prop :=
  (a.x = b.x ∧ (a.y = b.y + 1 ∨ b.y = a.y + 1)) ∨
  (a.y = b.y ∧ (a.x = b.x + 1 ∨ b.x = a.x + 1))

/-- Reachability via a path of orthogonally adjacent non-Wall cells. -/
inductive ReachG (g : TGrid TerrainTile) : Coord → Coord → Prop
  | refl (c : Coord) (h : nonWallAt g c) : ReachG g c c
  | tail {a b c : Coord} (hab : ReachG g a b) (hadj : Adj b c)
      (hc : nonWallAt g c) : ReachG g a c

end Terrain

/-!
# Theorems

Helper lemmas first (not tied to a single claim), then one theorem per
claim (with its witness / counterexample where required).
-/

set_option maxRecDepth 100000

/-- Helper: the weighted-selection loop returns an entry whenever the
initial choice is below the total weight. -/
theorem cfpdLoop_mem {α : Type} :
    ∀ (dist : List (α × Nat)) (choice : Nat),
      choice < (dist.map Prod.snd).sum →
      ∃ v, cfpdLoop dist choice = some v ∧ v ∈ dist.map Prod.fst := by
  intro dist
  induction dist with
  | nil => intro choice h; simp at h
  | cons hd tl ih =>
    intro choice h
    rcases hd with ⟨v, p⟩
    simp only [cfpdLoop, checkedSub]
    by_cases hp : p ≤ choice
    · have h2 : choice - p < (tl.map Prod.snd).sum := by
        simp only [List.map_cons, List.sum_cons] at h
        omega
      obtain ⟨w, hw, hmem⟩ := ih (choice - p) h2
      refine ⟨w, ?_, ?_⟩
      · simp [hp, hw]
      · simp [hmem]
    · refine ⟨v, ?_, ?_⟩
      · simp [hp]
      · simp

/-- C6: for every probability-distribution list whose weights sum to a
value strictly greater than zero (in particular any non-empty list with a
positive weight, including a single-entry list) and every RNG state,
`choose_from_probability_distribution` returns one of the list's entries;
the `unreachable!()` post-loop branch is never reached and no
out-of-range selection occurs. -/
theorem c6_weighted_selection_safe {α : Type} (dist : List (α × Nat))
    (r : MRng) (hne : dist ≠ [])
    (hsum : 0 < (dist.map Prod.snd).sum) :
    ∃ v r1, choose_from_probability_distribution dist r = some (v, r1) ∧
      v ∈ dist.map Prod.fst := by
  have hchoice : (r.next.1 % (dist.map Prod.snd).sum) < (dist.map Prod.snd).sum :=
    Nat.mod_lt _ hsum
  obtain ⟨v, hv, hmem⟩ := cfpdLoop_mem dist _ hchoice
  refine ⟨v, r.next.2, ?_, hmem⟩
  simp only [choose_from_probability_distribution, genRange, hsum, if_pos]
  simp [hv]

/-- C6 witness: a single-entry distribution with weight 1. -/
theorem c6_witness :
    ([(NpcType.Orc, 1)] : List (NpcType × Nat)) ≠ [] ∧
    ∃ v r1, choose_from_probability_distribution [(NpcType.Orc, 1)]
        ⟨Terrain.constSeq 0, 0⟩ = some (v, r1) ∧
      v ∈ ([(NpcType.Orc, 1)] : List (NpcType × Nat)).map Prod.fst :=
  ⟨by decide,
   c6_weighted_selection_safe [(NpcType.Orc, 1)] ⟨Terrain.constSeq 0, 0⟩
     (by decide) (by decide)⟩

/-- C7: `generate_dungeon` is deterministic — two runs from identical
size, level and RNG state produce identical results (the embedding
threads the RNG state explicitly, so the whole generator is a pure
function of its inputs). -/
theorem c7_generate_deterministic (size : GSize) (level : Nat)
    (r1 r2 : MRng) (h : r1 = r2) :
    generate_dungeon size level r1 = generate_dungeon size level r2 := by
  rw [h]

/-- C7 witness: the two-room 12×9 run compared with itself. -/
theorem c7_witness :
    generate_dungeon ⟨12, 9⟩ 1 ⟨Terrain.twoRoomSeq, 0⟩ =
      generate_dungeon ⟨12, 9⟩ 1 ⟨Terrain.twoRoomSeq, 0⟩ :=
  c7_generate_deterministic ⟨12, 9⟩ 1 ⟨Terrain.twoRoomSeq, 0⟩
    ⟨Terrain.twoRoomSeq, 0⟩ rfl

/-- C2 counterexample: `generate_dungeon` does NOT terminate normally for
every grid size and RNG state: on a 10×8 grid, an RNG whose draws select
a 10-wide room makes `top_left_bounds.width() = 0`, and
`gen_range(0..0)` panics inside `Room::choose` (modelled as `none`). -/
theorem c2_counterexample :
    generate_dungeon ⟨10, 8⟩ 1 ⟨Terrain.constSeq 5, 0⟩ = none := rfl

/-- C4 counterexample: a run (12×9 grid, constant-0 draws) in which
exactly one room is accepted; its center — the first accepted room's
center, i.e. the Player spawn — is overwritten by the final Stairs
placement, so the returned grid does not contain the Player mark. -/
theorem c4_counterexample :
    ((Terrain.generateDungeonAux ⟨12, 9⟩ 1 ⟨Terrain.constSeq 0, 0⟩).map
        (fun t => t.2.1.length)).getD 0 = 1 ∧
    ((Terrain.generateDungeonAux ⟨12, 9⟩ 1 ⟨Terrain.constSeq 0, 0⟩).map
        (fun t => t.2.1.head?)).getD none = some ⟨2, 2⟩ ∧
    ((Terrain.generateDungeonAux ⟨12, 9⟩ 1 ⟨Terrain.constSeq 0, 0⟩).map
        (fun t => t.1.cells ⟨2, 2⟩)).getD TerrainTile.Wall =
      TerrainTile.Stairs := by
  refine ⟨by decide, by decide, by decide⟩

/-- C9: `examine_cell` returns `None` for every coordinate whose
visibility state is not `Currently`. -/
theorem c9_examine_requires_currently (gs : GameState) (c : Terrain.Coord)
    (h : gs.visibility_grid.cell_visibility c ≠ CellVisibility.Currently) :
    gs.examine_cell c = none := by
  unfold GameState.examine_cell
  cases hv : gs.visibility_grid.cell_visibility c with
  | Currently => exact absurd hv h
  | Never => rfl
  | Previously => rfl

/-- C9 witness: a `Previously`-visible cell that holds the player is not
examinable. -/
theorem c9_witness :
    gsVis.visibility_grid.cell_visibility ⟨1, 1⟩ ≠ CellVisibility.Currently ∧
    gsVis.examine_cell ⟨1, 1⟩ = none :=
  ⟨by decide, c9_examine_requires_currently gsVis ⟨1, 1⟩ (by decide)⟩

/-- C10: once the player is no longer alive, `handle_input` ignores every
input: it returns no exit signal, invokes no game-state operation, and
returns the app data unchanged. -/
theorem c10_dead_player_input_ignored (d : AppData) (input : Input)
    (h : d.game_state.is_player_alive = false) :
    d.handle_input input = some (d, none) := by
  unfold AppData.handle_input
  rw [h]
  rfl

/-- C10 witness: a dead-player state ignores a movement key. -/
theorem c10_witness :
    appDead.handle_input (Input.Keyboard KeyboardInput.Left) =
      some (appDead, none) :=
  c10_dead_player_input_ignored appDead (Input.Keyboard KeyboardInput.Left)
    (by decide)

/-- Helper: a move whose validation fails (no combat target, target not
walkable) leaves the world, the log and the RNG untouched. -/
theorem maybe_move_character_blocked (w : MWorld) (e : Entity)
    (d : CardinalDirection) (log : List LogMessage) (rng : MRng)
    (h : w.moveBlocked e d = true) :
    w.maybe_move_character e d log rng = (w, log, rng) := by
  unfold MWorld.moveBlocked at h
  unfold MWorld.maybe_move_character
  cases hf : assocFind w.chars e with
  | none => rfl
  | some ch =>
    rw [hf] at h
    simp only [Bool.and_eq_true, Option.isNone_iff_eq_none, Bool.not_eq_true'] at h
    cases hc : w.characterAt (coordAdd ch.pos d.offset) with
    | some p => rw [hc] at h; simp at h
    | none =>
      rw [hc] at h
      simp only [hc]
      rw [h.2]
      rfl

/-- Helper: a failed pickup leaves the world untouched (only the log may
grow). -/
theorem maybe_get_item_fail_world (w : MWorld) (e : Entity)
    (log : List LogMessage) (h : (w.maybe_get_item e log).1 = none) :
    (w.maybe_get_item e log).2.1 = w := by
  rcases heq : w.maybe_get_item e log with ⟨r1, w1, log1⟩
  rw [heq] at h
  unfold MWorld.maybe_get_item at heq
  split at heq
  · cases heq; rfl
  · split at heq
    · cases heq; rfl
    · split at heq
      · cases heq; rfl
      · cases heq; exact Option.noConfusion h

/-- Helper: a failed use-item request (empty or invalid slot) leaves the
world untouched (only the log may grow). -/
theorem maybe_use_item_fail_world (w : MWorld) (e : Entity) (idx : Nat)
    (log : List LogMessage) (h : (w.maybe_use_item e idx log).1 = none) :
    (w.maybe_use_item e idx log).2.1 = w := by
  rcases heq : w.maybe_use_item e idx log with ⟨r1, w1, log1⟩
  rw [heq] at h
  unfold MWorld.maybe_use_item at heq
  split at heq
  · cases heq; rfl
  · split at heq
    · cases heq; rfl
    · split at heq
      · cases heq; rfl
      · split at heq
        · cases heq; exact Option.noConfusion h
        · cases heq; exact Option.noConfusion h

/-- Helper: a failed drop request (empty slot, occupied ground cell or
invalid item) leaves the world untouched (only the log may grow). -/
theorem maybe_drop_item_fail_world (w : MWorld) (e : Entity) (idx : Nat)
    (log : List LogMessage) (h : (w.maybe_drop_item e idx log).1 = none) :
    (w.maybe_drop_item e idx log).2.1 = w := by
  rcases heq : w.maybe_drop_item e idx log with ⟨r1, w1, log1⟩
  rw [heq] at h
  unfold MWorld.maybe_drop_item at heq
  split at heq
  · cases heq; rfl
  · split at heq
    · cases heq; rfl
    · split at heq
      · cases heq; rfl
      · split at heq
        · cases heq; rfl
        · cases heq; exact Option.noConfusion h

/-- C1 (amended): with no animation in flight, a *pickup* request that
fails validation, a *use-item* request on an empty (or invalid) slot and
a *drop* request that fails validation each leave everything but the
message log unchanged and skip the AI phase — but a *move* request that
fails validation still runs the AI phase: `maybe_move_player` calls
`ai_turn` unconditionally after the move attempt. -/
theorem c1_amended_failure_semantics (gs : GameState) (d : CardinalDirection)
    (hanim : gs.has_animations = false) :
    (gs.world.moveBlocked gs.player_entity d = true →
      gs.maybe_move_player d = gs.ai_turn) ∧
    ((gs.world.maybe_get_item gs.player_entity gs.message_log).1 = none →
      gs.maybe_player_get_item =
        { gs with message_log :=
            (gs.world.maybe_get_item gs.player_entity gs.message_log).2.2 }) ∧
    (∀ i, (gs.world.maybe_use_item gs.player_entity i gs.message_log).1 = none →
      gs.maybe_player_use_item i =
        ({ gs with message_log :=
            (gs.world.maybe_use_item gs.player_entity i gs.message_log).2.2 },
          none)) ∧
    (∀ i, (gs.world.maybe_drop_item gs.player_entity i gs.message_log).1 = none →
      gs.maybe_player_drop_item i =
        ({ gs with message_log :=
            (gs.world.maybe_drop_item gs.player_entity i gs.message_log).2.2 },
          none)) := by
  refine ⟨?_, ?_, ?_, ?_⟩
  · intro hblocked
    unfold GameState.maybe_move_player
    rw [hanim]
    simp only [Bool.false_eq_true, if_false]
    rw [maybe_move_character_blocked gs.world gs.player_entity d
      gs.message_log gs.rng hblocked]
  · intro hfail
    unfold GameState.maybe_player_get_item
    rw [hanim]
    simp only [Bool.false_eq_true, if_false]
    rw [hfail, maybe_get_item_fail_world gs.world gs.player_entity
      gs.message_log hfail]
  · intro i hfail
    unfold GameState.maybe_player_use_item
    rw [hanim]
    simp only [Bool.false_eq_true, if_false]
    rw [hfail, maybe_use_item_fail_world gs.world gs.player_entity i
      gs.message_log hfail]
  · intro i hfail
    unfold GameState.maybe_player_drop_item
    dsimp only
    rw [hfail, maybe_drop_item_fail_world gs.world gs.player_entity i
      gs.message_log hfail]

/-- C1 counterexample: the original claim fails for `maybe_move_player`.
Concretely: no animation is in flight, the move north is blocked by a
wall, yet the AI phase runs — the blocked move mutates more than the
message log (the AI phase's lazy cleanup removes the agent of the
no-longer-living entity 7 from the AI component table). -/
theorem c1_counterexample :
    gsDeadAgent.has_animations = false ∧
    gsDeadAgent.world.moveBlocked gsDeadAgent.player_entity
      CardinalDirection.North = true ∧
    (gsDeadAgent.maybe_move_player CardinalDirection.North).ai_state ≠
      gsDeadAgent.ai_state := by
  refine ⟨by decide, by decide, by decide⟩

/-- C1 witness: over `gsBase` (wall to the north, nothing to pick up,
empty inventory slot 0), the amended theorem's four conclusions at a
concrete state. -/
theorem c1_witness :
    gsBase.maybe_move_player CardinalDirection.North = gsBase.ai_turn ∧
    gsBase.maybe_player_get_item =
      { gsBase with message_log :=
          (gsBase.world.maybe_get_item gsBase.player_entity
            gsBase.message_log).2.2 } ∧
    gsBase.maybe_player_use_item 0 =
      ({ gsBase with message_log :=
          (gsBase.world.maybe_use_item gsBase.player_entity 0
            gsBase.message_log).2.2 }, none) ∧
    gsBase.maybe_player_drop_item 0 =
      ({ gsBase with message_log :=
          (gsBase.world.maybe_drop_item gsBase.player_entity 0
            gsBase.message_log).2.2 }, none) := by
  have h := c1_amended_failure_semantics gsBase CardinalDirection.North
    (by decide)
  exact ⟨h.1 (by decide), h.2.1 (by decide), h.2.2.1 0 (by decide),
    h.2.2.2 0 (by decide)⟩

/-- C3 (amended): while an animation is in flight, the four *guarded*
action requests — `maybe_move_player`, `wait_player`,
`maybe_player_get_item`, `maybe_player_use_item` — are rejected without
any state change; `maybe_player_use_item_aim` and
`maybe_player_drop_item` carry no such guard in the source (see the
counterexample). -/
theorem c3_amended_animation_blocks_guarded_actions (gs : GameState)
    (h : gs.has_animations = true) :
    (∀ d, gs.maybe_move_player d = gs) ∧
    gs.wait_player = gs ∧
    gs.maybe_player_get_item = gs ∧
    (∀ i, gs.maybe_player_use_item i = (gs, none)) := by
  refine ⟨fun d => ?_, ?_, ?_, fun i => ?_⟩ <;>
    simp [GameState.maybe_move_player, GameState.wait_player,
      GameState.maybe_player_get_item, GameState.maybe_player_use_item, h]

/-- C3 counterexample: the original claim fails for both unguarded
requests. With a projectile still in flight, a drop request and an
aimed-use request are each processed anyway — here both append a
`NoItemInInventorySlot` message to the log instead of being rejected
without any state change. -/
theorem c3_counterexample :
    gsAnim.has_animations = true ∧
    (gsAnim.maybe_player_drop_item 0).1.message_log ≠ gsAnim.message_log ∧
    (gsAnim.maybe_player_use_item_aim 0 ⟨2, 2⟩).1.message_log ≠
      gsAnim.message_log := by
  refine ⟨by decide, by decide, by decide⟩

/-- C3 witness: the guarded rejections at a concrete animating state. -/
theorem c3_witness :
    gsAnim.maybe_move_player CardinalDirection.East = gsAnim ∧
    gsAnim.wait_player = gsAnim ∧
    gsAnim.maybe_player_get_item = gsAnim ∧
    gsAnim.maybe_player_use_item 0 = (gsAnim, none) := by
  have h := c3_amended_animation_blocks_guarded_actions gsAnim (by decide)
  exact ⟨h.1 CardinalDirection.East, h.2.1, h.2.2.1, h.2.2.2 0⟩

/-- C8: a successful `player_level_up_and_descend` (whose assertion
requires the player to stand on stairs) increments the dungeon level by
exactly one, clears the visibility grid, leaves the message log
unchanged, and rebuilds the world by capturing the leveled-up player's
data, clearing, repopulating for the new level, reattaching the captured
data to the new player entity, and replacing the AI component table with
the new level's agents. -/
theorem c8_level_transition (gs : GameState) (lu : LevelUp) (gs' : GameState)
    (h : gs.player_level_up_and_descend lu = some gs') :
    gs.is_player_on_stairs = true ∧
    gs'.dungeon_level = gs.dungeon_level + 1 ∧
    gs'.message_log = gs.message_log ∧
    gs'.visibility_grid = gs.visibility_grid.clear ∧
    ∃ pd w2 w4 pe ai rng1,
      (gs.world.level_up_character gs.player_entity lu).remove_character
          gs.player_entity = some (pd, w2) ∧
      populate w2.clear.size (gs.dungeon_level + 1) gs.rng =
        some (w4, pe, ai, rng1) ∧
      gs'.world = w4.replace_character pe pd ∧
      gs'.player_entity = pe ∧
      gs'.ai_state = ai ∧
      gs'.rng = rng1 := by
  unfold GameState.player_level_up_and_descend at h
  cases hstairs : gs.is_player_on_stairs with
  | false => rw [hstairs] at h; simp at h
  | true =>
    rw [hstairs] at h
    simp only [if_true] at h
    cases hrm : (gs.world.level_up_character gs.player_entity lu).remove_character
        gs.player_entity with
    | none => rw [hrm] at h; simp at h
    | some p =>
      obtain ⟨pd, w2⟩ := p
      rw [hrm] at h
      simp only [Option.bind_eq_bind, Option.some_bind] at h
      cases hpop : populate w2.clear.size (gs.dungeon_level + 1) gs.rng with
      | none => rw [hpop] at h; simp at h
      | some q =>
        obtain ⟨w4, pe, ai, rng1⟩ := q
        rw [hpop] at h
        simp only [Option.some_bind, Option.some.injEq] at h
        refine ⟨rfl, ?_, ?_, ?_, pd, w2, w4, pe, ai, rng1, rfl, hpop, ?_, ?_, ?_, ?_⟩ <;>
          rw [← h]

/-- C8 witness: descending from `gsStairs` (player on stairs, 12×9 world,
an RNG under which repopulation succeeds) bumps the level to 2 and keeps
the log. -/
theorem c8_witness :
    ∃ gs', gsStairs.player_level_up_and_descend LevelUp.Health = some gs' ∧
      gs'.dungeon_level = 2 ∧ gs'.message_log = gsStairs.message_log := by
  have hs : (gsStairs.player_level_up_and_descend LevelUp.Health).isSome = true := by
    decide
  obtain ⟨gs', hgs⟩ := Option.isSome_iff_exists.mp hs
  have h := c8_level_transition gsStairs LevelUp.Health gs' hgs
  exact ⟨gs', hgs, h.2.1, h.2.2.1⟩
namespace Terrain

/-- Helper: `gen_range` on a non-empty range returns the blended draw. -/
theorem genRange_pos {lo hi : Nat} (r : MRng) (h : lo < hi) :
    genRange lo hi r = some (lo + r.seq r.idx % (hi - lo), ⟨r.seq, r.idx + 1⟩) := by
  simp [genRange, h, MRng.next]

/-- Helper: bounds of a successful `gen_range` draw. -/
theorem genRange_bounds {lo hi v : Nat} {r r' : MRng}
    (h : genRange lo hi r = some (v, r')) : lo ≤ v ∧ v < hi := by
  unfold genRange at h
  split at h
  · next hlt =>
    have hmod : r.next.1 % (hi - lo) < hi - lo := Nat.mod_lt _ (by omega)
    cases h
    omega
  · cases h

/-- Helper: `checked_sub` succeeds exactly on non-underflow. -/
theorem checkedSub_spec {a b v : Nat} (h : checkedSub a b = some v) :
    b ≤ a ∧ v = a - b := by
  unfold checkedSub at h
  split at h
  · next hle => cases h; exact ⟨hle, rfl⟩
  · cases h

/-- Helper: a successful checked write: size preserved, the cell set, all
other cells untouched. -/
theorem setChecked_spec {α : Type} {g g' : TGrid α} {c : Coord} {v : α}
    (h : g.setChecked c v = some g') :
    g'.size = g.size ∧ inBounds g.size c ∧ g'.cells c = v ∧
      ∀ c2, c2 ≠ c → g'.cells c2 = g.cells c2 := by
  unfold TGrid.setChecked at h
  split at h
  · next hin => cases h; exact ⟨rfl, hin, by simp, fun c2 hne => by simp [hne]⟩
  · cases h

/-- Helper: an in-bounds checked write succeeds. -/
theorem setChecked_isSome {α : Type} (g : TGrid α) (c : Coord) (v : α)
    (hin : inBounds g.size c) : ∃ g', g.setChecked c v = some g' := by
  simp [TGrid.setChecked, hin]

/-- Helper: an in-bounds checked read. -/
theorem getChecked_eq {α : Type} {g : TGrid α} {c : Coord}
    (hin : inBounds g.size c) : g.getChecked c = some (g.cells c) := by
  simp [TGrid.getChecked, hin]

/-- Helper: a successful checked read is in bounds and returns the cell. -/
theorem getChecked_spec {α : Type} {g : TGrid α} {c : Coord} {x : α}
    (h : g.getChecked c = some x) : inBounds g.size c ∧ g.cells c = x := by
  unfold TGrid.getChecked at h
  split at h
  · next hin => cases h; exact ⟨hin, rfl⟩
  · cases h

/-- Helper: membership in a room's cell list. -/
theorem Room.mem_coords {room : Room} {c : Coord} :
    c ∈ room.coords ↔
      room.top_left.x ≤ c.x ∧ c.x < room.top_left.x + room.size.width ∧
      room.top_left.y ≤ c.y ∧ c.y < room.top_left.y + room.size.height := by
  obtain ⟨cx, cy⟩ := c
  dsimp only
  constructor
  · intro hmem
    obtain ⟨y, hyr, hmem2⟩ := List.mem_flatMap.mp hmem
    obtain ⟨x, hxr, heq⟩ := List.mem_map.mp hmem2
    rw [List.mem_range] at hyr
    rw [List.mem_range] at hxr
    have hx := congrArg Coord.x heq
    have hy := congrArg Coord.y heq
    dsimp only at hx hy
    omega
  · rintro ⟨h1, h2, h3, h4⟩
    refine List.mem_flatMap.mpr ⟨(cy - room.top_left.y).toNat,
      List.mem_range.mpr (by omega), List.mem_map.mpr
        ⟨(cx - room.top_left.x).toNat, List.mem_range.mpr (by omega), ?_⟩⟩
    rw [Coord.mk.injEq]
    constructor <;> omega

/-- Helper: a fitting room's cells are in bounds. -/
theorem Room.coords_inBounds {room : Room} {s : GSize} (hf : room.fits s)
    {c : Coord} (hc : c ∈ room.coords) : inBounds s c := by
  rw [Room.mem_coords] at hc
  unfold Room.fits at hf
  unfold inBounds
  omega

/-- Helper: interior cells are room cells. -/
theorem Room.interior_mem_coords {room : Room} {c : Coord}
    (h : room.interior c) : c ∈ room.coords := by
  rw [Room.mem_coords]
  unfold Room.interior at h
  omega

/-- Helper: the room center is an interior cell. -/
theorem Room.center_interior {room : Room} (hw : 2 ≤ room.size.width)
    (hh : 2 ≤ room.size.height) : room.interior room.center := by
  unfold Room.interior Room.center
  dsimp only
  refine ⟨?_, ?_, ?_, ?_⟩ <;> omega

/-- Helper: on a room cell, the carved tile is `Floor` exactly on the
interior. -/
theorem carveVal_floor_iff {room : Room} {c : Coord} (hc : c ∈ room.coords) :
    carveVal room c = TerrainTile.Floor ↔ room.interior c := by
  rw [Room.mem_coords] at hc
  unfold carveVal Room.interior
  split
  · next hedge =>
    constructor
    · intro h; cases h
    · omega
  · next hedge =>
    push_neg at hedge
    constructor
    · intro _; omega
    · intro _; rfl

/-- Helper: the carved tile is Wall or Floor. -/
theorem carveVal_cases (room : Room) (c : Coord) :
    carveVal room c = TerrainTile.Wall ∨ carveVal room c = TerrainTile.Floor := by
  unfold carveVal
  split
  · exact Or.inl rfl
  · exact Or.inr rfl

/-- Helper: a successful `Room::choose` yields a fitting room. -/
theorem Room.choose_fits {bounds : GSize} {r r' : MRng} {room : Room}
    (h : Room.choose bounds r = some (room, r')) : room.fits bounds := by
  unfold Room.choose at h
  simp only [Option.bind_eq_bind, Option.bind_eq_some] at h
  obtain ⟨⟨w, r1⟩, hw, h⟩ := h
  obtain ⟨⟨ht, r2⟩, hh, h⟩ := h
  obtain ⟨tlw, htlw, h⟩ := h
  obtain ⟨tlh, htlh, h⟩ := h
  obtain ⟨⟨left, r3⟩, hleft, h⟩ := h
  obtain ⟨⟨top, r4⟩, htop, h⟩ := h
  cases h
  have hwb := genRange_bounds hw
  have hhb := genRange_bounds hh
  have hls := checkedSub_spec htlw
  have hhs := checkedSub_spec htlh
  have hlb := genRange_bounds hleft
  have htb := genRange_bounds htop
  unfold Room.fits
  refine ⟨?_, ?_, ?_, ?_, ?_, ?_, ?_, ?_⟩ <;> dsimp only <;> omega

/-- Helper: `Room::choose` succeeds on any grid at least 11 wide and 9
high. -/
theorem Room.choose_isSome (bounds : GSize) (r : MRng)
    (h1 : 11 ≤ bounds.width) (h2 : 9 ≤ bounds.height) :
    ∃ room r', Room.choose bounds r = some (room, r') := by
  unfold Room.choose
  rw [genRange_pos r (by norm_num)]
  simp only [Option.bind_eq_bind, Option.some_bind]
  set w := 5 + r.seq r.idx % 6 with hwdef
  have hw : 5 ≤ w ∧ w ≤ 10 := by
    constructor
    · omega
    · have : r.seq r.idx % 6 < 6 := Nat.mod_lt _ (by norm_num)
      omega
  rw [genRange_pos _ (by norm_num)]
  simp only [Option.some_bind]
  set hgt := 5 + r.seq (r.idx + 1) % 4 with hhdef
  have hh : 5 ≤ hgt ∧ hgt ≤ 8 := by
    constructor
    · omega
    · have : r.seq (r.idx + 1) % 4 < 4 := Nat.mod_lt _ (by norm_num)
      omega
  have hsub1 : checkedSub bounds.width w = some (bounds.width - w) := by
    unfold checkedSub
    rw [if_pos (by omega)]
  have hsub2 : checkedSub bounds.height hgt = some (bounds.height - hgt) := by
    unfold checkedSub
    rw [if_pos (by omega)]
  rw [hsub1, hsub2]
  simp only [Option.some_bind]
  rw [genRange_pos _ (by omega)]
  simp only [Option.some_bind]
  rw [genRange_pos _ (by omega)]
  simp only [Option.some_bind]
  exact ⟨_, _, rfl⟩

end Terrain
namespace Terrain

/-- Helper: an accepted room's overlap test succeeding with `true` means
every room cell is in bounds and unassigned. -/
theorem onlyIntersectsEmptyLoop_true {g : TGrid (Option TerrainTile)} :
    ∀ {l : List Coord}, onlyIntersectsEmptyLoop g l = some true →
      ∀ c ∈ l, inBounds g.size c ∧ g.cells c = none := by
  intro l
  induction l with
  | nil => intro _ c hc; cases hc
  | cons c0 rest ih =>
    intro h c hc
    unfold onlyIntersectsEmptyLoop at h
    split at h
    · cases h
    · next cell heq =>
      obtain ⟨hin, hcell⟩ := getChecked_spec heq
      split at h
      · cases h
      · next hs =>
        rcases List.mem_cons.mp hc with rfl | hmem
        · refine ⟨hin, ?_⟩
          rw [hcell]
          exact Option.not_isSome_iff_eq_none.mp hs
        · exact ih h c hmem

/-- Helper: the overlap test does not panic when every inspected cell is
in bounds. -/
theorem onlyIntersectsEmptyLoop_isSome {g : TGrid (Option TerrainTile)} :
    ∀ l : List Coord, (∀ c ∈ l, inBounds g.size c) →
      ∃ b, onlyIntersectsEmptyLoop g l = some b := by
  intro l
  induction l with
  | nil => intro _; exact ⟨true, rfl⟩
  | cons c0 rest ih =>
    intro hin
    unfold onlyIntersectsEmptyLoop
    rw [getChecked_eq (hin c0 (List.mem_cons_self c0 rest))]
    show ∃ b, (if (g.cells c0).isSome = true then some false
      else onlyIntersectsEmptyLoop g rest) = some b
    by_cases hs : (g.cells c0).isSome
    · rw [if_pos hs]; exact ⟨false, rfl⟩
    · rw [if_neg hs]
      exact ih (fun c hc => hin c (List.mem_cons_of_mem c0 hc))

/-- Helper: the overlap test accepts when every room cell is in bounds
and unassigned. -/
theorem onlyIntersectsEmptyLoop_all_none {g : TGrid (Option TerrainTile)} :
    ∀ l : List Coord, (∀ c ∈ l, inBounds g.size c) →
      (∀ c ∈ l, g.cells c = none) →
      onlyIntersectsEmptyLoop g l = some true := by
  intro l
  induction l with
  | nil => intro _ _; rfl
  | cons c0 rest ih =>
    intro hin hnone
    unfold onlyIntersectsEmptyLoop
    rw [getChecked_eq (hin c0 (List.mem_cons_self c0 rest))]
    rw [hnone c0 (List.mem_cons_self c0 rest)]
    show onlyIntersectsEmptyLoop g rest = some true
    exact ih (fun c hc => hin c (List.mem_cons_of_mem c0 hc))
      (fun c hc => hnone c (List.mem_cons_of_mem c0 hc))

/-- Helper: what a successful `carve_out` write loop does: size kept,
untouched cells kept, every listed cell in bounds and set to its carved
tile. -/
theorem carveOutLoop_spec {room : Room} :
    ∀ {l : List Coord} {g g' : TGrid (Option TerrainTile)},
      carveOutLoop room g l = some g' →
      g'.size = g.size ∧
      (∀ c, c ∉ l → g'.cells c = g.cells c) ∧
      (∀ c ∈ l, inBounds g.size c) ∧
      (∀ c ∈ l, g'.cells c = some (carveVal room c)) := by
  intro l
  induction l with
  | nil =>
    intro g g' h
    cases h
    exact ⟨rfl, fun _ _ => rfl, fun c hc => absurd hc (List.not_mem_nil c),
      fun c hc => absurd hc (List.not_mem_nil c)⟩
  | cons c0 rest ih =>
    intro g g' h
    unfold carveOutLoop at h
    simp only [Option.bind_eq_bind, Option.bind_eq_some] at h
    obtain ⟨g1, hset, hrest⟩ := h
    obtain ⟨hsz, hin, hc0, hother⟩ := setChecked_spec hset
    obtain ⟨hsz2, hother2, hin2, hvals⟩ := ih hrest
    refine ⟨hsz2.trans hsz, ?_, ?_, ?_⟩
    · intro c hc
      rw [List.mem_cons, not_or] at hc
      rw [hother2 c hc.2, hother c hc.1]
    · intro c hc
      rcases List.mem_cons.mp hc with rfl | hmem
      · exact hin
      · have := hin2 c hmem
        rwa [hsz] at this
    · intro c hc
      rcases List.mem_cons.mp hc with rfl | hmem
      · by_cases hm : c ∈ rest
        · exact hvals c hm
        · rw [hother2 c hm, hc0]; rfl
      · exact hvals c hmem

/-- Helper: the carve loop succeeds when all listed cells are in bounds. -/
theorem carveOutLoop_isSome {room : Room} :
    ∀ (l : List Coord) (g : TGrid (Option TerrainTile)),
      (∀ c ∈ l, inBounds g.size c) →
      ∃ g', carveOutLoop room g l = some g' := by
  intro l
  induction l with
  | nil => intro g _; exact ⟨g, rfl⟩
  | cons c0 rest ih =>
    intro g hin
    unfold carveOutLoop
    obtain ⟨g1, hg1⟩ := setChecked_isSome g c0
      (some (if c0.x = room.top_left.x ∨ c0.y = room.top_left.y
        then TerrainTile.Wall else TerrainTile.Floor))
      (hin c0 (List.mem_cons_self c0 rest))
    obtain ⟨g2, hg2⟩ := ih g1 (fun c hc => by
      rw [(setChecked_spec hg1).1]
      exact hin c (List.mem_cons_of_mem c0 hc))
    refine ⟨g2, ?_⟩
    simp only [Option.bind_eq_bind, Option.bind_eq_some]
    exact ⟨g1, hg1, hg2⟩

/-- Helper: a successful floor filter only returns floor cells of its
input list. -/
theorem floorCoordsLoop_spec {g : TGrid (Option TerrainTile)} :
    ∀ {l fs : List Coord}, floorCoordsLoop g l = some fs →
      ∀ c ∈ fs, c ∈ l ∧ g.cells c = some TerrainTile.Floor := by
  intro l
  induction l with
  | nil => intro fs h c hc; cases h; cases hc
  | cons c0 rest ih =>
    intro fs h c hc
    unfold floorCoordsLoop at h
    simp only [Option.bind_eq_bind, Option.bind_eq_some] at h
    obtain ⟨cell, hget, t, ht, tail, htail, hres⟩ := h
    obtain ⟨hin, hcell⟩ := getChecked_spec hget
    split at hres
    · next hfloor =>
      cases hres
      rcases List.mem_cons.mp hc with rfl | hmem
      · subst hfloor
        exact ⟨List.mem_cons_self c rest, by rw [hcell, ht]⟩
      · obtain ⟨h1, h2⟩ := ih htail c hmem
        exact ⟨List.mem_cons_of_mem c0 h1, h2⟩
    · next hfloor =>
      cases hres
      obtain ⟨h1, h2⟩ := ih htail c hc
      exact ⟨List.mem_cons_of_mem c0 h1, h2⟩

/-- Helper: the floor filter succeeds when all listed cells are in
bounds and assigned. -/
theorem floorCoordsLoop_isSome {g : TGrid (Option TerrainTile)} :
    ∀ l : List Coord, (∀ c ∈ l, inBounds g.size c ∧ (g.cells c).isSome) →
      ∃ fs, floorCoordsLoop g l = some fs := by
  intro l
  induction l with
  | nil => intro _; exact ⟨[], rfl⟩
  | cons c0 rest ih =>
    intro hin
    obtain ⟨hin0, hsome0⟩ := hin c0 (List.mem_cons_self c0 rest)
    obtain ⟨t, ht⟩ := Option.isSome_iff_exists.mp hsome0
    obtain ⟨tail, htail⟩ := ih (fun c hc => hin c (List.mem_cons_of_mem c0 hc))
    unfold floorCoordsLoop
    rw [getChecked_eq hin0, ht]
    simp only [Option.bind_eq_bind, Option.some_bind, htail]
    by_cases hf : t = TerrainTile.Floor
    · rw [if_pos hf]; exact ⟨c0 :: tail, rfl⟩
    · rw [if_neg hf]; exact ⟨tail, rfl⟩

/-- Helper: the reservoir loop always succeeds and only returns elements
of the reservoir or of the remaining input. -/
theorem chooseMultipleLoop_spec {α : Type} {P : α → Prop} (amount : Nat) :
    ∀ (rest reservoir : List α) (i : Nat) (r : MRng),
      (∀ x ∈ reservoir, P x) → (∀ x ∈ rest, P x) →
      ∃ out r', chooseMultipleLoop amount reservoir rest i r = some (out, r') ∧
        ∀ x ∈ out, P x := by
  intro rest
  induction rest with
  | nil => intro reservoir i r hres _; exact ⟨reservoir, r, rfl, hres⟩
  | cons e rest ih =>
    intro reservoir i r hres hrest
    unfold chooseMultipleLoop
    rw [genRange_pos r (by omega : 0 < i + 1 + amount)]
    apply ih
    · intro x hx
      rcases List.mem_or_eq_of_mem_set hx with hmem | rfl
      · exact hres x hmem
      · exact hrest _ (List.mem_cons_self _ _)
    · intro x hx
      exact hrest x (List.mem_cons_of_mem e hx)

/-- Helper: `choose_multiple` always succeeds and only samples elements
of its input. -/
theorem chooseMultiple_spec {α : Type} (xs : List α) (amount : Nat) (r : MRng) :
    ∃ out r', chooseMultiple xs amount r = some (out, r') ∧
      ∀ x ∈ out, x ∈ xs := by
  unfold chooseMultiple
  dsimp only
  split
  · exact chooseMultipleLoop_spec amount (xs.drop amount) (xs.take amount) 0 r
      (fun x hx => List.mem_of_mem_take hx)
      (fun x hx => List.mem_of_mem_drop hx)
  · exact ⟨xs.take amount, r, rfl, fun x hx => List.mem_of_mem_take hx⟩

/-- Helper: weighted selection succeeds whenever the weight sum is
positive. -/
theorem cfpd_isSome {α : Type} (dist : List (α × Nat)) (r : MRng)
    (hsum : 0 < (dist.map Prod.snd).sum) :
    ∃ v r', choose_from_probability_distribution dist r = some (v, r') := by
  have hchoice : (r.next.1 % (dist.map Prod.snd).sum) < (dist.map Prod.snd).sum :=
    Nat.mod_lt _ hsum
  obtain ⟨v, hv, _⟩ := cfpdLoop_mem dist _ hchoice
  refine ⟨v, r.next.2, ?_⟩
  simp only [choose_from_probability_distribution, genRange, hsum, if_pos]
  simp [hv]

/-- Helper: what a successful placement write loop does: size kept, and
any changed cell is a listed cell now holding a placed kind. -/
theorem placeLoop_spec {α : Type} {mk : α → TerrainTile} {dist : List (α × Nat)} :
    ∀ {l : List Coord} {g g' : TGrid (Option TerrainTile)} {r r' : MRng},
      placeLoop mk dist g l r = some (g', r') →
      g'.size = g.size ∧
      ∀ c, g'.cells c ≠ g.cells c →
        c ∈ l ∧ ∃ k, g'.cells c = some (mk k) := by
  intro l
  induction l with
  | nil =>
    intro g g' r r' h
    cases h
    exact ⟨rfl, fun c hc => absurd rfl hc⟩
  | cons c0 rest ih =>
    intro g g' r r' h
    unfold placeLoop at h
    simp only [Option.bind_eq_bind, Option.bind_eq_some] at h
    obtain ⟨⟨kind, r1⟩, hkind, g1, hset, hrest⟩ := h
    obtain ⟨hsz, hin, hc0, hother⟩ := setChecked_spec hset
    obtain ⟨hsz2, hchanged⟩ := ih hrest
    refine ⟨hsz2.trans hsz, ?_⟩
    intro c hc
    by_cases hmid : g'.cells c = g1.cells c
    · rw [hmid] at hc ⊢
      by_cases hc0eq : c = c0
      · subst hc0eq
        exact ⟨List.mem_cons_self c rest, kind, hc0⟩
      · exact absurd (hother c hc0eq) hc
    · obtain ⟨hmem, hk⟩ := hchanged c hmid
      exact ⟨List.mem_cons_of_mem c0 hmem, hk⟩

/-- Helper: the placement write loop succeeds when the weight sum is
positive and all listed cells are in bounds. -/
theorem placeLoop_isSome {α : Type} (mk : α → TerrainTile)
    (dist : List (α × Nat)) (hsum : 0 < (dist.map Prod.snd).sum) :
    ∀ (l : List Coord) (g : TGrid (Option TerrainTile)) (r : MRng),
      (∀ c ∈ l, inBounds g.size c) →
      ∃ g' r', placeLoop mk dist g l r = some (g', r') := by
  intro l
  induction l with
  | nil => intro g r _; exact ⟨g, r, rfl⟩
  | cons c0 rest ih =>
    intro g r hin
    obtain ⟨kind, r1, hkind⟩ := cfpd_isSome dist r hsum
    obtain ⟨g1, hg1⟩ := setChecked_isSome g c0 (some (mk kind))
      (hin c0 (List.mem_cons_self c0 rest))
    obtain ⟨g2, r2, hg2⟩ := ih g1 r1 (fun c hc => by
      rw [(setChecked_spec hg1).1]
      exact hin c (List.mem_cons_of_mem c0 hc))
    refine ⟨g2, r2, ?_⟩
    unfold placeLoop
    simp only [Option.bind_eq_bind, Option.bind_eq_some]
    exact ⟨(kind, r1), hkind, g1, hg1, hg2⟩

/-- Helper: `SliceRandom::choose` succeeds on a non-empty slice. -/
theorem sliceChoose_isSome {α : Type} (xs : List α) (r : MRng)
    (h : xs ≠ []) : ∃ v r', sliceChoose xs r = some (v, r') := by
  have hlen : 0 < xs.length := List.length_pos.mpr h
  unfold sliceChoose
  rw [genRange_pos _ hlen]
  simp only [Nat.sub_zero, Nat.zero_add, Option.bind_eq_bind, Option.some_bind]
  cases hget : xs.get? (r.seq r.idx % xs.length) with
  | none =>
    rw [List.get?_eq_none] at hget
    have := Nat.mod_lt (r.seq r.idx) hlen
    omega
  | some v => exact ⟨v, _, rfl⟩

/-- Helper: the NPC weight distribution always has positive total
weight. -/
theorem npc_dist_sum_pos (level : Nat) :
    0 < ((make_npc_probability_distribution level).map Prod.snd).sum := by
  simp [make_npc_probability_distribution]

/-- Helper: the item weight distribution always has positive total
weight. -/
theorem item_dist_sum_pos (level : Nat) :
    0 < ((make_item_probability_distribution level).map Prod.snd).sum := by
  unfold make_item_probability_distribution
  dsimp only
  split_ifs <;> simp

end Terrain
namespace Terrain

/-- Helper: a successful `choose_multiple` samples only input elements. -/
theorem chooseMultiple_sub {α : Type} {xs out : List α} {n : Nat}
    {r r' : MRng} (h : chooseMultiple xs n r = some (out, r')) :
    ∀ x ∈ out, x ∈ xs := by
  obtain ⟨out2, r2, heq, hmem⟩ := chooseMultiple_spec xs n r
  rw [h] at heq
  cases heq
  exact hmem

/-- Helper: a successful `place_npcs` only rewrites Floor cells of the
room, each to an NPC tile. -/
theorem place_npcs_effect {room : Room} {n : Nat} {dist : List (NpcType × Nat)}
    {g g' : TGrid (Option TerrainTile)} {r r' : MRng}
    (h : room.place_npcs n dist g r = some (g', r')) :
    g'.size = g.size ∧
    ∀ c, g'.cells c ≠ g.cells c →
      c ∈ room.coords ∧ g.cells c = some TerrainTile.Floor ∧
      ∃ k, g'.cells c = some (TerrainTile.Npc k) := by
  unfold Room.place_npcs at h
  simp only [Option.bind_eq_bind, Option.bind_eq_some] at h
  obtain ⟨fs, hfs, ⟨chosen, r1⟩, hcm, hpl⟩ := h
  dsimp only at hpl
  obtain ⟨hsz, hch⟩ := placeLoop_spec hpl
  refine ⟨hsz, fun c hc => ?_⟩
  obtain ⟨hmem, k, hk⟩ := hch c hc
  obtain ⟨hmc, hfl⟩ := floorCoordsLoop_spec hfs c (chooseMultiple_sub hcm c hmem)
  exact ⟨hmc, hfl, k, hk⟩

/-- Helper: a successful `place_items` only rewrites Floor cells of the
room, each to an item tile. -/
theorem place_items_effect {room : Room} {n : Nat} {dist : List (ItemType × Nat)}
    {g g' : TGrid (Option TerrainTile)} {r r' : MRng}
    (h : room.place_items n dist g r = some (g', r')) :
    g'.size = g.size ∧
    ∀ c, g'.cells c ≠ g.cells c →
      c ∈ room.coords ∧ g.cells c = some TerrainTile.Floor ∧
      ∃ k, g'.cells c = some (TerrainTile.Item k) := by
  unfold Room.place_items at h
  simp only [Option.bind_eq_bind, Option.bind_eq_some] at h
  obtain ⟨fs, hfs, ⟨chosen, r1⟩, hcm, hpl⟩ := h
  dsimp only at hpl
  obtain ⟨hsz, hch⟩ := placeLoop_spec hpl
  refine ⟨hsz, fun c hc => ?_⟩
  obtain ⟨hmem, k, hk⟩ := hch c hc
  obtain ⟨hmc, hfl⟩ := floorCoordsLoop_spec hfs c (chooseMultiple_sub hcm c hmem)
  exact ⟨hmc, hfl, k, hk⟩

/-- Helper: `place_npcs` succeeds when every room cell is in bounds and
assigned and the weight sum is positive. -/
theorem place_npcs_isSome (room : Room) (n : Nat) (dist : List (NpcType × Nat))
    (g : TGrid (Option TerrainTile)) (r : MRng)
    (hsum : 0 < (dist.map Prod.snd).sum)
    (hcov : ∀ c ∈ room.coords, inBounds g.size c ∧ (g.cells c).isSome) :
    ∃ g' r', room.place_npcs n dist g r = some (g', r') := by
  obtain ⟨fs, hfs⟩ := floorCoordsLoop_isSome _ hcov
  obtain ⟨chosen, r1, hcm, hmem⟩ := chooseMultiple_spec fs n r
  obtain ⟨g', r', hpl⟩ := placeLoop_isSome _ dist hsum chosen g r1
    (fun c hc => (hcov c (floorCoordsLoop_spec hfs c (hmem c hc)).1).1)
  refine ⟨g', r', ?_⟩
  unfold Room.place_npcs
  simp only [Option.bind_eq_bind, hfs, Option.some_bind, hcm]
  exact hpl

/-- Helper: `place_items` succeeds when every room cell is in bounds and
assigned and the weight sum is positive. -/
theorem place_items_isSome (room : Room) (n : Nat) (dist : List (ItemType × Nat))
    (g : TGrid (Option TerrainTile)) (r : MRng)
    (hsum : 0 < (dist.map Prod.snd).sum)
    (hcov : ∀ c ∈ room.coords, inBounds g.size c ∧ (g.cells c).isSome) :
    ∃ g' r', room.place_items n dist g r = some (g', r') := by
  obtain ⟨fs, hfs⟩ := floorCoordsLoop_isSome _ hcov
  obtain ⟨chosen, r1, hcm, hmem⟩ := chooseMultiple_spec fs n r
  obtain ⟨g', r', hpl⟩ := placeLoop_isSome _ dist hsum chosen g r1
    (fun c hc => (hcov c (floorCoordsLoop_spec hfs c (hmem c hc)).1).1)
  refine ⟨g', r', ?_⟩
  unfold Room.place_items
  simp only [Option.bind_eq_bind, hfs, Option.some_bind, hcm]
  exact hpl

end Terrain
namespace Terrain

/-- Helper: the combined effect of the NPC and item population phase:
only Floor cells of the room change, each to a non-Wall, non-Floor,
non-Stairs, non-Player tile. -/
theorem popPhase_effect {room : Room} {npcDist : List (NpcType × Nat)}
    {itemDist : List (ItemType × Nat)}
    {g2 g3 g4 : TGrid (Option TerrainTile)} {n1 n2 : Nat} {r2 r3 r4 r5 : MRng}
    (hpn : room.place_npcs n1 npcDist g2 r2 = some (g3, r3))
    (hpi : room.place_items n2 itemDist g3 r4 = some (g4, r5)) :
    g4.size = g2.size ∧
    ∀ c, g4.cells c ≠ g2.cells c →
      c ∈ room.coords ∧ g2.cells c = some TerrainTile.Floor ∧
      ∃ t, g4.cells c = some t ∧ t ≠ TerrainTile.Wall ∧ t ≠ TerrainTile.Floor ∧
        t ≠ TerrainTile.Stairs ∧ t ≠ TerrainTile.Player := by
  obtain ⟨hsz1, hch1⟩ := place_npcs_effect hpn
  obtain ⟨hsz2, hch2⟩ := place_items_effect hpi
  refine ⟨hsz2.trans hsz1, fun c hc => ?_⟩
  by_cases h43 : g4.cells c = g3.cells c
  · rw [h43] at hc ⊢
    obtain ⟨hmem, hfl, k, hk⟩ := hch1 c hc
    exact ⟨hmem, hfl, TerrainTile.Npc k, hk, by simp, by simp, by simp, by simp⟩
  · obtain ⟨hmem, hfl3, k, hk⟩ := hch2 c h43
    by_cases h32 : g3.cells c = g2.cells c
    · rw [h32] at hfl3
      exact ⟨hmem, hfl3, TerrainTile.Item k, hk, by simp, by simp, by simp, by simp⟩
    · obtain ⟨_, _, k2, hk2⟩ := hch1 c h32
      rw [hk2] at hfl3
      cases hfl3

/-- Helper: the invariant is re-established after one accepted room,
given digests of the carve phase (`g2`, including the possible Player
mark) and the population phase (`g4`). -/
theorem acceptAssemble {size : GSize} {room : Room} {rooms : List Room}
    {st : GenState} {g2 g4 : TGrid (Option TerrainTile)} {r5 : MRng}
    (hInv : Inv size st rooms)
    (hfits : room.fits size)
    (hempty : ∀ c ∈ room.coords, st.grid.cells c = none)
    (hg2size : g2.size = st.grid.size)
    (hg2loc : ∀ c, g2.cells c ≠ st.grid.cells c → c ∈ room.coords)
    (hg2coords : ∀ c ∈ room.coords, g2.cells c = some (carveVal room c) ∨
        (c = room.center ∧ g2.cells c = some TerrainTile.Player))
    (hg2head : st.room_centers = [] → g2.cells room.center = some TerrainTile.Player)
    (hphsize : g4.size = g2.size)
    (hphch : ∀ c, g4.cells c ≠ g2.cells c →
      c ∈ room.coords ∧ g2.cells c = some TerrainTile.Floor ∧
      ∃ t, g4.cells c = some t ∧ t ≠ TerrainTile.Wall ∧ t ≠ TerrainTile.Floor ∧
        t ≠ TerrainTile.Stairs ∧ t ≠ TerrainTile.Player) :
    Inv size ⟨g4, st.room_centers ++ [room.center], r5⟩ (rooms ++ [room]) := by
  have hwle : 2 ≤ room.size.width := by
    have := hfits.2.2.2.2.1
    omega
  have hhle : 2 ≤ room.size.height := by
    have := hfits.2.2.2.2.2.2.1
    omega
  have hcenterInt : room.interior room.center := Room.center_interior hwle hhle
  have hcenterMem : room.center ∈ room.coords := Room.interior_mem_coords hcenterInt
  -- a cell that kept its g2 value and its st value
  have hunch : ∀ c, c ∉ room.coords → g4.cells c = st.grid.cells c := by
    intro c hc
    by_cases h42 : g4.cells c = g2.cells c
    · rw [h42]
      by_cases h20 : g2.cells c = st.grid.cells c
      · exact h20
      · exact absurd (hg2loc c h20) hc
    · exact absurd (hphch c h42).1 hc
  -- every room cell is assigned in g2
  have hg2some : ∀ c ∈ room.coords, ∃ t, g2.cells c = some t := by
    intro c hc
    rcases hg2coords c hc with hcv | ⟨_, hp⟩
    · exact ⟨_, hcv⟩
    · exact ⟨_, hp⟩
  -- every room cell is assigned in g4
  have hg4some : ∀ c ∈ room.coords, ∃ t, g4.cells c = some t := by
    intro c hc
    by_cases h42 : g4.cells c = g2.cells c
    · rw [h42]; exact hg2some c hc
    · obtain ⟨_, _, t, ht, _⟩ := hphch c h42
      exact ⟨t, ht⟩
  -- SomeNW is preserved from st to g4
  have hNWmono : ∀ c, SomeNW st.grid c → SomeNW g4 c := by
    intro c h
    obtain ⟨t, ht, htw⟩ := h
    have hnotmem : c ∉ room.coords := by
      intro hmem
      rw [hempty c hmem] at ht
      cases ht
    exact ⟨t, (hunch c hnotmem).trans ht, htw⟩
  -- the center of the new room is not an old center
  have hfresh : room.center ∉ st.room_centers := by
    intro hmem
    rw [hInv.centersEq] at hmem
    obtain ⟨room0, hroom0, hceq⟩ := List.mem_map.mp hmem
    have hint0 : room0.interior room0.center := by
      have hf0 := hInv.roomsFit room0 hroom0
      exact Room.center_interior (by have := hf0.2.2.2.2.1; omega)
        (by have := hf0.2.2.2.2.2.2.1; omega)
    obtain ⟨t, ht, _⟩ := hInv.interiorNW room0 hroom0 _ hint0
    rw [hceq] at ht
    rw [hempty _ hcenterMem] at ht
    cases ht
  refine ⟨?_, ?_, ?_, ?_, ?_, ?_, ?_, ?_, ?_, ?_⟩
  · -- sizeEq
    show g4.size = size
    rw [hphsize, hg2size, hInv.sizeEq]
  · -- oob
    intro c hc
    show g4.cells c = none
    have hnotmem : c ∉ room.coords := fun hmem =>
      hc (by rw [← hInv.sizeEq]; exact Room.coords_inBounds (by rw [hInv.sizeEq]; exact hfits) hmem)
    rw [hunch c hnotmem]
    exact hInv.oob c hc
  · -- centersEq
    show st.room_centers ++ [room.center] = (rooms ++ [room]).map Room.center
    rw [List.map_append, hInv.centersEq]
    rfl
  · -- roomsFit
    intro room0 hmem
    rcases List.mem_append.mp hmem with hL | hR
    · exact hInv.roomsFit room0 hL
    · rw [List.mem_singleton.mp hR]
      exact hfits
  · -- coveredSome
    intro room0 hmem c hc
    show (g4.cells c).isSome = true
    rcases List.mem_append.mp hmem with hL | hR
    · have hold := hInv.coveredSome room0 hL c hc
      by_cases h42 : g4.cells c = g2.cells c
      · by_cases h20 : g2.cells c = st.grid.cells c
        · rw [h42, h20]; exact hold
        · obtain ⟨t, ht⟩ := hg2some c (hg2loc c h20)
          rw [h42, ht]; rfl
      · obtain ⟨_, _, t, ht, _⟩ := hphch c h42
        rw [ht]; rfl
    · rw [List.mem_singleton.mp hR] at hc
      obtain ⟨t, ht⟩ := hg4some c hc
      rw [ht]; rfl
  · -- interiorNW
    intro room0 hmem c hint
    show SomeNW g4 c
    rcases List.mem_append.mp hmem with hL | hR
    · exact hNWmono c (hInv.interiorNW room0 hL c hint)
    · rw [List.mem_singleton.mp hR] at hint
      have hc : c ∈ room.coords := Room.interior_mem_coords hint
      have hg2val : ∃ t, g2.cells c = some t ∧ t ≠ TerrainTile.Wall := by
        rcases hg2coords c hc with hcv | ⟨_, hp⟩
        · refine ⟨carveVal room c, hcv, ?_⟩
          rw [(carveVal_floor_iff hc).mpr hint]
          simp
        · exact ⟨TerrainTile.Player, hp, by simp⟩
      by_cases h42 : g4.cells c = g2.cells c
      · obtain ⟨t, ht, htw⟩ := hg2val
        exact ⟨t, by rw [h42, ht], htw⟩
      · obtain ⟨_, _, t, ht, htw, _⟩ := hphch c h42
        exact ⟨t, ht, htw⟩
  · -- headPlayer
    intro c0 hc0
    show g4.cells c0 = some TerrainTile.Player
    cases hcent : st.room_centers with
    | nil =>
      rw [hcent] at hc0
      simp only [List.nil_append, List.head?_cons, Option.some.injEq] at hc0
      rw [← hc0]
      have hg2p := hg2head hcent
      by_cases h42 : g4.cells room.center = g2.cells room.center
      · rw [h42]; exact hg2p
      · obtain ⟨_, hfl, _⟩ := hphch _ h42
        rw [hg2p] at hfl
        cases hfl
    | cons ch ct =>
      rw [hcent] at hc0
      simp only [List.cons_append, List.head?_cons, Option.some.injEq] at hc0
      rw [← hc0]
      have hold : st.grid.cells ch = some TerrainTile.Player := by
        apply hInv.headPlayer
        rw [hcent]
        rfl
      have hnotmem : ch ∉ room.coords := by
        intro hmem
        rw [hempty ch hmem] at hold
        cases hold
      rw [hunch ch hnotmem]
      exact hold
  · -- nodup
    show (st.room_centers ++ [room.center]).Nodup
    rw [List.nodup_append]
    refine ⟨hInv.nodup, List.nodup_singleton _, ?_⟩
    intro a ha hb
    rw [List.mem_singleton.mp hb] at ha
    exact hfresh ha
  · -- floorProv
    intro c hfl
    show ∃ room0 ∈ rooms ++ [room], room0.interior c
    by_cases h42 : g4.cells c = g2.cells c
    · rw [h42] at hfl
      by_cases h20 : g2.cells c = st.grid.cells c
      · rw [h20] at hfl
        obtain ⟨room0, hmem, hint⟩ := hInv.floorProv c hfl
        exact ⟨room0, List.mem_append_left _ hmem, hint⟩
      · have hc := hg2loc c h20
        rcases hg2coords c hc with hcv | ⟨_, hp⟩
        · rw [hcv] at hfl
          have : carveVal room c = TerrainTile.Floor := Option.some.inj hfl
          exact ⟨room, List.mem_append_right _ (List.mem_singleton_self _),
            (carveVal_floor_iff hc).mp this⟩
        · rw [hp] at hfl
          cases hfl
    · obtain ⟨_, _, t, ht, _, htf, _, _⟩ := hphch c h42
      rw [ht] at hfl
      injection hfl with hfl'
      exact absurd hfl' htf
  · -- noStairs
    intro c hst
    by_cases h42 : g4.cells c = g2.cells c
    · rw [h42] at hst
      by_cases h20 : g2.cells c = st.grid.cells c
      · rw [h20] at hst
        exact hInv.noStairs c hst
      · have hc := hg2loc c h20
        rcases hg2coords c hc with hcv | ⟨_, hp⟩
        · rw [hcv] at hst
          injection hst with hst'
          rcases carveVal_cases room c with hw | hf
          · rw [hw] at hst'; cases hst'
          · rw [hf] at hst'; cases hst'
        · rw [hp] at hst
          injection hst with hst'
          cases hst'
    · obtain ⟨_, _, t, ht, _, _, hts, _⟩ := hphch c h42
      rw [ht] at hst
      injection hst with hst'
      exact absurd hst' hts

end Terrain
namespace Terrain

/-- Helper: one attempt of the placement loop preserves the invariant;
the accepted-room case extends the room list by the sampled room. -/
theorem attemptStep_preserve {size : GSize} {npcDist : List (NpcType × Nat)}
    {itemDist : List (ItemType × Nat)} {st st' : GenState} {rooms : List Room}
    (hInv : Inv size st rooms)
    (h : attemptStep size npcDist itemDist st = some st') :
    ∃ rooms', Inv size st' rooms' ∧
      ((st'.room_centers = st.room_centers ∧ st'.grid = st.grid) ∨
        ∃ room, rooms' = rooms ++ [room] ∧
          st'.room_centers = st.room_centers ++ [room.center]) := by
  unfold attemptStep at h
  simp only [Option.bind_eq_bind, Option.bind_eq_some] at h
  obtain ⟨⟨room, r1⟩, hchoose, h⟩ := h
  obtain ⟨ok, hok, h⟩ := h
  split at h
  case isFalse =>
    cases h
    exact ⟨rooms, ⟨hInv.sizeEq, hInv.oob, hInv.centersEq, hInv.roomsFit,
      hInv.coveredSome, hInv.interiorNW, hInv.headPlayer, hInv.nodup,
      hInv.floorProv, hInv.noStairs⟩, Or.inl ⟨rfl, rfl⟩⟩
  case isTrue hokt =>
    subst hokt
    dsimp only at hok h
    have hfits : room.fits size := Room.choose_fits hchoose
    unfold Room.only_intersects_empty at hok
    have hemp := onlyIntersectsEmptyLoop_true hok
    rw [Option.bind_eq_some] at h
    obtain ⟨g1, hcarve, h⟩ := h
    unfold Room.carve_out at hcarve
    obtain ⟨hg1size, hg1other, hg1in, hg1vals⟩ := carveOutLoop_spec hcarve
    have hcenterMem : room.center ∈ room.coords := by
      apply Room.interior_mem_coords
      exact Room.center_interior (by have := hfits.2.2.2.2.1; omega)
        (by have := hfits.2.2.2.2.2.2.1; omega)
    split at h
    case isFalse hempF =>
      simp only [Option.some_bind] at h
      rw [Option.bind_eq_some] at h
      obtain ⟨⟨num_npcs, r2⟩, hnn, h⟩ := h
      dsimp only at h
      rw [Option.bind_eq_some] at h
      obtain ⟨⟨g3, r3⟩, hpn, h⟩ := h
      dsimp only at h
      rw [Option.bind_eq_some] at h
      obtain ⟨⟨num_items, r4⟩, hni, h⟩ := h
      dsimp only at h
      rw [Option.bind_eq_some] at h
      obtain ⟨⟨g4, r5⟩, hpi, h⟩ := h
      dsimp only at h
      cases h
      obtain ⟨hphsize, hphch⟩ := popPhase_effect hpn hpi
      refine ⟨rooms ++ [room],
        acceptAssemble hInv hfits (fun c hc => (hemp c hc).2)
          hg1size ?_ ?_ ?_ hphsize hphch,
        Or.inr ⟨room, rfl, rfl⟩⟩
      · intro c hc
        by_contra hmem
        exact hc (hg1other c hmem)
      · intro c hc
        exact Or.inl (hg1vals c hc)
      · intro hnil
        exact absurd (by rw [hnil]; rfl) hempF
    case isTrue hempT =>
      rw [Option.bind_eq_some] at h
      obtain ⟨g2, hset, h⟩ := h
      rw [Option.bind_eq_some] at h
      obtain ⟨⟨num_npcs, r2⟩, hnn, h⟩ := h
      dsimp only at h
      rw [Option.bind_eq_some] at h
      obtain ⟨⟨g3, r3⟩, hpn, h⟩ := h
      dsimp only at h
      rw [Option.bind_eq_some] at h
      obtain ⟨⟨num_items, r4⟩, hni, h⟩ := h
      dsimp only at h
      rw [Option.bind_eq_some] at h
      obtain ⟨⟨g4, r5⟩, hpi, h⟩ := h
      dsimp only at h
      cases h
      obtain ⟨hsetsize, hsetin, hsetval, hsetother⟩ := setChecked_spec hset
      obtain ⟨hphsize, hphch⟩ := popPhase_effect hpn hpi
      refine ⟨rooms ++ [room],
        acceptAssemble hInv hfits (fun c hc => (hemp c hc).2)
          (hsetsize.trans hg1size) ?_ ?_ ?_ hphsize hphch,
        Or.inr ⟨room, rfl, rfl⟩⟩
      · intro c hc
        by_cases hceq : c = room.center
        · rw [hceq]; exact hcenterMem
        · by_contra hmem
          rw [hsetother c hceq, hg1other c hmem] at hc
          exact hc rfl
      · intro c hc
        by_cases hceq : c = room.center
        · right
          refine ⟨hceq, ?_⟩
          rw [hceq]
          exact hsetval
        · left
          rw [hsetother c hceq]
          exact hg1vals c hc
      · intro _
        exact hsetval

end Terrain
namespace Terrain

/-- Helper: the NPC-and-item population tail of an accepted attempt
succeeds when the room's cells are in bounds and assigned. -/
theorem popTail_isSome {room : Room} {npcDist : List (NpcType × Nat)}
    {itemDist : List (ItemType × Nat)}
    (hs1 : 0 < (npcDist.map Prod.snd).sum)
    (hs2 : 0 < (itemDist.map Prod.snd).sum)
    (g2 : TGrid (Option TerrainTile)) (r1 : MRng) (centers : List Coord)
    (hcov : ∀ c ∈ room.coords, inBounds g2.size c ∧ (g2.cells c).isSome) :
    ∃ st', ((sliceChoose NPCS_PER_ROOM_DISTRIBUTION r1).bind fun p =>
      (room.place_npcs p.1 npcDist g2 p.2).bind fun q =>
        (sliceChoose ITEMS_PER_ROOM_DISTRIBUTION q.2).bind fun p2 =>
          (room.place_items p2.1 itemDist q.1 p2.2).bind fun q2 =>
            some (⟨q2.1, centers, q2.2⟩ : GenState)) = some st' := by
  obtain ⟨nn, r2, hnn⟩ := sliceChoose_isSome NPCS_PER_ROOM_DISTRIBUTION r1
    (by simp [NPCS_PER_ROOM_DISTRIBUTION])
  obtain ⟨g3, r3, hpn⟩ := place_npcs_isSome room nn npcDist g2 r2 hs1 hcov
  obtain ⟨hpnsize, hpnch⟩ := place_npcs_effect hpn
  obtain ⟨ni, r4, hni⟩ := sliceChoose_isSome ITEMS_PER_ROOM_DISTRIBUTION r3
    (by simp [ITEMS_PER_ROOM_DISTRIBUTION])
  have hg3cov : ∀ c ∈ room.coords, inBounds g3.size c ∧ (g3.cells c).isSome := by
    intro c hc
    refine ⟨by rw [hpnsize]; exact (hcov c hc).1, ?_⟩
    by_cases h32 : g3.cells c = g2.cells c
    · rw [h32]; exact (hcov c hc).2
    · obtain ⟨_, _, k, hk⟩ := hpnch c h32
      rw [hk]; rfl
  obtain ⟨g4, r5, hpi⟩ := place_items_isSome room ni itemDist g3 r4 hs2 hg3cov
  refine ⟨⟨g4, centers, r5⟩, ?_⟩
  rw [hnn]
  simp only [Option.bind_eq_bind, Option.some_bind]
  try dsimp only
  rw [hpn]
  simp only [Option.bind_eq_bind, Option.some_bind]
  try dsimp only
  rw [hni]
  simp only [Option.bind_eq_bind, Option.some_bind]
  try dsimp only
  rw [hpi]
  simp only [Option.bind_eq_bind, Option.some_bind]

/-- Helper: one attempt succeeds on any grid at least 11 wide and 9 high
with positive distribution weight sums. -/
theorem attemptStep_isSome {size : GSize} {npcDist : List (NpcType × Nat)}
    {itemDist : List (ItemType × Nat)} {st : GenState} {rooms : List Room}
    (hInv : Inv size st rooms) (hw : 11 ≤ size.width) (hh : 9 ≤ size.height)
    (hs1 : 0 < (npcDist.map Prod.snd).sum)
    (hs2 : 0 < (itemDist.map Prod.snd).sum) :
    ∃ st', attemptStep size npcDist itemDist st = some st' := by
  obtain ⟨room, r1, hchoose⟩ := Room.choose_isSome size st.rng hw hh
  have hfits := Room.choose_fits hchoose
  have hinB : ∀ c ∈ room.coords, inBounds st.grid.size c := by
    intro c hc
    rw [hInv.sizeEq]
    exact Room.coords_inBounds hfits hc
  obtain ⟨ok, hok⟩ := onlyIntersectsEmptyLoop_isSome room.coords hinB
  cases ok with
  | false =>
    refine ⟨⟨st.grid, st.room_centers, r1⟩, ?_⟩
    unfold attemptStep
    rw [hchoose]
    simp only [Option.bind_eq_bind, Option.some_bind]
    unfold Room.only_intersects_empty
    rw [hok]
    rw [Option.some_bind]
    rw [if_neg Bool.false_ne_true]
  | true =>
    obtain ⟨g1, hcarve⟩ := @carveOutLoop_isSome room room.coords st.grid hinB
    obtain ⟨hg1size, hg1other, _, hg1vals⟩ := carveOutLoop_spec hcarve
    have hcenterMem : room.center ∈ room.coords := by
      apply Room.interior_mem_coords
      exact Room.center_interior (by have := hfits.2.2.2.2.1; omega)
        (by have := hfits.2.2.2.2.2.2.1; omega)
    by_cases hempcase : st.room_centers.isEmpty = true
    · have hcenterin : inBounds g1.size room.center := by
        rw [hg1size]
        exact hinB _ hcenterMem
      obtain ⟨g2, hset⟩ := setChecked_isSome g1 room.center
        (some TerrainTile.Player) hcenterin
      obtain ⟨hsz, _, hval, hoth⟩ := setChecked_spec hset
      have hcov : ∀ c ∈ room.coords, inBounds g2.size c ∧ (g2.cells c).isSome := by
        intro c hc
        refine ⟨by rw [hsz, hg1size]; exact hinB c hc, ?_⟩
        by_cases hcc : c = room.center
        · rw [hcc, hval]; rfl
        · rw [hoth c hcc, hg1vals c hc]; rfl
      obtain ⟨st', htail⟩ := popTail_isSome hs1 hs2 g2 r1
        (st.room_centers ++ [room.center]) hcov
      refine ⟨st', ?_⟩
      unfold attemptStep
      rw [hchoose]
      simp only [Option.bind_eq_bind, Option.some_bind]
      unfold Room.only_intersects_empty
      rw [hok]
      rw [Option.some_bind]
      rw [if_pos rfl]
      unfold Room.carve_out
      rw [hcarve]
      rw [Option.some_bind]
      rw [if_pos hempcase]
      rw [hset]
      rw [Option.some_bind]
      exact htail
    · have hcov : ∀ c ∈ room.coords, inBounds g1.size c ∧ (g1.cells c).isSome := by
        intro c hc
        exact ⟨by rw [hg1size]; exact hinB c hc, by rw [hg1vals c hc]; rfl⟩
      obtain ⟨st', htail⟩ := popTail_isSome hs1 hs2 g1 r1
        (st.room_centers ++ [room.center]) hcov
      refine ⟨st', ?_⟩
      unfold attemptStep
      rw [hchoose]
      simp only [Option.bind_eq_bind, Option.some_bind]
      unfold Room.only_intersects_empty
      rw [hok]
      rw [Option.some_bind]
      rw [if_pos rfl]
      unfold Room.carve_out
      rw [hcarve]
      rw [Option.some_bind]
      rw [if_neg hempcase]
      exact htail

/-- Helper: a panic-free overlap test over an all-unassigned grid
accepts. -/
theorem onlyIntersectsEmptyLoop_none_true {g : TGrid (Option TerrainTile)}
    (hall : ∀ c, g.cells c = none) :
    ∀ {l : List Coord} {b : Bool}, onlyIntersectsEmptyLoop g l = some b →
      b = true := by
  intro l
  induction l with
  | nil => intro b h; cases h; rfl
  | cons c0 rest ih =>
    intro b h
    unfold onlyIntersectsEmptyLoop at h
    split at h
    · cases h
    · next cell heq =>
      obtain ⟨_, hcell⟩ := getChecked_spec heq
      split at h
      · next hs =>
        rw [← hcell, hall c0] at hs
        cases hs
      · exact ih h

/-- Helper: the first attempt on an all-unassigned grid, when it
succeeds, always accepts a room. -/
theorem attemptStep_first_accepts {size : GSize} {npcDist : List (NpcType × Nat)}
    {itemDist : List (ItemType × Nat)} {st st' : GenState}
    (hall : ∀ c, st.grid.cells c = none)
    (h : attemptStep size npcDist itemDist st = some st') :
    st.room_centers = [] → st'.room_centers ≠ [] := by
  unfold attemptStep at h
  simp only [Option.bind_eq_bind, Option.bind_eq_some] at h
  obtain ⟨⟨room, r1⟩, hchoose, h⟩ := h
  obtain ⟨ok, hok, h⟩ := h
  have hoktrue : ok = true := by
    dsimp only at hok
    unfold Room.only_intersects_empty at hok
    exact onlyIntersectsEmptyLoop_none_true hall hok
  subst hoktrue
  rw [if_pos rfl] at h
  rw [Option.bind_eq_some] at h
  obtain ⟨g1, _, h⟩ := h
  split at h
  · rw [Option.bind_eq_some] at h
    obtain ⟨g2, _, h⟩ := h
    rw [Option.bind_eq_some] at h
    obtain ⟨p, _, h⟩ := h
    rw [Option.bind_eq_some] at h
    obtain ⟨q, _, h⟩ := h
    rw [Option.bind_eq_some] at h
    obtain ⟨p2, _, h⟩ := h
    rw [Option.bind_eq_some] at h
    obtain ⟨q2, _, h⟩ := h
    cases h
    intro hnil
    simp [hnil]
  · simp only [Option.bind_eq_bind, Option.some_bind] at h
    rw [Option.bind_eq_some] at h
    obtain ⟨p, _, h⟩ := h
    rw [Option.bind_eq_some] at h
    obtain ⟨q, _, h⟩ := h
    rw [Option.bind_eq_some] at h
    obtain ⟨p2, _, h⟩ := h
    rw [Option.bind_eq_some] at h
    obtain ⟨q2, _, h⟩ := h
    cases h
    intro hnil
    simp [hnil]

end Terrain
namespace Terrain

/-- Helper: the whole attempts loop preserves the invariant and never
shrinks the recorded center list. -/
theorem attemptsLoop_preserve {size : GSize} {npcDist : List (NpcType × Nat)}
    {itemDist : List (ItemType × Nat)} :
    ∀ (n : Nat) {st st' : GenState} {rooms : List Room},
      Inv size st rooms →
      attemptsLoop size npcDist itemDist n st = some st' →
      ∃ rooms', Inv size st' rooms' ∧
        st.room_centers.length ≤ st'.room_centers.length := by
  intro n
  induction n with
  | zero =>
    intro st st' rooms hInv h
    cases h
    exact ⟨rooms, hInv, le_rfl⟩
  | succ k ih =>
    intro st st' rooms hInv h
    unfold attemptsLoop at h
    simp only [Option.bind_eq_bind] at h
    rw [Option.bind_eq_some] at h
    obtain ⟨st1, hstep, hrest⟩ := h
    obtain ⟨rooms1, hInv1, hdisj⟩ := attemptStep_preserve hInv hstep
    obtain ⟨rooms', hInv', hlen⟩ := ih hInv1 hrest
    refine ⟨rooms', hInv', ?_⟩
    rcases hdisj with ⟨hc, _⟩ | ⟨room, _, hc⟩
    · rw [hc] at hlen
      exact hlen
    · rw [hc] at hlen
      simp only [List.length_append, List.length_singleton] at hlen
      omega

/-- Helper: the whole attempts loop succeeds on large-enough grids. -/
theorem attemptsLoop_progress {size : GSize} {npcDist : List (NpcType × Nat)}
    {itemDist : List (ItemType × Nat)}
    (hw : 11 ≤ size.width) (hh : 9 ≤ size.height)
    (hs1 : 0 < (npcDist.map Prod.snd).sum)
    (hs2 : 0 < (itemDist.map Prod.snd).sum) :
    ∀ (n : Nat) {st : GenState} {rooms : List Room}, Inv size st rooms →
      ∃ st', attemptsLoop size npcDist itemDist n st = some st' ∧
        st.room_centers.length ≤ st'.room_centers.length := by
  intro n
  induction n with
  | zero =>
    intro st rooms hInv
    exact ⟨st, rfl, le_rfl⟩
  | succ k ih =>
    intro st rooms hInv
    obtain ⟨st1, hstep⟩ := attemptStep_isSome hInv hw hh hs1 hs2
    obtain ⟨rooms1, hInv1, hdisj⟩ := attemptStep_preserve hInv hstep
    obtain ⟨st', hrest, hlen⟩ := ih hInv1
    refine ⟨st', ?_, ?_⟩
    · unfold attemptsLoop
      simp only [Option.bind_eq_bind]
      rw [hstep, Option.some_bind]
      exact hrest
    · rcases hdisj with ⟨hc, _⟩ | ⟨room, _, hc⟩
      · rw [hc] at hlen
        exact hlen
      · rw [hc] at hlen
        simp only [List.length_append, List.length_singleton] at hlen
        omega

/-- Helper: the invariant holds initially, over the all-unassigned grid. -/
theorem Inv_init (size : GSize) (r : MRng) :
    Inv size ⟨TGrid.newCopy size none, [], r⟩ [] := by
  refine ⟨rfl, fun _ _ => rfl, rfl, ?_, ?_, ?_, ?_, List.nodup_nil, ?_, ?_⟩
  · intro room hmem
    cases hmem
  · intro room hmem
    cases hmem
  · intro room hmem
    cases hmem
  · intro c0 hc0
    cases hc0
  · intro c hfl
    cases hfl
  · intro c hst
    cases hst

end Terrain
namespace Terrain

/-- Helper: what a successful horizontal corridor run does: only
None/Wall cells become Floor, and every visited cell ends in-bounds and
assigned non-Wall. -/
theorem carveH_spec {startC endC : Coord} :
    ∀ (n : Nat) (i : Int) {g g' : TGrid (Option TerrainTile)},
      carveH startC endC g n i = some g' →
      g'.size = g.size ∧
      (∀ c, g'.cells c ≠ g.cells c →
        inBounds g.size c ∧ g'.cells c = some TerrainTile.Floor ∧
        (g.cells c = none ∨ g.cells c = some TerrainTile.Wall)) ∧
      (∀ j : Nat, j < n →
        inBounds g.size ⟨i + j, startC.y⟩ ∧ SomeNW g' ⟨i + j, startC.y⟩) := by
  intro n
  induction n with
  | zero =>
    intro i g g' h
    cases h
    exact ⟨rfl, fun c hc => absurd rfl hc, fun j hj => absurd hj (by omega)⟩
  | succ k ih =>
    intro i g g' h
    unfold carveH at h
    simp only [Option.bind_eq_bind] at h
    rw [Option.bind_eq_some] at h
    obtain ⟨cell, hget, h⟩ := h
    obtain ⟨hinb0, hcell⟩ := getChecked_spec hget
    have hpack : ∃ g1, carveH startC endC g1 k (i + 1) = some g' ∧
        g1.size = g.size ∧
        (∀ c, c ≠ (⟨i, startC.y⟩ : Coord) → g1.cells c = g.cells c) ∧
        SomeNW g1 ⟨i, startC.y⟩ ∧
        (∀ c, g1.cells c ≠ g.cells c →
          g1.cells c = some TerrainTile.Floor ∧
          (g.cells c = none ∨ g.cells c = some TerrainTile.Wall)) := by
      split at h
      · next hcond =>
        rw [Option.bind_eq_some] at h
        obtain ⟨g1, hg1, hrest⟩ := h
        obtain ⟨hs1, _, hval, hoth⟩ := setChecked_spec hg1
        refine ⟨g1, hrest, hs1, hoth, ⟨TerrainTile.Floor, hval, by simp⟩, ?_⟩
        intro c hc
        by_cases hceq : c = (⟨i, startC.y⟩ : Coord)
        · subst hceq
          exact ⟨by rw [hval], by rw [hcell]; exact hcond⟩
        · exact absurd (hoth c hceq) hc
      · next hcond =>
        rw [Option.some_bind] at h
        push_neg at hcond
        refine ⟨g, h, rfl, fun _ _ => rfl, ?_, fun c hc => absurd rfl hc⟩
        cases hcv : cell with
        | none => exact absurd hcv hcond.1
        | some t =>
          refine ⟨t, by rw [hcell, hcv], ?_⟩
          intro ht
          rw [ht] at hcv
          exact absurd hcv hcond.2
    obtain ⟨g1, hrest, hg1sz, hg1oth, hg1nw, hg1ch⟩ := hpack
    obtain ⟨hsz, hch, hvis⟩ := ih (i + 1) hrest
    refine ⟨hsz.trans hg1sz, ?_, ?_⟩
    · intro c hc
      by_cases hmid : g'.cells c = g1.cells c
      · rw [hmid] at hc ⊢
        obtain ⟨hfl, hold⟩ := hg1ch c hc
        have hceq : c = (⟨i, startC.y⟩ : Coord) := by
          by_contra hne
          exact hc (hg1oth c hne)
        subst hceq
        exact ⟨hinb0, hfl, hold⟩
      · obtain ⟨hin1, hfl, hold1⟩ := hch c hmid
        rw [hg1sz] at hin1
        refine ⟨hin1, hfl, ?_⟩
        by_cases hceq : c = (⟨i, startC.y⟩ : Coord)
        · subst hceq
          obtain ⟨t, hval, htw⟩ := hg1nw
          rw [hval] at hold1
          rcases hold1 with h0 | h0
          · cases h0
          · exact absurd (Option.some.inj h0) htw
        · rw [hg1oth c hceq] at hold1
          exact hold1
    · intro j hj
      cases j with
      | zero =>
        refine ⟨by simpa using hinb0, ?_⟩
        by_cases hmid : g'.cells ⟨i + (0 : Nat), startC.y⟩ = g1.cells ⟨i + (0 : Nat), startC.y⟩
        · obtain ⟨t, hval, htw⟩ := hg1nw
          refine ⟨t, ?_, htw⟩
          rw [hmid]
          simpa using hval
        · obtain ⟨_, hfl, _⟩ := hch _ hmid
          exact ⟨TerrainTile.Floor, hfl, by simp⟩
      | succ j2 =>
        have hco : (⟨i + (j2 + 1 : Nat), startC.y⟩ : Coord) =
            ⟨(i + 1) + (j2 : Nat), startC.y⟩ := by
          rw [Coord.mk.injEq]
          constructor
          · push_cast
            omega
          · rfl
        rw [hco]
        obtain ⟨hin1, hnw⟩ := hvis j2 (by omega)
        rw [hg1sz] at hin1
        exact ⟨hin1, hnw⟩

/-- Helper: what a successful vertical corridor run does. -/
theorem carveV_spec {startC endC : Coord} :
    ∀ (n : Nat) (i : Int) {g g' : TGrid (Option TerrainTile)},
      carveV startC endC g n i = some g' →
      g'.size = g.size ∧
      (∀ c, g'.cells c ≠ g.cells c →
        inBounds g.size c ∧ g'.cells c = some TerrainTile.Floor ∧
        (g.cells c = none ∨ g.cells c = some TerrainTile.Wall)) ∧
      (∀ j : Nat, j < n →
        inBounds g.size ⟨endC.x, i + j⟩ ∧ SomeNW g' ⟨endC.x, i + j⟩) := by
  intro n
  induction n with
  | zero =>
    intro i g g' h
    cases h
    exact ⟨rfl, fun c hc => absurd rfl hc, fun j hj => absurd hj (by omega)⟩
  | succ k ih =>
    intro i g g' h
    unfold carveV at h
    simp only [Option.bind_eq_bind] at h
    rw [Option.bind_eq_some] at h
    obtain ⟨cell, hget, h⟩ := h
    obtain ⟨hinb0, hcell⟩ := getChecked_spec hget
    have hpack : ∃ g1, carveV startC endC g1 k (i + 1) = some g' ∧
        g1.size = g.size ∧
        (∀ c, c ≠ (⟨endC.x, i⟩ : Coord) → g1.cells c = g.cells c) ∧
        SomeNW g1 ⟨endC.x, i⟩ ∧
        (∀ c, g1.cells c ≠ g.cells c →
          g1.cells c = some TerrainTile.Floor ∧
          (g.cells c = none ∨ g.cells c = some TerrainTile.Wall)) := by
      split at h
      · next hcond =>
        rw [Option.bind_eq_some] at h
        obtain ⟨g1, hg1, hrest⟩ := h
        obtain ⟨hs1, _, hval, hoth⟩ := setChecked_spec hg1
        refine ⟨g1, hrest, hs1, hoth, ⟨TerrainTile.Floor, hval, by simp⟩, ?_⟩
        intro c hc
        by_cases hceq : c = (⟨endC.x, i⟩ : Coord)
        · subst hceq
          exact ⟨by rw [hval], by rw [hcell]; exact hcond⟩
        · exact absurd (hoth c hceq) hc
      · next hcond =>
        rw [Option.some_bind] at h
        push_neg at hcond
        refine ⟨g, h, rfl, fun _ _ => rfl, ?_, fun c hc => absurd rfl hc⟩
        cases hcv : cell with
        | none => exact absurd hcv hcond.1
        | some t =>
          refine ⟨t, by rw [hcell, hcv], ?_⟩
          intro ht
          rw [ht] at hcv
          exact absurd hcv hcond.2
    obtain ⟨g1, hrest, hg1sz, hg1oth, hg1nw, hg1ch⟩ := hpack
    obtain ⟨hsz, hch, hvis⟩ := ih (i + 1) hrest
    refine ⟨hsz.trans hg1sz, ?_, ?_⟩
    · intro c hc
      by_cases hmid : g'.cells c = g1.cells c
      · rw [hmid] at hc ⊢
        obtain ⟨hfl, hold⟩ := hg1ch c hc
        have hceq : c = (⟨endC.x, i⟩ : Coord) := by
          by_contra hne
          exact hc (hg1oth c hne)
        subst hceq
        exact ⟨hinb0, hfl, hold⟩
      · obtain ⟨hin1, hfl, hold1⟩ := hch c hmid
        rw [hg1sz] at hin1
        refine ⟨hin1, hfl, ?_⟩
        by_cases hceq : c = (⟨endC.x, i⟩ : Coord)
        · subst hceq
          obtain ⟨t, hval, htw⟩ := hg1nw
          rw [hval] at hold1
          rcases hold1 with h0 | h0
          · cases h0
          · exact absurd (Option.some.inj h0) htw
        · rw [hg1oth c hceq] at hold1
          exact hold1
    · intro j hj
      cases j with
      | zero =>
        refine ⟨by simpa using hinb0, ?_⟩
        by_cases hmid : g'.cells ⟨endC.x, i + (0 : Nat)⟩ = g1.cells ⟨endC.x, i + (0 : Nat)⟩
        · obtain ⟨t, hval, htw⟩ := hg1nw
          refine ⟨t, ?_, htw⟩
          rw [hmid]
          simpa using hval
        · obtain ⟨_, hfl, _⟩ := hch _ hmid
          exact ⟨TerrainTile.Floor, hfl, by simp⟩
      | succ j2 =>
        have hco : (⟨endC.x, i + (j2 + 1 : Nat)⟩ : Coord) =
            ⟨endC.x, (i + 1) + (j2 : Nat)⟩ := by
          rw [Coord.mk.injEq]
          constructor
          · rfl
          · push_cast
            omega
        rw [hco]
        obtain ⟨hin1, hnw⟩ := hvis j2 (by omega)
        rw [hg1sz] at hin1
        exact ⟨hin1, hnw⟩

end Terrain
namespace Terrain

/-- Helper: membership in the visited-cells list of `carve_corridor`. -/
theorem mem_corridorCells {s e c : Coord} :
    c ∈ corridorCells s e ↔
      (∃ j : Nat, j < (max s.x e.x - min s.x e.x).toNat + 1 ∧
        (⟨min s.x e.x + j, s.y⟩ : Coord) = c) ∨
      (∃ j : Nat, j < (max s.y e.y - min s.y e.y).toNat ∧
        (⟨e.x, min s.y e.y + j⟩ : Coord) = c) := by
  unfold corridorCells
  simp only [List.mem_append, List.mem_map, List.mem_range]

/-- Helper: both members of a consecutive pair are list members. -/
theorem ConsecPair_mem {l : List Coord} {a b : Coord}
    (h : ConsecPair l a b) : a ∈ l ∧ b ∈ l := by
  obtain ⟨l1, l2, rfl⟩ := h
  constructor <;> simp

/-- Helper: consecutive pairs of a cons cell. -/
theorem ConsecPair_cons_iff {x : Coord} {l : List Coord} {a b : Coord} :
    ConsecPair (x :: l) a b ↔
      ((a = x ∧ ∃ l2, l = b :: l2) ∨ ConsecPair l a b) := by
  constructor
  · rintro ⟨l1, l2, heq⟩
    cases l1 with
    | nil =>
      rw [List.nil_append, List.cons.injEq] at heq
      exact Or.inl ⟨heq.1.symm, l2, heq.2⟩
    | cons y l1' =>
      rw [List.cons_append, List.cons.injEq] at heq
      exact Or.inr ⟨l1', l2, heq.2⟩
  · rintro (⟨rfl, l2, rfl⟩ | ⟨l1, l2, rfl⟩)
    · exact ⟨[], l2, rfl⟩
    · exact ⟨x :: l1, l2, rfl⟩

/-- Helper: no consecutive pair exists in a short list. -/
theorem ConsecPair_short {a b : Coord} :
    ∀ {l : List Coord}, l.length ≤ 1 → ¬ ConsecPair l a b := by
  intro l hlen hpair
  obtain ⟨l1, l2, rfl⟩ := hpair
  simp only [List.length_append, List.length_cons] at hlen
  omega

/-- Helper: what a successful `carve_corridor` does: only None/Wall
cells become Floor, and every cell of the L-shaped visited set ends
in-bounds and assigned non-Wall. -/
theorem carve_corridor_spec {s e : Coord} {g g' : TGrid (Option TerrainTile)}
    (h : carve_corridor s e g = some g') :
    g'.size = g.size ∧
    (∀ c, g'.cells c ≠ g.cells c →
      inBounds g.size c ∧ g'.cells c = some TerrainTile.Floor ∧
      (g.cells c = none ∨ g.cells c = some TerrainTile.Wall)) ∧
    (∀ c ∈ corridorCells s e, inBounds g.size c ∧ SomeNW g' c) := by
  unfold carve_corridor at h
  simp only [Option.bind_eq_bind] at h
  rw [Option.bind_eq_some] at h
  obtain ⟨g1, hH, hV⟩ := h
  obtain ⟨hsz1, hch1, hvis1⟩ := carveH_spec _ _ hH
  obtain ⟨hsz2, hch2, hvis2⟩ := carveV_spec _ _ hV
  have hmono : ∀ c, SomeNW g1 c → SomeNW g' c := by
    intro c hnw
    by_cases hc : g'.cells c = g1.cells c
    · obtain ⟨t, ht, htw⟩ := hnw
      exact ⟨t, hc.trans ht, htw⟩
    · obtain ⟨_, hfl, _⟩ := hch2 c hc
      exact ⟨TerrainTile.Floor, hfl, by simp⟩
  refine ⟨hsz2.trans hsz1, ?_, ?_⟩
  · intro c hc
    by_cases hmid : g'.cells c = g1.cells c
    · rw [hmid] at hc ⊢
      exact hch1 c hc
    · obtain ⟨hin, hfl, hold⟩ := hch2 c hmid
      rw [hsz1] at hin
      refine ⟨hin, hfl, ?_⟩
      by_cases h10 : g1.cells c = g.cells c
      · rw [← h10]
        exact hold
      · obtain ⟨_, hfl1, _⟩ := hch1 c h10
        rw [hfl1] at hold
        rcases hold with h0 | h0
        · cases h0
        · cases Option.some.inj h0
  · intro c hcmem
    rw [mem_corridorCells] at hcmem
    rcases hcmem with ⟨j, hj, hceq⟩ | ⟨j, hj, hceq⟩
    · obtain ⟨hin, hnw⟩ := hvis1 j hj
      rw [hceq] at hin hnw
      exact ⟨hin, hmono c hnw⟩
    · obtain ⟨hin, hnw⟩ := hvis2 j hj
      rw [hceq] at hin hnw
      rw [hsz1] at hin
      exact ⟨hin, hnw⟩

/-- Helper: what the whole corridor phase does: only None/Wall cells
become Floor, and after it every cell on the corridor between any two
consecutive room centers is assigned non-Wall. -/
theorem corridorsLoop_spec :
    ∀ {centers : List Coord} {g g' : TGrid (Option TerrainTile)},
      corridorsLoop g centers = some g' →
      g'.size = g.size ∧
      (∀ c, g'.cells c ≠ g.cells c →
        inBounds g.size c ∧ g'.cells c = some TerrainTile.Floor ∧
        (g.cells c = none ∨ g.cells c = some TerrainTile.Wall)) ∧
      (∀ a b, ConsecPair centers a b → ∀ c ∈ corridorCells a b,
        inBounds g.size c ∧ SomeNW g' c) := by
  intro centers
  induction centers with
  | nil =>
    intro g g' h
    cases h
    exact ⟨rfl, fun c hc => absurd rfl hc,
      fun a b hpair => absurd hpair (ConsecPair_short (by simp))⟩
  | cons x xs ih =>
    intro g g' h
    cases xs with
    | nil =>
      cases h
      exact ⟨rfl, fun c hc => absurd rfl hc,
        fun a b hpair => absurd hpair (ConsecPair_short (by simp))⟩
    | cons y ys =>
      unfold corridorsLoop at h
      simp only [Option.bind_eq_bind] at h
      rw [Option.bind_eq_some] at h
      obtain ⟨g1, hcc, hrest⟩ := h
      obtain ⟨hsz1, hch1, hvis1⟩ := carve_corridor_spec hcc
      obtain ⟨hsz2, hch2, hpairs⟩ := ih hrest
      have hmono : ∀ c, SomeNW g1 c → SomeNW g' c := by
        intro c hnw
        by_cases hc : g'.cells c = g1.cells c
        · obtain ⟨t, ht, htw⟩ := hnw
          exact ⟨t, hc.trans ht, htw⟩
        · obtain ⟨_, hfl, _⟩ := hch2 c hc
          exact ⟨TerrainTile.Floor, hfl, by simp⟩
      refine ⟨hsz2.trans hsz1, ?_, ?_⟩
      · intro c hc
        by_cases hmid : g'.cells c = g1.cells c
        · rw [hmid] at hc ⊢
          exact hch1 c hc
        · obtain ⟨hin, hfl, hold⟩ := hch2 c hmid
          rw [hsz1] at hin
          refine ⟨hin, hfl, ?_⟩
          by_cases h10 : g1.cells c = g.cells c
          · rw [← h10]
            exact hold
          · obtain ⟨_, hfl1, _⟩ := hch1 c h10
            rw [hfl1] at hold
            rcases hold with h0 | h0
            · cases h0
            · cases Option.some.inj h0
      · intro a b hpair c hcmem
        rcases ConsecPair_cons_iff.mp hpair with ⟨ha, l2, hl⟩ | hpair2
        · rw [List.cons.injEq] at hl
          subst ha
          rw [← hl.1] at hcmem
          obtain ⟨hin, hnw⟩ := hvis1 c hcmem
          exact ⟨hin, hmono c hnw⟩
        · obtain ⟨hin, hnw⟩ := hpairs a b hpair2 c hcmem
          rw [hsz1] at hin
          exact ⟨hin, hnw⟩

end Terrain
namespace Terrain

/-- Helper: the horizontal carve succeeds when every visited cell is
in bounds. -/
theorem carveH_isSome (startC endC : Coord) :
    ∀ (n : Nat) (i : Int) (g : TGrid (Option TerrainTile)),
      (∀ j : Nat, j < n → inBounds g.size ⟨i + j, startC.y⟩) →
      ∃ g', carveH startC endC g n i = some g' := by
  intro n
  induction n with
  | zero =>
    intro i g hin
    exact ⟨g, rfl⟩
  | succ n ih =>
    intro i g hin
    have hin0 : inBounds g.size ⟨i, startC.y⟩ := by
      have h0 := hin 0 (Nat.succ_pos n)
      simpa using h0
    have hshift : ∀ (sz : GSize), sz = g.size →
        ∀ j : Nat, j < n → inBounds sz ⟨i + 1 + (j : Int), startC.y⟩ := by
      intro sz hsz j hj
      have hco : (⟨i + 1 + (j : Int), startC.y⟩ : Coord) =
          ⟨i + ((j + 1 : Nat) : Int), startC.y⟩ := by
        simp only [Coord.mk.injEq]
        refine ⟨by push_cast; ring, trivial⟩
      rw [hsz, hco]
      exact hin (j + 1) (by omega)
    rw [carveH]
    rw [getChecked_eq hin0]
    simp only [Option.bind_eq_bind, Option.some_bind]
    by_cases hcond : g.cells ⟨i, startC.y⟩ = none ∨
        g.cells ⟨i, startC.y⟩ = some TerrainTile.Wall
    · rw [if_pos hcond]
      obtain ⟨g1, hset⟩ :=
        setChecked_isSome g ⟨i, startC.y⟩ (some TerrainTile.Floor) hin0
      rw [hset]
      obtain ⟨g', h'⟩ := ih (i + 1) g1 (hshift g1.size (setChecked_spec hset).1)
      exact ⟨g', h'⟩
    · rw [if_neg hcond]
      obtain ⟨g', h'⟩ := ih (i + 1) g (hshift g.size rfl)
      exact ⟨g', h'⟩

/-- Helper: the vertical carve succeeds when every visited cell is
in bounds. -/
theorem carveV_isSome (startC endC : Coord) :
    ∀ (n : Nat) (i : Int) (g : TGrid (Option TerrainTile)),
      (∀ j : Nat, j < n → inBounds g.size ⟨endC.x, i + j⟩) →
      ∃ g', carveV startC endC g n i = some g' := by
  intro n
  induction n with
  | zero =>
    intro i g hin
    exact ⟨g, rfl⟩
  | succ n ih =>
    intro i g hin
    have hin0 : inBounds g.size ⟨endC.x, i⟩ := by
      have h0 := hin 0 (Nat.succ_pos n)
      simpa using h0
    have hshift : ∀ (sz : GSize), sz = g.size →
        ∀ j : Nat, j < n → inBounds sz ⟨endC.x, i + 1 + (j : Int)⟩ := by
      intro sz hsz j hj
      have hco : (⟨endC.x, i + 1 + (j : Int)⟩ : Coord) =
          ⟨endC.x, i + ((j + 1 : Nat) : Int)⟩ := by
        simp only [Coord.mk.injEq]
        refine ⟨trivial, by push_cast; ring⟩
      rw [hsz, hco]
      exact hin (j + 1) (by omega)
    rw [carveV]
    rw [getChecked_eq hin0]
    simp only [Option.bind_eq_bind, Option.some_bind]
    by_cases hcond : g.cells ⟨endC.x, i⟩ = none ∨
        g.cells ⟨endC.x, i⟩ = some TerrainTile.Wall
    · rw [if_pos hcond]
      obtain ⟨g1, hset⟩ :=
        setChecked_isSome g ⟨endC.x, i⟩ (some TerrainTile.Floor) hin0
      rw [hset]
      obtain ⟨g', h'⟩ := ih (i + 1) g1 (hshift g1.size (setChecked_spec hset).1)
      exact ⟨g', h'⟩
    · rw [if_neg hcond]
      obtain ⟨g', h'⟩ := ih (i + 1) g (hshift g.size rfl)
      exact ⟨g', h'⟩

/-- Helper: a corridor between two in-bounds endpoints never panics. -/
theorem carve_corridor_isSome {s e : Coord} {g : TGrid (Option TerrainTile)}
    (hs : inBounds g.size s) (he : inBounds g.size e) :
    ∃ g', carve_corridor s e g = some g' := by
  obtain ⟨hs1, hs2, hs3, hs4⟩ := hs
  obtain ⟨he1, he2, he3, he4⟩ := he
  have hinH : ∀ j : Nat, j < (max s.x e.x - min s.x e.x).toNat + 1 →
      inBounds g.size ⟨min s.x e.x + j, s.y⟩ := by
    intro j hj
    unfold inBounds
    dsimp only
    omega
  obtain ⟨g1, hH⟩ := carveH_isSome s e
    ((max s.x e.x - min s.x e.x).toNat + 1) (min s.x e.x) g hinH
  have hsz1 := (carveH_spec _ _ hH).1
  have hinV : ∀ j : Nat, j < (max s.y e.y - min s.y e.y).toNat →
      inBounds g1.size ⟨e.x, min s.y e.y + j⟩ := by
    intro j hj
    rw [hsz1]
    unfold inBounds
    dsimp only
    omega
  obtain ⟨g', hV⟩ := carveV_isSome s e
    ((max s.y e.y - min s.y e.y).toNat) (min s.y e.y) g1 hinV
  refine ⟨g', ?_⟩
  unfold carve_corridor
  dsimp only
  rw [hH]
  simp only [Option.bind_eq_bind, Option.some_bind]
  exact hV

/-- Helper: the corridor phase succeeds when every room center is in
bounds. -/
theorem corridorsLoop_isSome :
    ∀ {centers : List Coord} {g : TGrid (Option TerrainTile)},
      (∀ c ∈ centers, inBounds g.size c) →
      ∃ g', corridorsLoop g centers = some g' := by
  intro centers
  induction centers with
  | nil =>
    intro g hin
    exact ⟨g, rfl⟩
  | cons x xs ih =>
    intro g hin
    cases xs with
    | nil =>
      exact ⟨g, rfl⟩
    | cons y ys =>
      obtain ⟨g1, hcc⟩ :=
        carve_corridor_isSome (hin x (by simp)) (hin y (by simp))
      have hsz := (carve_corridor_spec hcc).1
      obtain ⟨g', hrest⟩ := ih (fun c hc => by
        rw [hsz]
        exact hin c (List.mem_cons_of_mem x hc))
      refine ⟨g', ?_⟩
      rw [corridorsLoop, hcc]
      simp only [Option.bind_eq_bind, Option.some_bind]
      exact hrest

end Terrain
namespace Terrain

/-- Helper: a value produced by `getLast?` is a member of the list. -/
theorem getLast?_mem_of_eq {α : Type} :
    ∀ {l : List α} {a : α}, l.getLast? = some a → a ∈ l := by
  intro l
  induction l with
  | nil =>
    intro a h
    cases h
  | cons x xs ih =>
    intro a h
    cases xs with
    | nil =>
      rw [List.getLast?_singleton] at h
      rw [Option.some.inj h]
      simp
    | cons y ys =>
      rw [List.getLast?_cons_cons] at h
      exact List.mem_cons_of_mem x (ih h)

/-- Helper: a non-empty list has a last element. -/
theorem getLast?_isSome_of_ne_nil {α : Type} :
    ∀ {l : List α}, l ≠ [] → ∃ a, l.getLast? = some a := by
  intro l
  induction l with
  | nil =>
    intro h
    exact absurd rfl h
  | cons x xs ih =>
    intro _
    cases xs with
    | nil =>
      exact ⟨x, List.getLast?_singleton x⟩
    | cons y ys =>
      obtain ⟨a, ha⟩ := ih (by simp)
      exact ⟨a, by rw [List.getLast?_cons_cons]; exact ha⟩

/-- Helper: every recorded room center is in bounds. -/
theorem centersInBounds {size : GSize} {st : GenState} {rooms : List Room}
    (hInv : Inv size st rooms) :
    ∀ c ∈ st.room_centers, inBounds size c := by
  intro c hc
  rw [hInv.centersEq, List.mem_map] at hc
  obtain ⟨room, hroom, rfl⟩ := hc
  have hf := hInv.roomsFit room hroom
  have h5w : 5 ≤ room.size.width := hf.2.2.2.2.1
  have h5h : 5 ≤ room.size.height := hf.2.2.2.2.2.2.1
  exact Room.coords_inBounds hf
    (Room.interior_mem_coords (Room.center_interior (by omega) (by omega)))

end Terrain
namespace Terrain

/-- Helper: the unfolding equation of `attemptsLoop` at a successor. -/
theorem attemptsLoop_succ (size : GSize) (npcDist : List (NpcType × Nat))
    (itemDist : List (ItemType × Nat)) (n : Nat) (st : GenState) :
    attemptsLoop size npcDist itemDist (n + 1) st =
      Bind.bind (attemptStep size npcDist itemDist st)
        (attemptsLoop size npcDist itemDist n) := rfl

/-- Helper: reducing a bind of a `some`. -/
theorem bindSomeEq {α β : Type} (a : α) (f : α → Option β) :
    Bind.bind (some a) f = f a := rfl

/-- Helper: `generateDungeonAux` as an explicit bind chain. -/
theorem generateDungeonAux_eq (size : GSize) (level : Nat) (r : MRng) :
    generateDungeonAux size level r =
      Bind.bind (attemptsLoop size (make_npc_probability_distribution level)
          (make_item_probability_distribution level) 100
          ⟨TGrid.newCopy size none, [], r⟩)
        (fun st => Bind.bind (corridorsLoop st.grid st.room_centers)
          (fun g1 => Bind.bind st.room_centers.getLast?
            (fun lastCenter => Bind.bind
              (g1.setChecked lastCenter (some TerrainTile.Stairs))
              (fun g2 => some (g2.map (fun t => t.getD TerrainTile.Wall),
                st.room_centers, st.rng))))) := rfl

/-- Helper: the first attempt on an empty grid accepts a room. -/
theorem gen_attempt_first (size : GSize) (level : Nat) (r : MRng)
    (hw : 11 ≤ size.width) (hh : 9 ≤ size.height) :
    ∃ st1, attemptStep size (make_npc_probability_distribution level)
      (make_item_probability_distribution level)
      ⟨TGrid.newCopy size none, [], r⟩ = some st1 ∧
      st1.room_centers ≠ [] := by
  have hs1 := npc_dist_sum_pos level
  have hs2 := item_dist_sum_pos level
  have hInv0 := Inv_init size r
  obtain ⟨st1, hstep⟩ :=
    @attemptStep_isSome size (make_npc_probability_distribution level)
      (make_item_probability_distribution level)
      ⟨TGrid.newCopy size none, [], r⟩ [] hInv0 hw hh hs1 hs2
  have hne1 : st1.room_centers ≠ [] :=
    attemptStep_first_accepts (fun c => rfl) hstep rfl
  exact ⟨st1, hstep, hne1⟩

/-- Helper: the whole 100-attempt phase succeeds, accepts at least one
room, and its result satisfies the loop invariant. -/
theorem gen_attempts_phase (size : GSize) (level : Nat) (r : MRng)
    (hw : 11 ≤ size.width) (hh : 9 ≤ size.height) :
    ∃ st rooms, attemptsLoop size (make_npc_probability_distribution level)
      (make_item_probability_distribution level) 100
      ⟨TGrid.newCopy size none, [], r⟩ = some st ∧
      st.room_centers ≠ [] ∧ Inv size st rooms := by
  have hs1 := npc_dist_sum_pos level
  have hs2 := item_dist_sum_pos level
  have hInv0 := Inv_init size r
  obtain ⟨st1, hstep, hne1⟩ := gen_attempt_first size level r hw hh
  obtain ⟨rooms1, hInv1, _⟩ := attemptStep_preserve hInv0 hstep
  obtain ⟨st, hloop99, hlen⟩ := attemptsLoop_progress hw hh hs1 hs2 99 hInv1
  obtain ⟨rooms, hInv, _⟩ := attemptsLoop_preserve 99 hInv1 hloop99
  have hne : st.room_centers ≠ [] := by
    intro h0
    have hz : st.room_centers.length = 0 := by rw [h0]; rfl
    have : st1.room_centers.length = 0 := by omega
    exact hne1 (List.length_eq_zero.mp this)
  refine ⟨st, rooms, ?_, hne, hInv⟩
  have h100 : (100 : Nat) = 99 + 1 := rfl
  have heq : attemptsLoop size (make_npc_probability_distribution level)
      (make_item_probability_distribution level) 100
      ⟨TGrid.newCopy size none, [], r⟩ =
      attemptsLoop size (make_npc_probability_distribution level)
        (make_item_probability_distribution level) 99 st1 := by
    conv_lhs => rw [h100, attemptsLoop_succ, hstep, bindSomeEq]
  exact heq.trans hloop99

/-- Helper: on any grid at least 11 wide and 9 tall, the whole
generation pipeline succeeds, at least one room is accepted, and the
result decomposes into its phases. -/
theorem gen_pipeline (size : GSize) (level : Nat) (r : MRng)
    (hw : 11 ≤ size.width) (hh : 9 ≤ size.height) :
    ∃ (rooms : List Room) (st : GenState)
      (g1 : TGrid (Option TerrainTile)) (lastC : Coord)
      (g2 : TGrid (Option TerrainTile)),
      Inv size st rooms ∧ st.room_centers ≠ [] ∧
      corridorsLoop st.grid st.room_centers = some g1 ∧
      st.room_centers.getLast? = some lastC ∧ lastC ∈ st.room_centers ∧
      g1.setChecked lastC (some TerrainTile.Stairs) = some g2 ∧
      generateDungeonAux size level r =
        some (g2.map (fun t => t.getD TerrainTile.Wall),
          st.room_centers, st.rng) := by
  obtain ⟨st, rooms, hloopFull, hne, hInv⟩ := gen_attempts_phase size level r hw hh
  have hcin : ∀ c ∈ st.room_centers, inBounds st.grid.size c := by
    intro c hc
    rw [hInv.sizeEq]
    exact centersInBounds hInv c hc
  obtain ⟨g1, hcorr⟩ := corridorsLoop_isSome hcin
  obtain ⟨lastC, hlast⟩ := getLast?_isSome_of_ne_nil hne
  have hmemLast : lastC ∈ st.room_centers := getLast?_mem_of_eq hlast
  have hlin : inBounds g1.size lastC := by
    rw [(corridorsLoop_spec hcorr).1, hInv.sizeEq]
    exact centersInBounds hInv lastC hmemLast
  obtain ⟨g2, hset⟩ := setChecked_isSome g1 lastC (some TerrainTile.Stairs) hlin
  refine ⟨rooms, st, g1, lastC, g2, hInv, hne, hcorr, hlast, hmemLast, hset, ?_⟩
  conv_lhs => rw [generateDungeonAux_eq, hloopFull, bindSomeEq, hcorr,
    bindSomeEq, hlast, bindSomeEq, hset, bindSomeEq]

/-- Helper: any successful run of `generateDungeonAux` — on any grid
size whatsoever — decomposes into its phases, and the attempts-phase
result satisfies the loop invariant. -/
theorem gen_decompose {size : GSize} {level : Nat} {r : MRng}
    {res : TGrid TerrainTile × List Coord × MRng}
    (h : generateDungeonAux size level r = some res) :
    ∃ (rooms : List Room) (st : GenState)
      (g1 : TGrid (Option TerrainTile)) (lastC : Coord)
      (g2 : TGrid (Option TerrainTile)),
      Inv size st rooms ∧
      corridorsLoop st.grid st.room_centers = some g1 ∧
      st.room_centers.getLast? = some lastC ∧ lastC ∈ st.room_centers ∧
      g1.setChecked lastC (some TerrainTile.Stairs) = some g2 ∧
      res = (g2.map (fun t => t.getD TerrainTile.Wall),
        st.room_centers, st.rng) := by
  rw [generateDungeonAux_eq] at h
  simp only [Option.bind_eq_bind, Option.bind_eq_some] at h
  obtain ⟨st, hloop, h⟩ := h
  obtain ⟨g1, hcorr, h⟩ := h
  obtain ⟨lastC, hlast, h⟩ := h
  obtain ⟨g2, hset, h⟩ := h
  obtain ⟨rooms, hInv, _⟩ := attemptsLoop_preserve 100 (Inv_init size r) hloop
  exact ⟨rooms, st, g1, lastC, g2, hInv, hcorr, hlast,
    getLast?_mem_of_eq hlast, hset, (Option.some.inj h).symm⟩

end Terrain
namespace Terrain

/-- Helper: the head of a duplicate-free list of length at least two is
not its last element. -/
theorem head_ne_getLast_of_nodup {α : Type} {x a : α} {xs : List α}
    (hnd : (x :: xs).Nodup) (hlen : 2 ≤ (x :: xs).length)
    (hlast : (x :: xs).getLast? = some a) : x ≠ a := by
  cases xs with
  | nil =>
    simp at hlen
  | cons y ys =>
    rw [List.getLast?_cons_cons] at hlast
    have hmem : a ∈ y :: ys := getLast?_mem_of_eq hlast
    have hx : x ∉ y :: ys := (List.nodup_cons.mp hnd).1
    intro h
    rw [h] at hx
    exact hx hmem

end Terrain

/-- C2: the claim quantifies over every grid size and RNG state, which is
refuted by `c2_counterexample` (a 10×8 grid panics inside `Room::choose`).
Amended: on any grid at least 11 wide and 9 tall — in particular the
game's actual 40×30 grid — `generate_dungeon` never panics: the room
sampling ranges are non-empty, at least one room is always accepted (the
first attempt on an empty grid succeeds), so the corridor phase, the
`room_centers.last().unwrap()` and the stairs write all succeed and a grid
is returned. -/
theorem c2_amended_large_grid_no_panic (size : GSize) (level : Nat) (r : MRng)
    (hw : 11 ≤ size.width) (hh : 9 ≤ size.height) :
    (generate_dungeon size level r).isSome := by
  obtain ⟨rooms, st, g1, lastC, g2, hInv, hne, hcorr, hlast, hmemLast, hset, hgen⟩ :=
    Terrain.gen_pipeline size level r hw hh
  unfold generate_dungeon
  rw [hgen]
  rfl

/-- Witness for `c2_amended_large_grid_no_panic` at a concrete input. -/
theorem c2_witness :
    11 ≤ (⟨12, 9⟩ : GSize).width ∧ 9 ≤ (⟨12, 9⟩ : GSize).height ∧
    (generate_dungeon ⟨12, 9⟩ 1 ⟨Terrain.constSeq 0, 0⟩).isSome :=
  ⟨by decide, by decide,
    c2_amended_large_grid_no_panic ⟨12, 9⟩ 1 ⟨Terrain.constSeq 0, 0⟩
      (by decide) (by decide)⟩

/-- C4: as stated ("at least one room") the claim is refuted by
`c4_counterexample`: with exactly one accepted room the stairs overwrite
the Player spawn. Amended: for every run — any grid size, level and RNG
state — in which at least two rooms are accepted, the returned grid
holds the Player tile at the first accepted room's center: the corridor
phase overwrites only unassigned or Wall cells, and the stairs go to the
last recorded center, which is distinct from the first because the
centers list is duplicate-free. -/
theorem c4_amended_player_at_first_center (size : GSize) (level : Nat) (r : MRng)
    (h2 : 2 ≤ ((Terrain.generateDungeonAux size level r).map
      (fun t => t.2.1.length)).getD 0) :
    ∃ g centers rest c0,
      Terrain.generateDungeonAux size level r = some (g, centers, rest) ∧
      centers.head? = some c0 ∧
      g.cells c0 = Terrain.TerrainTile.Player := by
  cases haux : Terrain.generateDungeonAux size level r with
  | none =>
    rw [haux] at h2
    simp at h2
  | some res =>
    obtain ⟨gg, centers, rest⟩ := res
    rw [haux] at h2
    simp only [Option.map_some', Option.getD_some] at h2
    obtain ⟨rooms, st, g1, lastC, g2, hInv, hcorr, hlast, hmemLast, hset, hres⟩ :=
      Terrain.gen_decompose haux
    rw [Prod.mk.injEq, Prod.mk.injEq] at hres
    obtain ⟨hg, hc, hr⟩ := hres
    subst hg
    subst hr
    rw [hc] at h2
    have hne : st.room_centers ≠ [] := by
      intro h0
      rw [h0] at h2
      simp at h2
    cases hcent : st.room_centers with
    | nil =>
      exact absurd hcent hne
    | cons c0 cs =>
      have hhead : st.room_centers.head? = some c0 := by rw [hcent]; rfl
      have hplayer := hInv.headPlayer c0 hhead
      have hg1 : g1.cells c0 = some Terrain.TerrainTile.Player := by
        by_cases hch : g1.cells c0 = st.grid.cells c0
        · rw [hch]
          exact hplayer
        · obtain ⟨_, _, hold⟩ := (Terrain.corridorsLoop_spec hcorr).2.1 c0 hch
          rw [hplayer] at hold
          rcases hold with h0 | h0
          · cases h0
          · cases Option.some.inj h0
      have hne0 : c0 ≠ lastC := by
        have hnd := hInv.nodup
        rw [hcent] at hnd hlast h2
        exact Terrain.head_ne_getLast_of_nodup hnd h2 hlast
      have hg2 : g2.cells c0 = some Terrain.TerrainTile.Player := by
        rw [(Terrain.setChecked_spec hset).2.2.2 c0 hne0]
        exact hg1
      have hcenters_head : centers.head? = some c0 := by
        rw [hc, hcent]
        rfl
      refine ⟨g2.map (fun t => t.getD Terrain.TerrainTile.Wall),
        centers, st.rng, c0, ?_, hcenters_head, ?_⟩
      · rw [hc]
      · show (g2.cells c0).getD Terrain.TerrainTile.Wall =
          Terrain.TerrainTile.Player
        rw [hg2]
        rfl

/-- Witness for `c4_amended_player_at_first_center` at a concrete run
that accepts two rooms. -/
theorem c4_witness :
    2 ≤ ((Terrain.generateDungeonAux ⟨12, 9⟩ 1 ⟨Terrain.twoRoomSeq, 0⟩).map
      (fun t => t.2.1.length)).getD 0 ∧
    ∃ g centers rest c0,
      Terrain.generateDungeonAux ⟨12, 9⟩ 1 ⟨Terrain.twoRoomSeq, 0⟩ =
        some (g, centers, rest) ∧
      centers.head? = some c0 ∧
      g.cells c0 = Terrain.TerrainTile.Player :=
  ⟨by decide,
    c4_amended_player_at_first_center ⟨12, 9⟩ 1 ⟨Terrain.twoRoomSeq, 0⟩
      (by decide)⟩
namespace Terrain

/-- Helper: both endpoints of a reachability path are non-Wall. -/
theorem reachEndNW {g : TGrid TerrainTile} {a b : Coord}
    (h : ReachG g a b) : nonWallAt g b := by
  induction h with
  | refl hc => exact hc
  | tail hab hadj hc ih => exact hc

/-- Helper: the start of a reachability path is non-Wall. -/
theorem reachStartNW {g : TGrid TerrainTile} {a b : Coord}
    (h : ReachG g a b) : nonWallAt g a := by
  induction h with
  | refl hc => exact hc
  | tail hab hadj hc ih => exact ih

/-- Helper: reachability is transitive. -/
theorem reachTrans {g : TGrid TerrainTile} {a b c : Coord}
    (h1 : ReachG g a b) (h2 : ReachG g b c) : ReachG g a c := by
  induction h2 with
  | refl hd => exact h1
  | tail hab hadj hc ih => exact ReachG.tail ih hadj hc

/-- Helper: adjacency is symmetric. -/
theorem adjSymm {a b : Coord} (h : Adj a b) : Adj b a := by
  unfold Adj at h ⊢
  rcases h with ⟨h1, h2 | h2⟩ | ⟨h1, h2 | h2⟩
  · exact Or.inl ⟨h1.symm, Or.inr h2⟩
  · exact Or.inl ⟨h1.symm, Or.inl h2⟩
  · exact Or.inr ⟨h1.symm, Or.inr h2⟩
  · exact Or.inr ⟨h1.symm, Or.inl h2⟩

/-- Helper: reachability is symmetric. -/
theorem reachSymm {g : TGrid TerrainTile} {a b : Coord}
    (h : ReachG g a b) : ReachG g b a := by
  induction h with
  | refl hc => exact ReachG.refl _ hc
  | tail hab hadj hc ih =>
    exact reachTrans (ReachG.tail (ReachG.refl _ hc) (adjSymm hadj)
      (reachEndNW hab)) ih

/-- Helper: a rightward horizontal segment of non-Wall cells is a path. -/
theorem reach_seg_right (g : TGrid TerrainTile) (y : Int) :
    ∀ (n : Nat) (x : Int),
      (∀ j : Nat, j ≤ n → nonWallAt g ⟨x + (j : Int), y⟩) →
      ReachG g ⟨x, y⟩ ⟨x + (n : Int), y⟩ := by
  intro n
  induction n with
  | zero =>
    intro x h
    have h0 := h 0 le_rfl
    have hco : (⟨x + ((0 : Nat) : Int), y⟩ : Coord) = ⟨x, y⟩ := by simp
    rw [hco] at h0
    rw [Nat.cast_zero, add_zero]
    exact ReachG.refl _ h0
  | succ n ih =>
    intro x h
    have hr := ih x (fun j hj => h j (by omega))
    refine ReachG.tail hr ?_ ?_
    · exact Or.inr ⟨rfl, Or.inr (by push_cast; ring)⟩
    · exact h (n + 1) le_rfl

/-- Helper: a downward vertical segment of non-Wall cells is a path. -/
theorem reach_seg_down (g : TGrid TerrainTile) (x : Int) :
    ∀ (n : Nat) (y : Int),
      (∀ j : Nat, j ≤ n → nonWallAt g ⟨x, y + (j : Int)⟩) →
      ReachG g ⟨x, y⟩ ⟨x, y + (n : Int)⟩ := by
  intro n
  induction n with
  | zero =>
    intro y h
    have h0 := h 0 le_rfl
    have hco : (⟨x, y + ((0 : Nat) : Int)⟩ : Coord) = ⟨x, y⟩ := by simp
    rw [hco] at h0
    rw [Nat.cast_zero, add_zero]
    exact ReachG.refl _ h0
  | succ n ih =>
    intro y h
    have hr := ih y (fun j hj => h j (by omega))
    refine ReachG.tail hr ?_ ?_
    · exact Or.inl ⟨rfl, Or.inr (by push_cast; ring)⟩
    · exact h (n + 1) le_rfl

/-- Helper: any two cells of a non-Wall row segment are connected. -/
theorem reach_row (g : TGrid TerrainTile) (y x1 x2 : Int)
    (h : ∀ x : Int, min x1 x2 ≤ x → x ≤ max x1 x2 → nonWallAt g ⟨x, y⟩) :
    ReachG g ⟨x1, y⟩ ⟨x2, y⟩ := by
  rcases le_total x1 x2 with hle | hle
  · have hx2 : x2 = x1 + ((x2 - x1).toNat : Int) := by omega
    rw [hx2]
    exact reach_seg_right g y (x2 - x1).toNat x1
      (fun j hj => h (x1 + j) (by omega) (by omega))
  · have hx1 : x1 = x2 + ((x1 - x2).toNat : Int) := by omega
    refine reachSymm ?_
    rw [hx1]
    exact reach_seg_right g y (x1 - x2).toNat x2
      (fun j hj => h (x2 + j) (by omega) (by omega))

/-- Helper: any two cells of a non-Wall column segment are connected. -/
theorem reach_col (g : TGrid TerrainTile) (x y1 y2 : Int)
    (h : ∀ y : Int, min y1 y2 ≤ y → y ≤ max y1 y2 → nonWallAt g ⟨x, y⟩) :
    ReachG g ⟨x, y1⟩ ⟨x, y2⟩ := by
  rcases le_total y1 y2 with hle | hle
  · have hy2 : y2 = y1 + ((y2 - y1).toNat : Int) := by omega
    rw [hy2]
    exact reach_seg_down g x (y2 - y1).toNat y1
      (fun j hj => h (y1 + j) (by omega) (by omega))
  · have hy1 : y1 = y2 + ((y1 - y2).toNat : Int) := by omega
    refine reachSymm ?_
    rw [hy1]
    exact reach_seg_down g x (y1 - y2).toNat y2
      (fun j hj => h (y2 + j) (by omega) (by omega))

/-- Helper: a room interior whose cells are all non-Wall is connected to
its center. -/
theorem reach_interior {g : TGrid TerrainTile} {room : Room}
    (hnw : ∀ c, room.interior c → nonWallAt g c)
    (hcen : room.interior room.center) :
    ∀ c, room.interior c → ReachG g room.center c := by
  intro c hc
  have h1 : ReachG g ⟨room.center.x, room.center.y⟩ ⟨c.x, room.center.y⟩ := by
    refine reach_row g room.center.y room.center.x c.x ?_
    intro x hx1 hx2
    refine hnw _ ?_
    unfold Room.interior at hc hcen ⊢
    dsimp only
    omega
  have h2 : ReachG g ⟨c.x, room.center.y⟩ ⟨c.x, c.y⟩ := by
    refine reach_col g c.x room.center.y c.y ?_
    intro y hy1 hy2
    refine hnw _ ?_
    unfold Room.interior at hc hcen ⊢
    dsimp only
    omega
  exact reachTrans h1 h2

end Terrain
namespace Terrain

/-- Helper: every cell the horizontal run changes is a visited cell. -/
theorem carveH_prov {startC endC : Coord} :
    ∀ (n : Nat) (i : Int) {g g' : TGrid (Option TerrainTile)},
      carveH startC endC g n i = some g' →
      ∀ c, g'.cells c ≠ g.cells c →
        ∃ j : Nat, j < n ∧ c = ⟨i + (j : Int), startC.y⟩ := by
  intro n
  induction n with
  | zero =>
    intro i g g' h c hc
    cases h
    exact absurd rfl hc
  | succ k ih =>
    intro i g g' h c hc
    unfold carveH at h
    simp only [Option.bind_eq_bind] at h
    rw [Option.bind_eq_some] at h
    obtain ⟨cell, hget, h⟩ := h
    have hpack : ∃ g1, carveH startC endC g1 k (i + 1) = some g' ∧
        (∀ c2, c2 ≠ (⟨i, startC.y⟩ : Coord) → g1.cells c2 = g.cells c2) := by
      split at h
      · rw [Option.bind_eq_some] at h
        obtain ⟨g1, hg1, hrest⟩ := h
        exact ⟨g1, hrest, (setChecked_spec hg1).2.2.2⟩
      · rw [Option.some_bind] at h
        exact ⟨g, h, fun _ _ => rfl⟩
    obtain ⟨g1, hrest, hoth⟩ := hpack
    by_cases hmid : g'.cells c = g1.cells c
    · have hc1 : g1.cells c ≠ g.cells c := by
        rw [← hmid]
        exact hc
      have hceq : c = (⟨i, startC.y⟩ : Coord) := by
        by_contra hne
        exact hc1 (hoth c hne)
      refine ⟨0, by omega, ?_⟩
      rw [hceq]
      simp
    · obtain ⟨j, hj, hceq⟩ := ih (i + 1) hrest c hmid
      refine ⟨j + 1, by omega, ?_⟩
      rw [hceq, Coord.mk.injEq]
      constructor
      · push_cast
        ring
      · rfl

/-- Helper: every cell the vertical run changes is a visited cell. -/
theorem carveV_prov {startC endC : Coord} :
    ∀ (n : Nat) (i : Int) {g g' : TGrid (Option TerrainTile)},
      carveV startC endC g n i = some g' →
      ∀ c, g'.cells c ≠ g.cells c →
        ∃ j : Nat, j < n ∧ c = ⟨endC.x, i + (j : Int)⟩ := by
  intro n
  induction n with
  | zero =>
    intro i g g' h c hc
    cases h
    exact absurd rfl hc
  | succ k ih =>
    intro i g g' h c hc
    unfold carveV at h
    simp only [Option.bind_eq_bind] at h
    rw [Option.bind_eq_some] at h
    obtain ⟨cell, hget, h⟩ := h
    have hpack : ∃ g1, carveV startC endC g1 k (i + 1) = some g' ∧
        (∀ c2, c2 ≠ (⟨endC.x, i⟩ : Coord) → g1.cells c2 = g.cells c2) := by
      split at h
      · rw [Option.bind_eq_some] at h
        obtain ⟨g1, hg1, hrest⟩ := h
        exact ⟨g1, hrest, (setChecked_spec hg1).2.2.2⟩
      · rw [Option.some_bind] at h
        exact ⟨g, h, fun _ _ => rfl⟩
    obtain ⟨g1, hrest, hoth⟩ := hpack
    by_cases hmid : g'.cells c = g1.cells c
    · have hc1 : g1.cells c ≠ g.cells c := by
        rw [← hmid]
        exact hc
      have hceq : c = (⟨endC.x, i⟩ : Coord) := by
        by_contra hne
        exact hc1 (hoth c hne)
      refine ⟨0, by omega, ?_⟩
      rw [hceq]
      simp
    · obtain ⟨j, hj, hceq⟩ := ih (i + 1) hrest c hmid
      refine ⟨j + 1, by omega, ?_⟩
      rw [hceq, Coord.mk.injEq]
      constructor
      · rfl
      · push_cast
        ring

/-- Helper: every cell a corridor changes lies on the corridor. -/
theorem carve_corridor_prov {s e : Coord} {g g' : TGrid (Option TerrainTile)}
    (h : carve_corridor s e g = some g') :
    ∀ c, g'.cells c ≠ g.cells c → c ∈ corridorCells s e := by
  unfold carve_corridor at h
  simp only [Option.bind_eq_bind] at h
  rw [Option.bind_eq_some] at h
  obtain ⟨g1, hH, hV⟩ := h
  intro c hc
  rw [mem_corridorCells]
  by_cases hmid : g'.cells c = g1.cells c
  · have hc1 : g1.cells c ≠ g.cells c := by
      rw [← hmid]
      exact hc
    obtain ⟨j, hj, hceq⟩ := carveH_prov _ _ hH c hc1
    exact Or.inl ⟨j, hj, hceq.symm⟩
  · obtain ⟨j, hj, hceq⟩ := carveV_prov _ _ hV c hmid
    exact Or.inr ⟨j, hj, hceq.symm⟩

/-- Helper: every cell the corridor phase changes lies on the corridor
between some pair of consecutive room centers. -/
theorem corridorsLoop_prov :
    ∀ {centers : List Coord} {g g' : TGrid (Option TerrainTile)},
      corridorsLoop g centers = some g' →
      ∀ c, g'.cells c ≠ g.cells c →
        ∃ a b, ConsecPair centers a b ∧ c ∈ corridorCells a b := by
  intro centers
  induction centers with
  | nil =>
    intro g g' h c hc
    cases h
    exact absurd rfl hc
  | cons x xs ih =>
    intro g g' h c hc
    cases xs with
    | nil =>
      cases h
      exact absurd rfl hc
    | cons y ys =>
      unfold corridorsLoop at h
      simp only [Option.bind_eq_bind] at h
      rw [Option.bind_eq_some] at h
      obtain ⟨g1, hcc, hrest⟩ := h
      by_cases hmid : g'.cells c = g1.cells c
      · have hc1 : g1.cells c ≠ g.cells c := by
          rw [← hmid]
          exact hc
        exact ⟨x, y, ⟨[], ys, rfl⟩, carve_corridor_prov hcc c hc1⟩
      · obtain ⟨a, b, hpair, hmem⟩ := ih hrest c hmid
        exact ⟨a, b, ConsecPair_cons_iff.mpr (Or.inr hpair), hmem⟩

end Terrain
namespace Terrain

/-- Helper: from the start of a corridor whose cells are all non-Wall,
every corridor cell is reachable. -/
theorem reach_corridor_mem {g : TGrid TerrainTile} {a b : Coord}
    (hcells : ∀ c' ∈ corridorCells a b, nonWallAt g c') :
    ∀ c ∈ corridorCells a b, ReachG g a c := by
  have hrow : ∀ x : Int, min a.x b.x ≤ x → x ≤ max a.x b.x →
      nonWallAt g ⟨x, a.y⟩ := by
    intro x h1 h2
    refine hcells _ ?_
    rw [mem_corridorCells]
    refine Or.inl ⟨(x - min a.x b.x).toNat, by omega, ?_⟩
    rw [Coord.mk.injEq]
    exact ⟨by omega, rfl⟩
  have hcol : ∀ y : Int, min a.y b.y ≤ y → y < max a.y b.y →
      nonWallAt g ⟨b.x, y⟩ := by
    intro y h1 h2
    refine hcells _ ?_
    rw [mem_corridorCells]
    refine Or.inr ⟨(y - min a.y b.y).toNat, by omega, ?_⟩
    rw [Coord.mk.injEq]
    exact ⟨rfl, by omega⟩
  have hreach_row : ∀ x : Int, min a.x b.x ≤ x → x ≤ max a.x b.x →
      ReachG g a ⟨x, a.y⟩ := by
    intro x h1 h2
    have := reach_row g a.y a.x x (fun x2 hx1 hx2 => hrow x2 (by omega) (by omega))
    exact this
  intro c hc
  rw [mem_corridorCells] at hc
  rcases hc with ⟨j, hj, hceq⟩ | ⟨j, hj, hceq⟩
  · rw [← hceq]
    exact hreach_row _ (by omega) (by omega)
  · rw [← hceq]
    have h1 : ReachG g a ⟨b.x, a.y⟩ :=
      hreach_row b.x (by omega) (by omega)
    have h2 : ReachG g ⟨b.x, a.y⟩ ⟨b.x, min a.y b.y + (j : Int)⟩ := by
      refine reach_col g b.x a.y (min a.y b.y + (j : Int)) ?_
      intro y hy1 hy2
      by_cases htop : y < max a.y b.y
      · exact hcol y (by omega) htop
      · have hya : y = a.y := by omega
        rw [hya]
        exact hrow b.x (by omega) (by omega)
    exact reachTrans h1 h2

/-- Helper: two room centers joined by a corridor whose cells are all
non-Wall are connected, provided the far center itself is non-Wall (the
vertical run's exclusive upper bound can stop one short of it). -/
theorem reach_center_pair {g : TGrid TerrainTile} {a b : Coord}
    (hcells : ∀ c' ∈ corridorCells a b, nonWallAt g c')
    (hb : nonWallAt g b) : ReachG g a b := by
  have hrow : ∀ x : Int, min a.x b.x ≤ x → x ≤ max a.x b.x →
      nonWallAt g ⟨x, a.y⟩ := by
    intro x h1 h2
    refine hcells _ ?_
    rw [mem_corridorCells]
    refine Or.inl ⟨(x - min a.x b.x).toNat, by omega, ?_⟩
    rw [Coord.mk.injEq]
    exact ⟨by omega, rfl⟩
  have hcol : ∀ y : Int, min a.y b.y ≤ y → y < max a.y b.y →
      nonWallAt g ⟨b.x, y⟩ := by
    intro y h1 h2
    refine hcells _ ?_
    rw [mem_corridorCells]
    refine Or.inr ⟨(y - min a.y b.y).toNat, by omega, ?_⟩
    rw [Coord.mk.injEq]
    exact ⟨rfl, by omega⟩
  have h1 : ReachG g a ⟨b.x, a.y⟩ := by
    have := reach_row g a.y a.x b.x (fun x hx1 hx2 => hrow x (by omega) (by omega))
    exact this
  have h2 : ReachG g ⟨b.x, a.y⟩ ⟨b.x, b.y⟩ := by
    refine reach_col g b.x a.y b.y ?_
    intro y hy1 hy2
    by_cases htop : y < max a.y b.y
    · exact hcol y (by omega) htop
    · by_cases hay : y = a.y
      · rw [hay]
        exact hrow b.x (by omega) (by omega)
      · have hyb : y = b.y := by omega
        rw [hyb]
        exact hb
  exact reachTrans h1 h2

/-- Helper: if each consecutive pair of a list is connected, the head
reaches every element. -/
theorem reach_chain {g : TGrid TerrainTile} :
    ∀ (l : List Coord) (c0 : Coord), l.head? = some c0 → nonWallAt g c0 →
      (∀ a b, ConsecPair l a b → ReachG g a b) →
      ∀ c ∈ l, ReachG g c0 c := by
  intro l
  induction l with
  | nil =>
    intro c0 hh
    cases hh
  | cons x xs ih =>
    intro c0 hh h0 hp c hc
    have hx : c0 = x := (Option.some.inj hh).symm
    subst hx
    rcases List.mem_cons.mp hc with hceq | hctail
    · rw [hceq]
      exact ReachG.refl _ h0
    · cases xs with
      | nil =>
        cases hctail
      | cons y ys =>
        have hxy : ReachG g c0 y := hp c0 y ⟨[], ys, rfl⟩
        have hy : nonWallAt g y := reachEndNW hxy
        have htail := ih y rfl hy
          (fun a b hab => hp a b (ConsecPair_cons_iff.mpr (Or.inr hab)))
          c hctail
        exact reachTrans hxy htail

end Terrain
/-- C5: for every run — any grid size, level and RNG state — in which
at least two rooms are accepted, every Floor or Stairs cell of the
returned grid is reachable from the player spawn cell (the first
accepted room's center) via a path of orthogonally adjacent non-Wall
cells: room interiors connect to their centers, consecutive centers
connect through the L-shaped corridors (the corner cell left out by the
vertical loop's exclusive upper bound is covered by the horizontal run,
and the far center itself is non-Wall as a room-interior cell), and
every Floor cell originates either in a room interior or on such a
corridor. -/
theorem c5_floor_stairs_reachable_from_spawn (size : GSize) (level : Nat)
    (r : MRng)
    (h2 : 2 ≤ ((Terrain.generateDungeonAux size level r).map
      (fun t => t.2.1.length)).getD 0) :
    ∃ g centers rest c0,
      Terrain.generateDungeonAux size level r = some (g, centers, rest) ∧
      centers.head? = some c0 ∧
      ∀ c, (g.cells c = Terrain.TerrainTile.Floor ∨
          g.cells c = Terrain.TerrainTile.Stairs) →
        Terrain.ReachG g c0 c := by
  cases haux : Terrain.generateDungeonAux size level r with
  | none =>
    rw [haux] at h2
    simp at h2
  | some res =>
    obtain ⟨gg, centers, rest⟩ := res
    rw [haux] at h2
    simp only [Option.map_some', Option.getD_some] at h2
    obtain ⟨rooms, st, g1, lastC, g2, hInv, hcorr, hlast, hmemLast, hset, hres⟩ :=
      Terrain.gen_decompose haux
    rw [Prod.mk.injEq, Prod.mk.injEq] at hres
    obtain ⟨hg, hc, hr⟩ := hres
    subst hg
    subst hr
    rw [hc] at h2
    have hne : st.room_centers ≠ [] := by
      intro h0
      rw [h0] at h2
      simp at h2
    obtain ⟨hsz1, hch1, hpaircells⟩ := Terrain.corridorsLoop_spec hcorr
    obtain ⟨hsz2, _, hsetval, hsetoth⟩ := Terrain.setChecked_spec hset
    cases hcent : st.room_centers with
    | nil =>
      exact absurd hcent hne
    | cons c0 cs =>
      have hhead : st.room_centers.head? = some c0 := by rw [hcent]; rfl
      have hc0mem : c0 ∈ st.room_centers := by
        rw [hcent]
        exact List.mem_cons_self c0 cs
      -- the returned grid
      have htrans : ∀ c, Terrain.inBounds size c → Terrain.SomeNW g2 c →
          Terrain.nonWallAt (g2.map (fun t => t.getD Terrain.TerrainTile.Wall)) c := by
        intro c hin ht
        obtain ⟨t, ht, htw⟩ := ht
        constructor
        · show Terrain.inBounds g2.size c
          rw [hsz2, hsz1, hInv.sizeEq]
          exact hin
        · show (g2.cells c).getD Terrain.TerrainTile.Wall ≠ Terrain.TerrainTile.Wall
          rw [ht]
          exact htw
      have hmono1 : ∀ c, Terrain.SomeNW st.grid c → Terrain.SomeNW g1 c := by
        intro c hnw
        by_cases hc : g1.cells c = st.grid.cells c
        · obtain ⟨t, ht, htw⟩ := hnw
          exact ⟨t, hc.trans ht, htw⟩
        · obtain ⟨_, hfl, _⟩ := hch1 c hc
          exact ⟨Terrain.TerrainTile.Floor, hfl, by simp⟩
      have hmono2 : ∀ c, Terrain.SomeNW g1 c → Terrain.SomeNW g2 c := by
        intro c hnw
        by_cases hc : c = lastC
        · subst hc
          exact ⟨Terrain.TerrainTile.Stairs, hsetval, by simp⟩
        · obtain ⟨t, ht, htw⟩ := hnw
          exact ⟨t, (hsetoth c hc).trans ht, htw⟩
      have hfromSt : ∀ c, Terrain.inBounds size c → Terrain.SomeNW st.grid c →
          Terrain.nonWallAt (g2.map (fun t => t.getD Terrain.TerrainTile.Wall)) c :=
        fun c hin hnw => htrans c hin (hmono2 c (hmono1 c hnw))
      have hfromG1 : ∀ c, Terrain.inBounds size c → Terrain.SomeNW g1 c →
          Terrain.nonWallAt (g2.map (fun t => t.getD Terrain.TerrainTile.Wall)) c :=
        fun c hin hnw => htrans c hin (hmono2 c hnw)
      have hcnw : ∀ c ∈ st.room_centers,
          Terrain.nonWallAt (g2.map (fun t => t.getD Terrain.TerrainTile.Wall)) c := by
        intro c hc
        have hc2 := hc
        rw [hInv.centersEq, List.mem_map] at hc2
        obtain ⟨room, hrm, rfl⟩ := hc2
        have hf := hInv.roomsFit room hrm
        have h5w : 5 ≤ room.size.width := hf.2.2.2.2.1
        have h5h : 5 ≤ room.size.height := hf.2.2.2.2.2.2.1
        have hint := @Terrain.Room.center_interior room (by omega) (by omega)
        refine hfromSt _ ?_ (hInv.interiorNW room hrm _ hint)
        exact Terrain.Room.coords_inBounds hf (Terrain.Room.interior_mem_coords hint)
      have hpairnw : ∀ a b, Terrain.ConsecPair st.room_centers a b →
          ∀ c ∈ Terrain.corridorCells a b,
            Terrain.nonWallAt (g2.map (fun t => t.getD Terrain.TerrainTile.Wall)) c := by
        intro a b hpair c hmem
        obtain ⟨hin, hnw⟩ := hpaircells a b hpair c hmem
        rw [hInv.sizeEq] at hin
        exact hfromG1 c hin hnw
      have hpairsReach : ∀ a b, Terrain.ConsecPair st.room_centers a b →
          Terrain.ReachG (g2.map (fun t => t.getD Terrain.TerrainTile.Wall)) a b := by
        intro a b hpair
        exact Terrain.reach_center_pair (hpairnw a b hpair)
          (hcnw b (Terrain.ConsecPair_mem hpair).2)
      have hreachCenters : ∀ c ∈ st.room_centers,
          Terrain.ReachG (g2.map (fun t => t.getD Terrain.TerrainTile.Wall)) c0 c := by
        intro c hc
        exact Terrain.reach_chain st.room_centers c0 hhead (hcnw c0 hc0mem)
          hpairsReach c hc
      have hreachInterior : ∀ room ∈ rooms, ∀ c, room.interior c →
          Terrain.ReachG (g2.map (fun t => t.getD Terrain.TerrainTile.Wall)) c0 c := by
        intro room hrm c hc
        have hf := hInv.roomsFit room hrm
        have h5w : 5 ≤ room.size.width := hf.2.2.2.2.1
        have h5h : 5 ≤ room.size.height := hf.2.2.2.2.2.2.1
        have hcen := @Terrain.Room.center_interior room (by omega) (by omega)
        have hcmem : room.center ∈ st.room_centers := by
          rw [hInv.centersEq]
          exact List.mem_map_of_mem Terrain.Room.center hrm
        refine Terrain.reachTrans (hreachCenters _ hcmem) ?_
        refine Terrain.reach_interior ?_ hcen c hc
        intro c2 hc2
        refine hfromSt c2 ?_ (hInv.interiorNW room hrm c2 hc2)
        exact Terrain.Room.coords_inBounds hf (Terrain.Room.interior_mem_coords hc2)
      have hcenters_head : centers.head? = some c0 := by
        rw [hc, hcent]
        rfl
      refine ⟨g2.map (fun t => t.getD Terrain.TerrainTile.Wall),
        centers, st.rng, c0, by rw [hc], hcenters_head, ?_⟩
      intro c hfs
      have hfs2 : ∃ t, g2.cells c = some t ∧
          (t = Terrain.TerrainTile.Floor ∨ t = Terrain.TerrainTile.Stairs) := by
        cases hg2v : g2.cells c with
        | none =>
          rw [show (g2.map (fun t => t.getD Terrain.TerrainTile.Wall)).cells c =
            (g2.cells c).getD Terrain.TerrainTile.Wall from rfl, hg2v] at hfs
          rcases hfs with h0 | h0
          · cases h0
          · cases h0
        | some t =>
          rw [show (g2.map (fun t => t.getD Terrain.TerrainTile.Wall)).cells c =
            (g2.cells c).getD Terrain.TerrainTile.Wall from rfl, hg2v] at hfs
          exact ⟨t, rfl, hfs⟩
      obtain ⟨t, hg2c, ht⟩ := hfs2
      by_cases hlc : c = lastC
      · subst hlc
        exact hreachCenters c hmemLast
      · have hg1c : g1.cells c = some t := ((hsetoth c hlc).symm.trans hg2c)
        rcases ht with hF | hS
        · subst hF
          by_cases hchg : g1.cells c = st.grid.cells c
          · have hstF : st.grid.cells c = some Terrain.TerrainTile.Floor :=
              hchg.symm.trans hg1c
            obtain ⟨room, hrm, hint⟩ := hInv.floorProv c hstF
            exact hreachInterior room hrm c hint
          · obtain ⟨a, b, hpair, hmem⟩ := Terrain.corridorsLoop_prov hcorr c hchg
            refine Terrain.reachTrans
              (hreachCenters a (Terrain.ConsecPair_mem hpair).1) ?_
            exact Terrain.reach_corridor_mem (hpairnw a b hpair) c hmem
        · subst hS
          by_cases hchg : g1.cells c = st.grid.cells c
          · exact absurd (hchg.symm.trans hg1c) (hInv.noStairs c)
          · obtain ⟨hin, hfl, _⟩ := hch1 c hchg
            rw [hg1c] at hfl
            cases Option.some.inj hfl

/-- Witness for `c5_floor_stairs_reachable_from_spawn` at a concrete run
that accepts two rooms. -/
theorem c5_witness :
    2 ≤ ((Terrain.generateDungeonAux ⟨12, 9⟩ 1 ⟨Terrain.twoRoomSeq, 0⟩).map
      (fun t => t.2.1.length)).getD 0 ∧
    ∃ g centers rest c0,
      Terrain.generateDungeonAux ⟨12, 9⟩ 1 ⟨Terrain.twoRoomSeq, 0⟩ =
        some (g, centers, rest) ∧
      centers.head? = some c0 ∧
      ∀ c, (g.cells c = Terrain.TerrainTile.Floor ∨
          g.cells c = Terrain.TerrainTile.Stairs) →
        Terrain.ReachG g c0 c :=
  ⟨by decide,
    c5_floor_stairs_reachable_from_spawn ⟨12, 9⟩ 1 ⟨Terrain.twoRoomSeq, 0⟩
      (by decide)⟩
